import Mathlib

/-!
# bdix-server-monitor: thread pool and check statistics

A shallow embedding of `src/thread_pool.c`, `src/checker.c` and the headers they use.

* C `double` is modelled exactly (IEEE-754 binary64, round to nearest, ties to even, every
  operation rounded to double): a finite double is a sign and a natural number `k`
  standing for `k * 2^-1074` (`2^-1074` is the smallest subnormal, so every finite double
  is such a multiple).
* `size_t` counters are natural numbers reduced modulo `2^64` at every update.
* The thread pool is a step relation over the shared `ThreadPool` fields, one program
  counter per worker thread and one client thread that calls the pool API.
* `thread_pool_create` is also a step relation (the creating thread and the workers it has
  started), and a pool handle is live, freed or NULL. As a function it has three outcomes:
  a pool, NULL, or no return at all (a `pthread_join` of its failure path that blocks).
* A check of one server takes the results of the libcurl calls and of the clock from a
  `Probe`; `checker_check_category` and `checker_check_multiple` take the outcome of the
  pthread calls, the probes and the order in which the workers run the tasks from a
  `CheckEnv`. Their return code is optional: `none` is a call that does not return. The
  order of the tasks is tied to the step relation of the pool by `pool_order`: the order
  in which the workers call the task functions on a schedule that runs the calls of
  `checker_check_category` to the return of `thread_pool_destroy`.
* A C string is a `String` (its characters are the `char`s before the NUL); the arrays of
  a `ServerCategory` are lists with one entry per allocated slot, and a store outside an
  array is a `Fault`. The JSON value handed to `config.c` is the tree jansson builds; the
  parser itself is a parameter.
* The queue of the pool is also modelled in memory (nodes by address, head and tail
  pointers) and related to the list used in the step relation.
-/

set_option exponentiation.threshold 4096

namespace Bdix

/-! ## C `double` -/

/-- A C `double`: NaN, an infinity, or `(-1)^neg * k * 2^-1074`. -/
inductive Double where
  | nan
  | inf (neg : Bool)
  | fin (neg : Bool) (k : Nat)
deriving DecidableEq

/-- Position of the highest set bit of `q` (for `1 ≤ q < 2^4096`), by binary search. -/
def ilog2 (q : Nat) : Nat :=
  [2048, 1024, 512, 256, 128, 64, 32, 16, 8, 4, 2, 1].foldl
    (fun e b => if 2 ^ (e + b) ≤ q then e + b else e) 0

/-- The quotient `n / d` rounded to the nearest number with a 53-bit significand
(ties to even), in units of `2^-1074`; below `2^53` units the spacing is one unit. -/
def rndQuot (n d : Nat) : Nat :=
  let q := n / d
  let s := if q < 2 ^ 53 then 0 else ilog2 q - 52
  let D := d * 2 ^ s
  let m := n / D
  let R := n % D
  let m1 := if D < 2 * R ∨ (2 * R = D ∧ m % 2 = 1) then m + 1 else m
  m1 * 2 ^ s

/-- Rounding of an exact magnitude `k` (in units of `2^-1074`) to a double magnitude. -/
def rnd (k : Nat) : Nat := rndQuot k 1

/-- First magnitude that is no longer finite: `2^1024`, in units of `2^-1074`. -/
def OVERFLOW : Nat := 2 ^ 2098

/-- The double of sign `neg` nearest to the exact magnitude `k`. -/
def Double.ofMag (neg : Bool) (k : Nat) : Double :=
  if rnd k < OVERFLOW then .fin neg (rnd k) else .inf neg

/-- The double of sign `neg` nearest to the exact quotient `n / d` (`d ≠ 0`). -/
def Double.ofQuot (neg : Bool) (n d : Nat) : Double :=
  if rndQuot n d < OVERFLOW then .fin neg (rndQuot n d) else .inf neg

/-- The value is a double: NaN, an infinity, or a finite magnitude that rounding leaves
unchanged and that lies below the overflow bound. -/
def Double.isDouble : Double → Bool
  | .nan => true
  | .inf _ => true
  | .fin _ k => decide (rnd k = k) && decide (k < OVERFLOW)

/-- The value `0.0`. -/
def Double.zero : Double := .fin false 0

/-- The macro `INFINITY` of `math.h`. -/
def INFINITY : Double := .inf false

/-- Conversion of an integer value `n ≥ 0` (a `size_t`, an `int` constant) to `double`. -/
def Double.ofNat (n : Nat) : Double := Double.ofMag false (n * 2 ^ 1074)

/-- A finite double as a signed number of units of `2^-1074`. -/
def Double.signed (neg : Bool) (k : Nat) : Int := if neg then -(k : Int) else (k : Int)

/-- The C operator `<` on doubles. -/
def Double.lt : Double → Double → Bool
  | .nan, _ => false
  | _, .nan => false
  | .inf a, .inf b => a && !b
  | .inf a, .fin _ _ => a
  | .fin _ _, .inf b => !b
  | .fin a x, .fin b y => decide (Double.signed a x < Double.signed b y)

/-- The C operator `<=` on doubles. -/
def Double.le : Double → Double → Bool
  | .nan, _ => false
  | _, .nan => false
  | .inf a, .inf b => a || !b
  | .inf a, .fin _ _ => a
  | .fin _ _, .inf b => !b
  | .fin a x, .fin b y => decide (Double.signed a x ≤ Double.signed b y)

/-- The C operator `==` on doubles. -/
def Double.feq : Double → Double → Bool
  | .nan, _ => false
  | _, .nan => false
  | .inf a, .inf b => a == b
  | .inf _, .fin _ _ => false
  | .fin _ _, .inf _ => false
  | .fin a x, .fin b y => decide (Double.signed a x = Double.signed b y)

/-- The C operator `>` on doubles. -/
def Double.gt (a b : Double) : Bool := Double.lt b a

/-- The C operator `>=` on doubles. -/
def Double.ge (a b : Double) : Bool := Double.le b a

/-- The C operator `+` on doubles. -/
def Double.add : Double → Double → Double
  | .nan, _ => .nan
  | _, .nan => .nan
  | .inf a, .inf b => if a = b then .inf a else .nan
  | .inf a, .fin _ _ => .inf a
  | .fin _ _, .inf b => .inf b
  | .fin a x, .fin b y =>
    if a = b then Double.ofMag a (x + y)
    else if x = y then .fin false 0
    else if y < x then Double.ofMag a (x - y)
    else Double.ofMag b (y - x)

/-- The C operator `/` on doubles. -/
def Double.div : Double → Double → Double
  | .nan, _ => .nan
  | _, .nan => .nan
  | .inf _, .inf _ => .nan
  | .inf a, .fin b _ => .inf (xor a b)
  | .fin a _, .inf b => .fin (xor a b) 0
  | .fin a x, .fin b y =>
    if y = 0 then (if x = 0 then .nan else .inf (xor a b))
    else Double.ofQuot (xor a b) (x * 2 ^ 1074) y

/-- Two doubles denote the same number: the same bits, or equal under `==`
(which identifies `0.0` and `-0.0`). -/
def Double.same (a b : Double) : Prop := a = b ∨ Double.feq a b = true

/-! ## include/server.h, include/checker.h -/

/-- The enum `ServerStatus`. -/
inductive ServerStatus where
  | BDIX_STATUS_UNKNOWN
  | BDIX_STATUS_ONLINE
  | BDIX_STATUS_OFFLINE
  | BDIX_STATUS_TIMEOUT
  | BDIX_STATUS_ERROR
deriving DecidableEq

/-- The struct `Server`. -/
structure Server where
  url : String
  status : ServerStatus
  latency_ms : Double
  response_code : Int
  last_checked : Int
deriving DecidableEq

/-- The struct `CheckerStats`; the five counters are `_Atomic size_t`. -/
structure CheckerStats where
  total_checked : Nat
  online_count : Nat
  offline_count : Nat
  timeout_count : Nat
  error_count : Nat
  total_latency_ms : Double
  min_latency_ms : Double
  max_latency_ms : Double
deriving DecidableEq

/-- One more than `SIZE_MAX`: `size_t` arithmetic is modulo this number. -/
def SIZE_MOD : Nat := 2 ^ 64

/-! ## src/checker.c: statistics -/

/-- The function `checker_stats_init` (checker.c 274-289): the state it stores. -/
def checker_stats_init : CheckerStats :=
  { total_checked := 0
    online_count := 0
    offline_count := 0
    timeout_count := 0
    error_count := 0
    total_latency_ms := Double.zero
    min_latency_ms := INFINITY
    max_latency_ms := Double.zero }

/-- The function `checker_stats_update` (checker.c 294-346) on non-NULL arguments, run
without interference: every `atomic_fetch_add` adds 1 modulo `2^64`, the first
compare-exchange loop stores `current_total + latency_ms`, the second stores
`latency_ms` when `latency_ms < current_min`, the third when `latency_ms > current_max`. -/
def checker_stats_update (stats : CheckerStats) (server : Server) : CheckerStats :=
  let s1 := { stats with total_checked := (stats.total_checked + 1) % SIZE_MOD }
  let s2 :=
    match server.status with
    | .BDIX_STATUS_ONLINE => { s1 with online_count := (s1.online_count + 1) % SIZE_MOD }
    | .BDIX_STATUS_OFFLINE => { s1 with offline_count := (s1.offline_count + 1) % SIZE_MOD }
    | .BDIX_STATUS_TIMEOUT => { s1 with timeout_count := (s1.timeout_count + 1) % SIZE_MOD }
    | .BDIX_STATUS_ERROR => { s1 with error_count := (s1.error_count + 1) % SIZE_MOD }
    | .BDIX_STATUS_UNKNOWN => s1
  if server.status = .BDIX_STATUS_ONLINE ∧ Double.ge server.latency_ms (Double.ofNat 0) = true then
    let s3 := { s2 with total_latency_ms := Double.add s2.total_latency_ms server.latency_ms }
    let s4 :=
      if Double.lt server.latency_ms s3.min_latency_ms = true then
        { s3 with min_latency_ms := server.latency_ms }
      else s3
    if Double.gt server.latency_ms s4.max_latency_ms = true then
      { s4 with max_latency_ms := server.latency_ms }
    else s4
  else s2

/-- The function `checker_stats_get_avg_latency` (checker.c 351-363); `none` is a NULL
pointer. -/
def checker_stats_get_avg_latency (stats : Option CheckerStats) : Double :=
  match stats with
  | none => Double.zero
  | some s =>
    if s.online_count = 0 then Double.zero
    else Double.div s.total_latency_ms (Double.ofNat s.online_count)

/-- The statistics after `checker_stats_init` followed by one `checker_stats_update`
per record of `l`, in list order. -/
def stats_fold (l : List Server) : CheckerStats :=
  l.foldl checker_stats_update checker_stats_init

/-- A `Server` record with the given status and latency (the other fields zeroed, as by
`memset` in tests/test_checker.c). -/
def mkServer (st : ServerStatus) (lat : Double) : Server :=
  { url := "", status := st, latency_ms := lat, response_code := 0, last_checked := 0 }

/-! ## Auxiliary definitions for the statistics theorems -/

/-- The guard of the latency block of `checker_stats_update` (checker.c 321). -/
def counted (x : Server) : Prop :=
  x.status = .BDIX_STATUS_ONLINE ∧ Double.ge x.latency_ms (Double.ofNat 0) = true

instance (x : Server) : Decidable (counted x) := by unfold counted; infer_instance

/-- Number of records of `l` with status `st`. -/
def cnt (st : ServerStatus) (l : List Server) : Nat := l.countP (fun x => x.status = st)

/-- The records of the end-to-end scenario: Online with 100 ms, Offline (after 250 ms),
Timeout (after 10000 ms). -/
def scenario : List Server :=
  [ mkServer .BDIX_STATUS_ONLINE (.fin false (100 * 2 ^ 1074)),
    mkServer .BDIX_STATUS_OFFLINE (.fin false (250 * 2 ^ 1074)),
    mkServer .BDIX_STATUS_TIMEOUT (.fin false (10000 * 2 ^ 1074)) ]

/-- The latencies 5.0, 100.0, 1.0, 50.0 as ONLINE records. -/
def fourLatencies : List Server :=
  [ mkServer .BDIX_STATUS_ONLINE (.fin false (5 * 2 ^ 1074)),
    mkServer .BDIX_STATUS_ONLINE (.fin false (100 * 2 ^ 1074)),
    mkServer .BDIX_STATUS_ONLINE (.fin false (1 * 2 ^ 1074)),
    mkServer .BDIX_STATUS_ONLINE (.fin false (50 * 2 ^ 1074)) ]

/-- The double nearest to 0.1: `3602879701896397 * 2^-55`. -/
def tenth : Double := .fin false (3602879701896397 * 2 ^ 1019)

/-- The second compare-exchange loop: the new minimum for latency `x` and current `m`. -/
def lower (x m : Double) : Double := if Double.lt x m = true then x else m

/-- The third compare-exchange loop: the new maximum for latency `x` and current `m`. -/
def raise (x m : Double) : Double := if Double.gt x m = true then x else m

/-- Two statistics states agree on the five counters and hold the same minimum and the
same maximum as numbers (`Double.same`); total_latency_ms is not compared. -/
def StatsEquiv (s t : CheckerStats) : Prop :=
  s.total_checked = t.total_checked ∧ s.online_count = t.online_count ∧
  s.offline_count = t.offline_count ∧ s.timeout_count = t.timeout_count ∧
  s.error_count = t.error_count ∧
  Double.same s.min_latency_ms t.min_latency_ms ∧
  Double.same s.max_latency_ms t.max_latency_ms

/-! ## include/common.h -/

/-- The macro `MAX_THREADS`. -/
def MAX_THREADS : Nat := 64

/-- The return code `BDIX_SUCCESS`. -/
def BDIX_SUCCESS : Int := 0

/-- The return code `BDIX_ERROR`. -/
def BDIX_ERROR : Int := -1

/-- The return code `BDIX_ERROR_INVALID_INPUT`. -/
def BDIX_ERROR_INVALID_INPUT : Int := -3

/-! ## include/thread_pool.h -/

/-- A thread of the model: the client that calls the pool API, or worker number `i`. -/
inductive Tid where
  | client
  | worker (i : Nat)
deriving DecidableEq

/-- The struct `WorkItem` without its `next` link; function pointer 0 is NULL. -/
structure WorkItem where
  function : Nat
  arg : Nat
deriving DecidableEq

/-- The struct `ThreadPool`: `work_queue` lists the nodes from `work_queue_head` to
`work_queue_tail`, `queue_mutex` is the thread holding the mutex (if any); the two condition
variables have no state of their own (their waiters are the threads blocked on them). -/
structure ThreadPool where
  thread_count : Nat
  work_queue : List WorkItem
  queue_mutex : Option Tid
  working_count : Nat
  pending_count : Nat
  shutdown : Bool
deriving DecidableEq

/-! ## src/thread_pool.c -/

/-- Outcomes of the pthread calls made by `thread_pool_create`. The last field is the
outcome of the `pthread_join` calls of the failure path (line 132): they return when every
started worker sees the shutdown flag or the broadcast of lines 127-128, and block for
ever when a started worker tested the flag (line 29) before the store and called
`pthread_cond_wait` (line 30) after the broadcast, which is sent without the mutex. -/
structure PthreadEnv where
  mutex_init_ok : Bool
  work_cond_init_ok : Bool
  done_cond_init_ok : Bool
  create_ok : Nat → Bool
  join_returns : Bool := true

/-- What `thread_pool_create` returns (`none` is NULL), how many worker threads its calls
to `pthread_create` started, and whether the call blocks for ever in `pthread_join`
instead of returning. -/
structure CreateResult where
  pool : Option ThreadPool
  started : Nat
  blocks : Bool := false
deriving DecidableEq

/-- The function `thread_pool_create` (thread_pool.c 77-146). When `pthread_create` fails
for worker `i`, the `i` workers already started are told to shut down and joined; NULL is
returned when the joins return (always so when `i = 0`: there is nothing to join).
A failing `safe_calloc` ends the process and is not modelled. -/
def thread_pool_create (env : PthreadEnv) (thread_count : Nat) : CreateResult :=
  if thread_count = 0 ∨ thread_count > MAX_THREADS then { pool := none, started := 0 }
  else if env.mutex_init_ok = false then { pool := none, started := 0 }
  else if env.work_cond_init_ok = false then { pool := none, started := 0 }
  else if env.done_cond_init_ok = false then { pool := none, started := 0 }
  else
    match (List.range thread_count).find? (fun i => env.create_ok i = false) with
    | some i =>
      { pool := none, started := i, blocks := decide (i > 0) && !env.join_returns }
    | none =>
      { pool := some
          { thread_count := thread_count
            work_queue := []
            queue_mutex := none
            working_count := 0
            pending_count := 0
            shutdown := false }
        started := thread_count }

/-- The environment in which every pthread call succeeds. -/
def pthreadOk : PthreadEnv :=
  { mutex_init_ok := true, work_cond_init_ok := true, done_cond_init_ok := true,
    create_ok := fun _ => true }

/-- Lines 152-160 of `thread_pool_add_work`: the error code returned before anything is
touched, if any (`none` as pool is the NULL pointer). -/
def add_work_check (pool : Option ThreadPool) (function : Nat) : Option Int :=
  match pool with
  | none => some BDIX_ERROR_INVALID_INPUT
  | some p =>
    if function = 0 then some BDIX_ERROR_INVALID_INPUT
    else if p.shutdown = true then some BDIX_ERROR
    else none

/-- Lines 171-178 of `thread_pool_add_work`: link the node behind the tail and add 1 to
`pending_count`. -/
def enqueue (p : ThreadPool) (work : WorkItem) : ThreadPool :=
  { p with work_queue := p.work_queue ++ [work]
           pending_count := (p.pending_count + 1) % SIZE_MOD }

/-- The function `thread_pool_add_work` (thread_pool.c 151-189) run without interference:
return code and pool afterwards. -/
def thread_pool_add_work (pool : Option ThreadPool) (function arg : Nat) :
    Int × Option ThreadPool :=
  match add_work_check pool function with
  | some code => (code, pool)
  | none => (BDIX_SUCCESS, pool.map (fun p => enqueue p { function := function, arg := arg }))

/-- The loop condition of `thread_pool_wait` (thread_pool.c 205-206). -/
def thread_pool_wait_cond (p : ThreadPool) : Bool :=
  decide (p.pending_count > 0) || decide (p.working_count > 0)

/-- The function `thread_pool_is_idle` (thread_pool.c 291-298) on a non-NULL pool. -/
def thread_pool_is_idle (p : ThreadPool) : Bool :=
  decide (p.pending_count = 0) && decide (p.working_count = 0)

/-- Program points of `worker_thread` (thread_pool.c 12-72). -/
inductive WorkerPc where
  /-- line 26, before `pthread_mutex_lock` -/
  | lock
  /-- line 29, mutex held, about to evaluate the wait condition -/
  | waitLoop
  /-- line 30, mutex held, the condition was true, about to call `pthread_cond_wait` -/
  | condWait
  /-- line 30, inside `pthread_cond_wait`: mutex released, not woken -/
  | blocked
  /-- line 30, woken inside `pthread_cond_wait`, about to re-acquire the mutex -/
  | woken
  /-- line 34, mutex held, about to load `shutdown` -/
  | checkShutdown
  /-- lines 40-47, mutex held, about to take the head of the queue -/
  | dequeue
  /-- line 49, about to unlock, `work` as set by lines 40-47 -/
  | unlock (work : Option WorkItem)
  /-- line 53, about to add 1 to `working_count` -/
  | incWorking (work : WorkItem)
  /-- lines 55-59, about to call the function of `work` -/
  | run (work : WorkItem)
  /-- line 61, about to subtract 1 from `working_count` -/
  | decWorking
  /-- line 64 -/
  | doneLock
  /-- line 65 -/
  | doneSignal
  /-- line 66 -/
  | doneUnlock
  /-- line 71, the thread has returned -/
  | exited
deriving DecidableEq

/-- What a step of a worker does besides changing the pool fields. -/
inductive Event where
  | tau
  | dequeued (work : WorkItem)
  | executed (work : WorkItem)
  | signalDone
deriving DecidableEq

/-- One step of `worker_thread` for worker `i` at program point `pc`; `none` when the
thread cannot move (mutex taken, blocked in `pthread_cond_wait`, or returned). -/
def worker_thread (i : Nat) (p : ThreadPool) : WorkerPc → Option (ThreadPool × WorkerPc × Event)
  | .lock =>
    if p.queue_mutex = none then
      some ({ p with queue_mutex := some (.worker i) }, .waitLoop, .tau)
    else none
  | .waitLoop =>
    if p.work_queue = [] ∧ p.shutdown = false then some (p, .condWait, .tau)
    else some (p, .checkShutdown, .tau)
  | .condWait => some ({ p with queue_mutex := none }, .blocked, .tau)
  | .blocked => none
  | .woken =>
    if p.queue_mutex = none then
      some ({ p with queue_mutex := some (.worker i) }, .waitLoop, .tau)
    else none
  | .checkShutdown =>
    if p.shutdown = true then some ({ p with queue_mutex := none }, .exited, .tau)
    else some (p, .dequeue, .tau)
  | .dequeue =>
    match p.work_queue with
    | [] => some (p, .unlock none, .tau)
    | work :: rest =>
      some ({ p with work_queue := rest
                     pending_count := (p.pending_count + SIZE_MOD - 1) % SIZE_MOD },
        .unlock (some work), .dequeued work)
  | .unlock none => some ({ p with queue_mutex := none }, .lock, .tau)
  | .unlock (some work) => some ({ p with queue_mutex := none }, .incWorking work, .tau)
  | .incWorking work =>
    some ({ p with working_count := (p.working_count + 1) % SIZE_MOD }, .run work, .tau)
  | .run work =>
    some (p, .decWorking, if work.function = 0 then .tau else .executed work)
  | .decWorking =>
    some ({ p with working_count := (p.working_count + SIZE_MOD - 1) % SIZE_MOD },
      .doneLock, .tau)
  | .doneLock =>
    if p.queue_mutex = none then
      some ({ p with queue_mutex := some (.worker i) }, .doneSignal, .tau)
    else none
  | .doneSignal => some (p, .doneUnlock, .signalDone)
  | .doneUnlock => some ({ p with queue_mutex := none }, .lock, .tau)
  | .exited => none

/-- Program points of the client thread inside the API functions. -/
inductive ClientPc where
  /-- between two API calls -/
  | ready
  /-- `thread_pool_add_work` 152-160 -/
  | addCheck (function arg : Nat)
  /-- `thread_pool_add_work` 169 -/
  | addLock (work : WorkItem)
  /-- `thread_pool_add_work` 171-178, mutex held -/
  | addEnqueue (work : WorkItem)
  /-- `thread_pool_add_work` 181 -/
  | addSignal
  /-- `thread_pool_add_work` 183-188 -/
  | addUnlock
  /-- `thread_pool_wait` 202 -/
  | waitLock
  /-- `thread_pool_wait` 205-206, mutex held -/
  | waitLoop
  /-- `thread_pool_wait` 207, inside `pthread_cond_wait`, not woken -/
  | waitBlocked
  /-- `thread_pool_wait` 207, woken, about to re-acquire the mutex -/
  | waitWoken
  /-- `thread_pool_wait` 210-213 -/
  | waitUnlock
  /-- `thread_pool_destroy` 227 -/
  | destroyStore
  /-- `thread_pool_destroy` 230 -/
  | destroyLock
  /-- `thread_pool_destroy` 231 -/
  | destroyBroadcast
  /-- `thread_pool_destroy` 232 -/
  | destroyUnlock
  /-- `thread_pool_destroy` 235-238, about to join worker `i` -/
  | destroyJoin (i : Nat)
  /-- `thread_pool_destroy` 241 -/
  | drainLock
  /-- `thread_pool_destroy` 243-248, mutex held -/
  | drainFree
  /-- `thread_pool_destroy` 250 -/
  | drainUnlock
  /-- `thread_pool_destroy` has returned, the pool is freed -/
  | destroyed
deriving DecidableEq

/-- A completed API call with its return code. -/
inductive Returned where
  | add_work (code : Int)
  | wait (code : Int)
  | destroy
deriving DecidableEq

/-- The pool together with its threads. The last four fields are history variables:
work items taken from the queue by workers, work items whose function has been called,
nodes freed by the drain loop of `thread_pool_destroy`, and the API calls that returned. -/
structure Sys where
  pool : ThreadPool
  workers : List WorkerPc
  client : ClientPc
  dequeued : List WorkItem
  executed : List WorkItem
  released : List WorkItem
  returns : List Returned
deriving DecidableEq

/-- The system right after a successful `thread_pool_create`: every worker at the top of
its loop, the client between calls. -/
def Sys.init (p : ThreadPool) : Sys :=
  { pool := p
    workers := List.replicate p.thread_count .lock
    client := .ready
    dequeued := []
    executed := []
    released := []
    returns := [] }

/-- Scheduler choices. -/
inductive Label where
  /-- worker `i` takes its next step -/
  | worker (i : Nat)
  /-- spurious wake-up of worker `i` from `pthread_cond_wait` -/
  | wake (i : Nat)
  /-- spurious wake-up of the client from `pthread_cond_wait` -/
  | wakeClient
  /-- the client calls `thread_pool_add_work(pool, function, arg)` -/
  | call_add_work (function arg : Nat)
  /-- the client calls `thread_pool_wait(pool)` -/
  | call_wait
  /-- the client calls `thread_pool_destroy(pool)` -/
  | call_destroy
  /-- the client takes its next step; `target` is the worker a `pthread_cond_signal`
  wakes -/
  | client (target : Nat)
deriving DecidableEq

/-- The effect of `pthread_cond_broadcast(&pool->work_cond)`. -/
def wakeAll (ws : List WorkerPc) : List WorkerPc :=
  ws.map (fun pc => if pc = .blocked then .woken else pc)

/-- The history and signalling effect of a worker event. -/
def Sys.apply (s : Sys) : Event → Sys
  | .tau => s
  | .dequeued work => { s with dequeued := s.dequeued ++ [work] }
  | .executed work => { s with executed := s.executed ++ [work] }
  | .signalDone => if s.client = .waitBlocked then { s with client := .waitWoken } else s

/-- One step of the client inside an API function. -/
def client_step (s : Sys) (target : Nat) : Option Sys :=
  match s.client with
  | .ready => none
  | .addCheck function arg =>
    match add_work_check (some s.pool) function with
    | some code => some { s with client := .ready, returns := s.returns ++ [.add_work code] }
    | none => some { s with client := .addLock { function := function, arg := arg } }
  | .addLock work =>
    if s.pool.queue_mutex = none then
      some { s with pool := { s.pool with queue_mutex := some .client },
                    client := .addEnqueue work }
    else none
  | .addEnqueue work => some { s with pool := enqueue s.pool work, client := .addSignal }
  | .addSignal =>
    if s.workers[target]? = some .blocked then
      some { s with workers := s.workers.set target .woken, client := .addUnlock }
    else if .blocked ∈ s.workers then none
    else some { s with client := .addUnlock }
  | .addUnlock =>
    some { s with pool := { s.pool with queue_mutex := none }, client := .ready,
                  returns := s.returns ++ [.add_work BDIX_SUCCESS] }
  | .waitLock =>
    if s.pool.queue_mutex = none then
      some { s with pool := { s.pool with queue_mutex := some .client }, client := .waitLoop }
    else none
  | .waitLoop =>
    if thread_pool_wait_cond s.pool = true then
      some { s with pool := { s.pool with queue_mutex := none }, client := .waitBlocked }
    else some { s with client := .waitUnlock }
  | .waitBlocked => none
  | .waitWoken =>
    if s.pool.queue_mutex = none then
      some { s with pool := { s.pool with queue_mutex := some .client }, client := .waitLoop }
    else none
  | .waitUnlock =>
    some { s with pool := { s.pool with queue_mutex := none }, client := .ready,
                  returns := s.returns ++ [.wait BDIX_SUCCESS] }
  | .destroyStore =>
    some { s with pool := { s.pool with shutdown := true }, client := .destroyLock }
  | .destroyLock =>
    if s.pool.queue_mutex = none then
      some { s with pool := { s.pool with queue_mutex := some .client },
                    client := .destroyBroadcast }
    else none
  | .destroyBroadcast => some { s with workers := wakeAll s.workers, client := .destroyUnlock }
  | .destroyUnlock =>
    some { s with pool := { s.pool with queue_mutex := none }, client := .destroyJoin 0 }
  | .destroyJoin i =>
    if i < s.pool.thread_count then
      if s.workers[i]? = some .exited then some { s with client := .destroyJoin (i + 1) }
      else none
    else some { s with client := .drainLock }
  | .drainLock =>
    if s.pool.queue_mutex = none then
      some { s with pool := { s.pool with queue_mutex := some .client }, client := .drainFree }
    else none
  | .drainFree => some { s with released := s.pool.work_queue, client := .drainUnlock }
  | .drainUnlock =>
    some { s with pool := { s.pool with queue_mutex := none }, client := .destroyed,
                  returns := s.returns ++ [.destroy] }
  | .destroyed => none

/-- The step relation of the pool as a function of the scheduler choice; `none` when the
chosen thread cannot move. -/
def Sys.step (s : Sys) : Label → Option Sys
  | .worker i =>
    match s.workers[i]? with
    | none => none
    | some pc =>
      match worker_thread i s.pool pc with
      | none => none
      | some (p, pc2, ev) => some (Sys.apply { s with pool := p, workers := s.workers.set i pc2 } ev)
  | .wake i =>
    if s.workers[i]? = some .blocked then some { s with workers := s.workers.set i .woken }
    else none
  | .wakeClient =>
    if s.client = .waitBlocked then some { s with client := .waitWoken } else none
  | .call_add_work function arg =>
    if s.client = .ready then some { s with client := .addCheck function arg } else none
  | .call_wait => if s.client = .ready then some { s with client := .waitLock } else none
  | .call_destroy => if s.client = .ready then some { s with client := .destroyStore } else none
  | .client target => client_step s target

/-- The state after a schedule, if every chosen thread could move. -/
def Sys.run (s : Sys) : List Label → Option Sys
  | [] => some s
  | l :: ls =>
    match Sys.step s l with
    | none => none
    | some s2 => Sys.run s2 ls

/-- The work item a worker has taken from the queue and whose function it has not yet
called and left. -/
def WorkerPc.unfinished : WorkerPc → Option WorkItem
  | .unlock (some work) => some work
  | .incWorking work => some work
  | .run work => some work
  | _ => none

/-- The pool is idle: no work item is queued and no dequeued work item is unfinished. -/
def Sys.idle (s : Sys) : Prop :=
  s.pool.work_queue = [] ∧ ∀ pc ∈ s.workers, pc.unfinished = none

instance (s : Sys) : Decidable s.idle := by unfold Sys.idle; infer_instance

/-! ## Schedules, states and the invariant used in the pool theorems -/

/-- The pool made by `thread_pool_create(1)`. -/
def pool1 : ThreadPool :=
  { thread_count := 1, work_queue := [], queue_mutex := none, working_count := 0,
    pending_count := 0, shutdown := false }

/-- A schedule: the client submits one task; the worker takes it from the queue and
unlocks the mutex (line 49) but has not yet reached line 53. -/
def dequeuedNotStarted : List Label :=
  [ .call_add_work 1 7, .client 0, .client 0, .client 0, .client 0, .client 0,
    .worker 0, .worker 0, .worker 0, .worker 0, .worker 0 ]

/-- The client then calls `thread_pool_wait`, which runs to its return. -/
def waitCall : List Label := [ .call_wait, .client 0, .client 0, .client 0 ]

/-- A schedule: the client submits one task; the worker passes its shutdown check
(line 34) with the flag clear; the client then calls `thread_pool_destroy`, whose first
step sets the flag (line 227) while the task is still queued. -/
def flagSetAfterCheck : List Label :=
  [ .call_add_work 1 7, .client 0, .client 0, .client 0, .client 0, .client 0,
    .worker 0, .worker 0, .worker 0, .call_destroy, .client 0 ]

/-- The worker then goes on: dequeue, unlock, count, run. -/
def workerRuns : List Label := [ .worker 0, .worker 0, .worker 0, .worker 0 ]

/-- The rest of the run: the worker finishes its loop iteration and exits at its next
shutdown check, `thread_pool_destroy` joins it, drains the queue and returns. -/
def destroyCompletes : List Label :=
  [ .worker 0, .worker 0, .worker 0, .worker 0, .worker 0, .worker 0, .worker 0,
    .client 0, .client 0, .client 0, .client 0, .client 0, .client 0, .client 0, .client 0 ]

/-- The unfinished work items held by the workers. -/
def unfinishedItems (ws : List WorkerPc) : List WorkItem := ws.filterMap WorkerPc.unfinished

/-- How many workers `thread_pool_destroy` has joined when the client is at `c`
(`n` is `thread_count`). -/
def ClientPc.joined (n : Nat) : ClientPc → Nat
  | .destroyJoin i => i
  | .drainLock => n
  | .drainFree => n
  | .drainUnlock => n
  | .destroyed => n
  | _ => 0

/-- The work item the client is about to enqueue. -/
def ClientPc.item : ClientPc → Option WorkItem
  | .addLock work => some work
  | .addEnqueue work => some work
  | _ => none

/-- Invariant of the step relation. -/
structure Inv (s : Sys) : Prop where
  len : s.workers.length = s.pool.thread_count
  hist : (s.executed ++ unfinishedItems s.workers).Perm s.dequeued
  fnQueue : ∀ w ∈ s.pool.work_queue, w.function ≠ 0
  fnHeld : ∀ w ∈ unfinishedItems s.workers, w.function ≠ 0
  fnClient : ∀ w, s.client.item = some w → w.function ≠ 0
  joined : ∀ j, j < s.client.joined s.pool.thread_count → s.workers[j]? = some .exited
  drained : s.client = .drainUnlock ∨ s.client = .destroyed → s.released = s.pool.work_queue

/-- The state in which the run `flagSetAfterCheck ++ workerRuns ++ destroyCompletes` ends. -/
def destroyedState : Sys :=
  { pool := { thread_count := 1, work_queue := [], queue_mutex := none, working_count := 0,
              pending_count := 0, shutdown := true }
    workers := [.exited]
    client := .destroyed
    dequeued := [{ function := 1, arg := 7 }]
    executed := [{ function := 1, arg := 7 }]
    released := []
    returns := [.add_work BDIX_SUCCESS, .destroy] }

/-- The state in which the run `dequeuedNotStarted` ends: the task is out of the queue,
both counters are 0, the worker is at line 53 holding the task. -/
def raceState : Sys :=
  { pool := pool1
    workers := [.incWorking { function := 1, arg := 7 }]
    client := .ready
    dequeued := [{ function := 1, arg := 7 }]
    executed := []
    released := []
    returns := [.add_work BDIX_SUCCESS] }

/-- The state in which the run `flagSetAfterCheck` ends: the flag is set, the task is
still queued, the worker is past its shutdown check. -/
def flagSetState : Sys :=
  { pool := { thread_count := 1, work_queue := [{ function := 1, arg := 7 }],
              queue_mutex := some (.worker 0), working_count := 0, pending_count := 1,
              shutdown := true }
    workers := [.dequeue]
    client := .destroyLock
    dequeued := []
    executed := []
    released := []
    returns := [.add_work BDIX_SUCCESS] }

/-! ## Submission order -/

/-- The work item a step accepts for submission: the client passing the checks of
`thread_pool_add_work` (lines 152-160); that call goes on to enqueue it and return
`BDIX_SUCCESS`. -/
def Sys.accepts (s : Sys) : Label → List WorkItem
  | .client _ =>
    match s.client with
    | .addCheck function arg =>
      match add_work_check (some s.pool) function with
      | none => [{ function := function, arg := arg }]
      | some _ => []
    | _ => []
  | _ => []

/-- The work items accepted along a schedule, in the order of the calls. -/
def Sys.accepted : Sys → List Label → List WorkItem
  | _, [] => []
  | s, l :: ls =>
    match Sys.step s l with
    | none => []
    | some s2 => s.accepts l ++ Sys.accepted s2 ls

/-- A schedule: three tasks are submitted; the worker takes the first from the queue. -/
def threeSubmitted : List Label :=
  [ .call_add_work 1 10, .client 0, .client 0, .client 0, .client 0, .client 0,
    .call_add_work 1 20, .client 0, .client 0, .client 0, .client 0, .client 0,
    .call_add_work 1 30, .client 0, .client 0, .client 0, .client 0, .client 0,
    .worker 0, .worker 0, .worker 0, .worker 0 ]

/-- The state in which the schedule `threeSubmitted` ends. -/
def oneDequeuedState : Sys :=
  { pool := { thread_count := 1,
              work_queue := [{ function := 1, arg := 20 }, { function := 1, arg := 30 }],
              queue_mutex := some (.worker 0), working_count := 0, pending_count := 2,
              shutdown := false }
    workers := [.unlock (some { function := 1, arg := 10 })]
    client := .ready
    dequeued := [{ function := 1, arg := 10 }]
    executed := []
    released := []
    returns := [.add_work BDIX_SUCCESS, .add_work BDIX_SUCCESS, .add_work BDIX_SUCCESS] }

/-! ## src/thread_pool.c: the caller's handle -/

/-- The caller's pointer `ThreadPool *pool`: NULL, pointing to a live pool, or dangling
(pointing to a pool that `thread_pool_destroy` has freed). -/
inductive PoolHandle where
  | null
  | live (p : ThreadPool)
  | freed
deriving DecidableEq

/-- A memory fault. -/
inductive Fault where
  | use_after_free
  | out_of_bounds
deriving DecidableEq

/-- The function `thread_pool_destroy` (thread_pool.c 219-264) as seen by its caller,
given that the workers exit: the handle afterwards and the number of `pthread_join` calls.
The only guard is the NULL check of lines 220-222; on a live pool the loop of lines 235-238
joins each of the `thread_count` workers and line 261 frees the pool, the caller's pointer
is left as it was (dangling); on a dangling pointer line 227 writes to freed memory. -/
def thread_pool_destroy : PoolHandle → Except Fault (PoolHandle × Nat)
  | .null => .ok (.null, 0)
  | .live p => .ok (.freed, p.thread_count)
  | .freed => .error .use_after_free

/-! ## src/thread_pool.c: `thread_pool_create` with its worker threads -/

/-- Program points of `thread_pool_create` from its thread-creation loop on
(thread_pool.c 122-146). -/
inductive CreatePc where
  /-- lines 122-123, about to test `i < thread_count` and call `pthread_create` for
  worker `i` -/
  | spawn (i : Nat)
  /-- line 127, `pthread_create` failed for worker `i`, about to store the shutdown flag -/
  | store (i : Nat)
  /-- line 128, about to broadcast `work_cond` (the mutex is not taken) -/
  | broadcast (i : Nat)
  /-- lines 131-133, about to join worker `j` of the `i` workers started -/
  | join (i j : Nat)
  /-- lines 135-140, the pool is freed and NULL returned -/
  | failed
  /-- line 145, the pool is returned -/
  | created
deriving DecidableEq

/-- The pool under construction with the worker threads started so far. -/
structure CreateSys where
  pool : ThreadPool
  workers : List WorkerPc
  creator : CreatePc
deriving DecidableEq

/-- Scheduler choices while `thread_pool_create` runs. -/
inductive CreateLabel where
  /-- the thread inside `thread_pool_create` takes its next step -/
  | creator
  /-- worker `i` takes its next step -/
  | worker (i : Nat)
  /-- spurious wake-up of worker `i` from `pthread_cond_wait` -/
  | wake (i : Nat)
deriving DecidableEq

/-- The state when `thread_pool_create(thread_count)` reaches its thread-creation loop
(the count is valid, the mutex and the condition variables are initialised). -/
def CreateSys.init (thread_count : Nat) : CreateSys :=
  { pool := { thread_count := thread_count, work_queue := [], queue_mutex := none,
              working_count := 0, pending_count := 0, shutdown := false }
    workers := []
    creator := .spawn 0 }

/-- One step of `thread_pool_create` or of a started worker; `none` when the chosen
thread cannot move. -/
def CreateSys.step (env : PthreadEnv) (s : CreateSys) : CreateLabel → Option CreateSys
  | .creator =>
    match s.creator with
    | .spawn i =>
      if i < s.pool.thread_count then
        if env.create_ok i = true then
          some { s with workers := s.workers ++ [.lock], creator := .spawn (i + 1) }
        else some { s with creator := .store i }
      else some { s with creator := .created }
    | .store i =>
      some { s with pool := { s.pool with shutdown := true }, creator := .broadcast i }
    | .broadcast i => some { s with workers := wakeAll s.workers, creator := .join i 0 }
    | .join i j =>
      if j < i then
        if s.workers[j]? = some .exited then some { s with creator := .join i (j + 1) }
        else none
      else some { s with creator := .failed }
    | .failed => none
    | .created => none
  | .worker i =>
    match s.workers[i]? with
    | none => none
    | some pc =>
      match worker_thread i s.pool pc with
      | none => none
      | some (p, pc2, _) => some { s with pool := p, workers := s.workers.set i pc2 }
  | .wake i =>
    if s.workers[i]? = some .blocked then some { s with workers := s.workers.set i .woken }
    else none

/-- The state after a schedule, if every chosen thread could move. -/
def CreateSys.run (env : PthreadEnv) (s : CreateSys) : List CreateLabel → Option CreateSys
  | [] => some s
  | l :: ls =>
    match CreateSys.step env s l with
    | none => none
    | some s2 => CreateSys.run env s2 ls

/-- An environment in which `pthread_create` succeeds for worker 0 and fails for worker 1. -/
def secondCreateFails : PthreadEnv :=
  { mutex_init_ok := true, work_cond_init_ok := true, done_cond_init_ok := true,
    create_ok := fun i => decide (i = 0) }

/-- A schedule of `thread_pool_create(2)`: worker 0 is started, locks the mutex and finds
the wait condition true (line 29); `pthread_create` for worker 1 fails, the flag is stored
and `work_cond` is broadcast (lines 127-128) before worker 0 calls `pthread_cond_wait`
(line 30); worker 0 then blocks. -/
def lostWakeup : List CreateLabel :=
  [ .creator, .worker 0, .worker 0, .creator, .creator, .creator, .worker 0 ]

/-- The state in which the schedule `lostWakeup` ends. -/
def lostWakeupState : CreateSys :=
  { pool := { thread_count := 2, work_queue := [], queue_mutex := none,
              working_count := 0, pending_count := 0, shutdown := true }
    workers := [.blocked]
    creator := .join 1 0 }

/-! ## include/server.h: categories -/

/-- The enum `ServerCategoryType`. -/
inductive ServerCategoryType where
  | CATEGORY_FTP
  | CATEGORY_TV
  | CATEGORY_OTHERS
  | CATEGORY_COUNT
deriving DecidableEq

/-- The struct `ServerCategory`: `urls` and `servers` are the two allocated arrays (one
entry per slot, `none` a NULL pointer), of which the first `count` slots are in use. -/
structure ServerCategory where
  urls : List (Option String)
  servers : List Server
  count : Nat
  capacity : Nat
  type : ServerCategoryType
  name : String
deriving DecidableEq

/-- The struct `ServerData`. -/
structure ServerData where
  ftp : ServerCategory
  tv : ServerCategory
  others : ServerCategory
  total_servers : Nat
deriving DecidableEq

/-! ## include/checker.h, src/checker.c: checks -/

/-- The return code `BDIX_ERROR_THREAD`. -/
def BDIX_ERROR_THREAD : Int := -7

/-- The struct `CheckerConfig`. -/
structure CheckerConfig where
  timeout_seconds : Int
  connect_timeout_seconds : Int
  follow_redirects : Bool
  max_redirects : Int
  verify_ssl : Bool
  verbose : Bool
deriving DecidableEq

/-- The libcurl result code `CURLE_OK`. -/
def CURLE_OK : Nat := 0

/-- The libcurl result code `CURLE_OPERATION_TIMEDOUT`. -/
def CURLE_OPERATION_TIMEDOUT : Nat := 28

/-- What libcurl and the clocks do during one call of `checker_check_server`: whether
`curl_easy_init` returns a handle, the two readings of `get_time_ms`, the result of
`curl_easy_perform`, the response code after `curl_easy_getinfo`, and `time(NULL)`. -/
structure Probe where
  handle : Bool
  start_time : Double
  res : Nat
  end_time : Double
  response_code : Int
  now : Int
deriving DecidableEq

/-- Unary minus on doubles. -/
def Double.neg : Double → Double
  | .nan => .nan
  | .inf a => .inf (!a)
  | .fin a k => .fin (!a) k

/-- The C operator `-` on doubles. -/
def Double.sub (a b : Double) : Double := Double.add a (Double.neg b)

/-- Lines 96-109 of `checker_check_server`: the status for a transfer result and a
response code. -/
def classify_status (res : Nat) (response_code : Int) : ServerStatus :=
  if res = CURLE_OK then
    if response_code ≥ 200 ∧ response_code < 400 then .BDIX_STATUS_ONLINE
    else .BDIX_STATUS_OFFLINE
  else if res = CURLE_OPERATION_TIMEDOUT then .BDIX_STATUS_TIMEOUT
  else .BDIX_STATUS_ERROR

/-- The function `server_update_status` (server.c 170-184); `none` is a NULL pointer,
`now` the value of `time(NULL)`. -/
def server_update_status (server : Option Server) (status : ServerStatus)
    (latency_ms : Double) (response_code : Int) (now : Int) : Option Server :=
  match server with
  | none => none
  | some sv =>
    some { sv with status := status, latency_ms := latency_ms,
                   response_code := response_code, last_checked := now }

/-- The function `checker_check_server` (checker.c 60-116): return code and the server
afterwards. -/
def checker_check_server (pr : Probe) (server : Option Server)
    (config : Option CheckerConfig) : Int × Option Server :=
  match server, config with
  | some sv, some _ =>
    if pr.handle = false then (BDIX_ERROR, some sv)
    else
      (BDIX_SUCCESS,
        server_update_status (some sv) (classify_status pr.res pr.response_code)
          (Double.sub pr.end_time pr.start_time) pr.response_code pr.now)
  | _, _ => (BDIX_ERROR_INVALID_INPUT, server)

/-- The struct `CheckWorkItem` (checker.c 121-129): `server` is the index `i` of
`&category->servers[i]`, `stats` tells whether the statistics pointer is non-NULL. -/
structure CheckWorkItem where
  server : Nat
  config : CheckerConfig
  stats : Bool
  category_name : String
  index : Nat
  total : Nat
  show_only_ok : Bool
deriving DecidableEq

/-- The arguments of one call of `ui_print_check_result`. -/
structure Report where
  server : Server
  category : String
  current : Nat
  total : Nat
  show_only_ok : Bool
deriving DecidableEq

/-- What the tasks of one category run share: the array `category->servers`, the
statistics (`none` when the pointer is NULL) and the results printed so far. -/
structure CheckState where
  servers : List Server
  stats : Option CheckerStats
  reports : List Report
deriving DecidableEq

/-- The function `check_worker` (checker.c 134-157); `none` is a NULL argument. The
return code of `checker_check_server` is not looked at. A work item whose server lies
outside the array is not well formed and is skipped. -/
def check_worker (pr : Probe) (work : Option CheckWorkItem) (st : CheckState) : CheckState :=
  match work with
  | none => st
  | some w =>
    match st.servers[w.server]? with
    | none => st
    | some sv =>
      let sv2 := (checker_check_server pr (some sv) (some w.config)).2.getD sv
      { servers := st.servers.set w.server sv2
        stats := if w.stats = true then st.stats.map (fun s => checker_stats_update s sv2)
                 else st.stats
        reports := st.reports ++
          [{ server := sv2, category := w.category_name,
             current := (w.index + 1) % SIZE_MOD, total := w.total,
             show_only_ok := w.show_only_ok }] }

/-- The conversion of an `int` to `size_t`. -/
def size_t_of_int (x : Int) : Nat := (x % (2 ^ 64 : Int)).toNat

/-- The address of the function `check_worker` (not NULL). -/
def CHECK_WORKER : Nat := 1

/-- The outside world of a check run: the outcomes of the pthread calls when the pool
for a category is created, the probe of server `i` of a category, and the order in which
the workers run the tasks of a category (task numbers; on a schedule of the pool that
runs the calls of `checker_check_category` to the end it is a permutation of
`0 .. count-1`). -/
structure CheckEnv where
  pthread : ServerCategoryType → PthreadEnv
  probe : ServerCategoryType → Nat → Probe
  order : ServerCategoryType → List Nat

/-- The work item built by lines 186-194 of `checker_check_category` for server `i`. -/
def make_work (category : ServerCategory) (config : CheckerConfig)
    (stats : Option CheckerStats) (i : Nat) : CheckWorkItem :=
  { server := i
    config := config
    stats := stats.isSome
    category_name := category.name
    index := i
    total := category.count
    show_only_ok := !config.verbose }

/-- The loop of lines 185-202 of `checker_check_category`: the return code (success, or
`BDIX_ERROR_THREAD` at the first `thread_pool_add_work` that does not succeed), the pool
with the accepted work items enqueued, and the work items accepted. -/
def submit_work : ThreadPool → List CheckWorkItem → List CheckWorkItem →
    Int × ThreadPool × List CheckWorkItem
  | pool, [], done => (BDIX_SUCCESS, pool, done)
  | pool, w :: ws, done =>
    match thread_pool_add_work (some pool) CHECK_WORKER w.index with
    | (code, some p2) =>
      if code = BDIX_SUCCESS then submit_work p2 ws (done ++ [w])
      else (BDIX_ERROR_THREAD, pool, done)
    | (_, none) => (BDIX_ERROR_THREAD, pool, done)

/-- The tasks run by the workers, in the order `order` (numbers of submitted tasks). -/
def run_tasks (probe : Nat → Probe) (tasks : List CheckWorkItem) (order : List Nat)
    (st : CheckState) : CheckState :=
  order.foldl (fun acc i => check_worker (probe i) tasks[i]? acc) st

/-- What a call of `checker_check_category` did: its return code (`none` when the call
does not return), the result of its call of `thread_pool_create` (if any), the work items
submitted, and the category, the statistics and the printed results afterwards. -/
structure CategoryRun where
  ret : Option Int
  created : Option CreateResult
  submitted : List CheckWorkItem
  category : Option ServerCategory
  stats : Option CheckerStats
  reports : List Report
deriving DecidableEq

/-- The function `checker_check_category` (checker.c 162-210). When `thread_pool_create`
blocks, so does this call. `thread_pool_wait` and `thread_pool_destroy` return when the
workers have run the submitted tasks; the tasks are run in the order given by the
environment. (Should a submission fail, the tasks submitted before it are run in the same
way.) -/
def checker_check_category (env : CheckEnv) (category : Option ServerCategory)
    (config : Option CheckerConfig) (thread_count : Int) (stats : Option CheckerStats) :
    CategoryRun :=
  match category, config with
  | some cat, some cfg =>
    if cat.count = 0 then
      { ret := some BDIX_SUCCESS, created := none, submitted := [], category := some cat,
        stats := stats, reports := [] }
    else
      let cr := thread_pool_create (env.pthread cat.type) (size_t_of_int thread_count)
      match cr.pool with
      | none =>
        { ret := if cr.blocks = true then none else some BDIX_ERROR_THREAD
          created := some cr, submitted := [], category := some cat, stats := stats
          reports := [] }
      | some pool =>
        let sub := submit_work pool ((List.range cat.count).map (make_work cat cfg stats)) []
        let st := run_tasks (env.probe cat.type) sub.2.2 (env.order cat.type)
          { servers := cat.servers, stats := stats, reports := [] }
        { ret := some sub.1, created := some cr, submitted := sub.2.2,
          category := some { cat with servers := st.servers }, stats := st.stats,
          reports := st.reports }
  | _, _ =>
    { ret := some BDIX_ERROR_INVALID_INPUT, created := none, submitted := [],
      category := category, stats := stats, reports := [] }

/-- What a call of `checker_check_multiple` did: its return code (`none` when the call
does not return), the data and the statistics afterwards, and its calls of
`checker_check_category` in order. -/
structure MultiRun where
  ret : Option Int
  data : Option ServerData
  stats : Option CheckerStats
  runs : List CategoryRun
deriving DecidableEq

/-- One of the three blocks of lines 241-263 of `checker_check_multiple`: the call of
`checker_check_category` for a category that is selected and not empty, if any. -/
def check_selected (env : CheckEnv) (config : CheckerConfig) (thread_count : Int)
    (selected : Bool) (category : ServerCategory) (stats : Option CheckerStats) :
    Option CategoryRun :=
  if selected = true ∧ category.count > 0 then
    some (checker_check_category env (some category) (some config) thread_count stats)
  else none

/-- The variable `ret` after such a block; `none` when the call in it does not return. -/
def block_ret : Option CategoryRun → Option Int
  | some r => r.ret
  | none => some BDIX_SUCCESS

/-- The statistics after such a block. -/
def block_stats (stats : Option CheckerStats) : Option CategoryRun → Option CheckerStats
  | some r => r.stats
  | none => stats

/-- The category after such a block. -/
def block_category (category : ServerCategory) : Option CategoryRun → ServerCategory
  | some r => r.category.getD category
  | none => category

/-- The function `checker_check_multiple` (checker.c 215-269). A block whose call does
not return ends the run like one that returns an error: nothing after it is executed. -/
def checker_check_multiple (env : CheckEnv) (data : Option ServerData)
    (config : Option CheckerConfig) (thread_count : Int)
    (check_ftp check_tv check_others : Bool) (stats : Option CheckerStats) : MultiRun :=
  match data, config with
  | some d, some cfg =>
    let t1 := if check_ftp = true then d.ftp.count % SIZE_MOD else 0
    let t2 := if check_tv = true then (t1 + d.tv.count) % SIZE_MOD else t1
    let total := if check_others = true then (t2 + d.others.count) % SIZE_MOD else t2
    if total = 0 then
      { ret := some BDIX_SUCCESS, data := some d, stats := stats, runs := [] }
    else
      let r1 := check_selected env cfg thread_count check_ftp d.ftp stats
      let d1 := { d with ftp := block_category d.ftp r1 }
      let s1 := block_stats stats r1
      if block_ret r1 ≠ some BDIX_SUCCESS then
        { ret := block_ret r1, data := some d1, stats := s1, runs := r1.toList }
      else
        let r2 := check_selected env cfg thread_count check_tv d1.tv s1
        let d2 := { d1 with tv := block_category d1.tv r2 }
        let s2 := block_stats s1 r2
        if block_ret r2 ≠ some BDIX_SUCCESS then
          { ret := block_ret r2, data := some d2, stats := s2, runs := r1.toList ++ r2.toList }
        else
          let r3 := check_selected env cfg thread_count check_others d2.others s2
          let d3 := { d2 with others := block_category d2.others r3 }
          let s3 := block_stats s2 r3
          if block_ret r3 ≠ some BDIX_SUCCESS then
            { ret := block_ret r3, data := some d3, stats := s3,
              runs := r1.toList ++ r2.toList ++ r3.toList }
          else
            { ret := some BDIX_SUCCESS, data := some d3, stats := s3,
              runs := r1.toList ++ r2.toList ++ r3.toList }
  | _, _ =>
    { ret := some BDIX_ERROR_INVALID_INPUT, data := data, stats := stats, runs := [] }

/-! ## Inputs used in the theorems about checks -/

/-- A server as `server_category_add` leaves it: status UNKNOWN, latency -1.0. -/
def freshServer (url : String) : Server :=
  { url := url, status := .BDIX_STATUS_UNKNOWN, latency_ms := .fin true (1 * 2 ^ 1074),
    response_code := 0, last_checked := 0 }

/-- A zeroed `Server` slot. -/
def zeroServer : Server :=
  { url := "", status := .BDIX_STATUS_UNKNOWN, latency_ms := .fin false 0,
    response_code := 0, last_checked := 0 }

/-- A category of capacity 32 holding no server. -/
def emptyCategory : ServerCategory :=
  { urls := List.replicate 32 none, servers := List.replicate 32 zeroServer, count := 0,
    capacity := 32, type := .CATEGORY_TV, name := "TV" }

/-- A category of capacity 32 holding one server. -/
def oneServerCategory : ServerCategory :=
  { urls := some "http://10.0.0.1" :: List.replicate 31 none
    servers := freshServer "http://10.0.0.1" :: List.replicate 31 zeroServer
    count := 1, capacity := 32, type := .CATEGORY_FTP, name := "FTP" }

/-- The configuration returned by `checker_get_default_config` (checker.c 46-55). -/
def defaultConfig : CheckerConfig :=
  { timeout_seconds := 10, connect_timeout_seconds := 5, follow_redirects := false,
    max_redirects := 0, verify_ssl := true, verbose := true }

/-- A probe that answers 200 after 100 ms (clock readings 1000.0 and 1100.0). -/
def probeOnline : Probe :=
  { handle := true, start_time := .fin false (1000 * 2 ^ 1074), res := 0,
    end_time := .fin false (1100 * 2 ^ 1074), response_code := 200, now := 1700000000 }

/-- A probe for which `curl_easy_init` returns NULL. -/
def probeNoHandle : Probe :=
  { handle := false, start_time := .fin false 0, res := 0, end_time := .fin false 0,
    response_code := 0, now := 0 }

/-- An outside world in which every pthread call succeeds, every probe answers 200 and
the (up to four) tasks run in submission order. -/
def envOk : CheckEnv :=
  { pthread := fun _ => pthreadOk, probe := fun _ _ => probeOnline,
    order := fun _ => [0, 1, 2, 3] }

/-- An outside world like `envOk` in which `pthread_mutex_init` fails when the pool for
the TV category is created. -/
def envTvFails : CheckEnv :=
  { pthread := fun t =>
      if t = .CATEGORY_TV then { pthreadOk with mutex_init_ok := false } else pthreadOk
    probe := fun _ _ => probeOnline
    order := fun _ => [0, 1, 2, 3] }

/-- Server data with one server in each category. -/
def threeCategories : ServerData :=
  { ftp := oneServerCategory
    tv := { oneServerCategory with type := .CATEGORY_TV, name := "TV" }
    others := { oneServerCategory with type := .CATEGORY_OTHERS, name := "Others" }
    total_servers := 3 }

/-- The pool for a category cannot be created: `thread_pool_create` returns NULL. -/
def pool_fails (env : CheckEnv) (thread_count : Int) (category : ServerCategory) : Prop :=
  (thread_pool_create (env.pthread category.type) (size_t_of_int thread_count)).pool = none ∧
  (thread_pool_create (env.pthread category.type) (size_t_of_int thread_count)).blocks
    = false

/-- The call of `thread_pool_create` for a category does not return. -/
def pool_blocks (env : CheckEnv) (thread_count : Int) (category : ServerCategory) : Prop :=
  (thread_pool_create (env.pthread category.type) (size_t_of_int thread_count)).blocks = true

/-- A block of `checker_check_multiple` ends the run with an error: the category is
selected, not empty, and `thread_pool_create` returns NULL for it. -/
def aborts (env : CheckEnv) (thread_count : Int) (selected : Bool)
    (category : ServerCategory) : Prop :=
  selected = true ∧ category.count > 0 ∧ pool_fails env thread_count category

/-- A block of `checker_check_multiple` never ends: the category is selected, not empty,
and `thread_pool_create` does not return for it. -/
def hangs (env : CheckEnv) (thread_count : Int) (selected : Bool)
    (category : ServerCategory) : Prop :=
  selected = true ∧ category.count > 0 ∧ pool_blocks env thread_count category

/-- An outside world like `envOk` in which, for the TV category, `pthread_create` fails
for the second worker and the first worker, woken by the broadcast, returns and is
joined. -/
def envTvCreateFails : CheckEnv :=
  { pthread := fun t =>
      if t = .CATEGORY_TV then { pthreadOk with create_ok := fun i => decide (i = 0) }
      else pthreadOk
    probe := fun _ _ => probeOnline
    order := fun _ => [0, 1, 2, 3] }

/-- An outside world like `envOk` in which, for the TV category, `pthread_create` fails
for the second worker and the first worker misses the wake-up, so that `pthread_join`
does not return. -/
def envTvBlocks : CheckEnv :=
  { pthread := fun t =>
      if t = .CATEGORY_TV then
        { pthreadOk with create_ok := fun i => decide (i = 0), join_returns := false }
      else pthreadOk
    probe := fun _ _ => probeOnline
    order := fun _ => [0, 1, 2, 3] }

/-- The macro `MAX_URL_LENGTH`. -/
def MAX_URL_LENGTH : Nat := 512

/-- The macro `MAX_SERVERS_PER_CATEGORY`. -/
def MAX_SERVERS_PER_CATEGORY : Nat := 2000

/-- The function `strlen`. A C string is a `String` whose characters are the `char`s
before the terminating NUL. -/
def strlen (s : String) : Nat := s.length

/-- Whether `strncmp(s1, s2, n) == 0`: the first `n` characters agree (a string shorter
than `n` must then be the whole of the other). -/
def strncmp_eq (s1 s2 : String) (n : Nat) : Bool := decide (s1.data.take n = s2.data.take n)

/-- The function `is_valid_url` (common.h 174-187); `none` is a NULL pointer. -/
def is_valid_url (url : Option String) : Bool :=
  match url with
  | none => false
  | some u =>
    if strlen u = 0 ∨ strlen u ≥ MAX_URL_LENGTH then false
    else if strncmp_eq u "http://" 7 = false ∧ strncmp_eq u "https://" 8 = false then false
    else true

/-- The function `safe_strncpy` (common.h 129-133) on a non-NULL `dest`: the string in
`dest` afterwards. At most `n - 1` characters are copied. -/
def safe_strncpy (dest : String) (src : Option String) (n : Nat) : String :=
  match src with
  | none => dest
  | some s => if n = 0 then dest else String.mk (s.data.take (n - 1))

/-- An array after `realloc` to `n` slots: the old slots that fit are kept; `fill` stands
for the indeterminate content of the slots added. -/
def realloc_array {α : Type} (l : List α) (n : Nat) (fill : α) : List α :=
  l.take n ++ List.replicate (n - l.length) fill

/-- The array `servers` after `memset(&servers[start], 0, k * sizeof(Server))`, for a
range inside the array. -/
def memset_servers (l : List Server) (start k : Nat) : List Server :=
  l.take start ++ List.replicate k zeroServer ++ l.drop (start + k)

/-- The function `server_category_init` (server.c 43-61): return code and the category
afterwards; both arrays come zeroed from `calloc`. -/
def server_category_init (category : Option ServerCategory) (type : ServerCategoryType)
    (name : Option String) : Int × Option ServerCategory :=
  match category, name with
  | some _, some nm =>
    (BDIX_SUCCESS,
      some { urls := List.replicate 32 none, servers := List.replicate 32 zeroServer,
             count := 0, capacity := 32, type := type, name := nm })
  | _, _ => (BDIX_ERROR_INVALID_INPUT, category)

/-- Lines 116-133 of `server_category_add`: the category after the resize block. The new
`urls` slots are indeterminate (written before they are read), the new `servers` slots are
zeroed by `memset`. The block is entered with `capacity <= count < 2000`. -/
def resize_if_needed (cat : ServerCategory) : ServerCategory :=
  if cat.count ≥ cat.capacity then
    let new_capacity := cat.capacity * 2 % SIZE_MOD
    { cat with
      urls := realloc_array cat.urls new_capacity none
      servers := memset_servers (realloc_array cat.servers new_capacity zeroServer)
        cat.capacity (new_capacity - cat.capacity)
      capacity := new_capacity }
  else cat

/-- The function `server_category_add` (server.c 97-152): return code and the category
afterwards, or a fault when slot `count` lies outside one of the two arrays. -/
def server_category_add (category : Option ServerCategory) (url : Option String) :
    Except Fault (Int × Option ServerCategory) :=
  match category, url with
  | some cat, some u =>
    if is_valid_url (some u) = false then .ok (BDIX_ERROR_INVALID_INPUT, some cat)
    else if cat.count ≥ MAX_SERVERS_PER_CATEGORY then .ok (BDIX_ERROR, some cat)
    else
      let c1 := resize_if_needed cat
      if c1.count < c1.urls.length ∧ c1.count < c1.servers.length then
        .ok (BDIX_SUCCESS,
          some { c1 with
            urls := c1.urls.set c1.count (some u)
            servers := c1.servers.set c1.count
              { url := safe_strncpy (c1.servers.getD c1.count zeroServer).url (some u)
                  MAX_URL_LENGTH
                status := .BDIX_STATUS_UNKNOWN
                latency_ms := .fin true (1 * 2 ^ 1074)
                response_code := 0
                last_checked := 0 }
            count := (c1.count + 1) % SIZE_MOD })
      else .error .out_of_bounds
  | _, _ => .ok (BDIX_ERROR_INVALID_INPUT, category)

/-- The function `server_category_get` (server.c 157-165): the index `i` of the returned
pointer `&category->servers[i]`, `none` for NULL. -/
def server_category_get (category : Option ServerCategory) (index : Nat) : Option Nat :=
  match category with
  | none => none
  | some cat => if index ≥ cat.count then none else some index

/-- The function `server_data_count` (server.c 267-273). -/
def server_data_count (data : Option ServerData) : Nat :=
  match data with
  | none => 0
  | some d => ((d.ftp.count + d.tv.count) % SIZE_MOD + d.others.count) % SIZE_MOD

/-- A sequence of `server_category_add` calls on one category, return codes not looked
at: the category afterwards. -/
def add_each : ServerCategory → List (Option String) → Except Fault ServerCategory
  | cat, [] => .ok cat
  | cat, u :: us =>
    match server_category_add (some cat) u with
    | .error e => .error e
    | .ok (_, c2) => add_each (c2.getD cat) us

/-- The return codes of a sequence of `server_category_add` calls on one category. -/
def add_codes : ServerCategory → List (Option String) → List Int
  | _, [] => []
  | cat, u :: us =>
    match server_category_add (some cat) u with
    | .error _ => []
    | .ok (code, c2) => code :: add_codes (c2.getD cat) us

/-- The category set up by `server_category_init`. -/
def initCategory (type : ServerCategoryType) (name : String) : ServerCategory :=
  { urls := List.replicate 32 none, servers := List.replicate 32 zeroServer,
    count := 0, capacity := 32, type := type, name := name }

/-- The strings stored in the slots in use of `urls`. -/
def ServerCategory.url_list (cat : ServerCategory) : List (Option String) :=
  cat.urls.take cat.count

/-- The servers stored in the slots in use of `servers`. -/
def ServerCategory.server_list (cat : ServerCategory) : List Server :=
  cat.servers.take cat.count

/-- The arrays of a category have `capacity` slots, of which `count` are in use, and
`capacity` is not 0. -/
def ServerCategory.wf (cat : ServerCategory) : Prop :=
  cat.urls.length = cat.capacity ∧ cat.servers.length = cat.capacity ∧
  cat.count ≤ cat.capacity ∧ 0 < cat.capacity

instance (cat : ServerCategory) : Decidable cat.wf := by
  unfold ServerCategory.wf; infer_instance

/-- A category as `server_category_free` leaves it (all fields zeroed by `memset`, the
arrays freed). -/
def zeroedCategory : ServerCategory :=
  { urls := [], servers := [], count := 0, capacity := 0, type := .CATEGORY_FTP, name := "" }

/-- A JSON value as jansson holds it (`json_t`). -/
inductive Json where
  | null
  | boolean (b : Bool)
  | integer (n : Int)
  | real (d : Double)
  | string (s : String)
  | array (l : List Json)
  | object (l : List (String × Json))

/-- The macro `json_is_array`; `none` is a NULL pointer. -/
def json_is_array : Option Json → Bool
  | some (.array _) => true
  | _ => false

/-- The macro `json_is_string`. -/
def json_is_string : Option Json → Bool
  | some (.string _) => true
  | _ => false

/-- The macro `json_is_object`. -/
def json_is_object : Option Json → Bool
  | some (.object _) => true
  | _ => false

/-- The function `json_string_value`. -/
def json_string_value : Option Json → Option String
  | some (.string s) => some s
  | _ => none

/-- The function `json_object_get`. -/
def json_object_get (root : Option Json) (key : String) : Option Json :=
  match root with
  | some (.object l) => (l.find? (fun kv => kv.1 = key)).map (fun kv => kv.2)
  | _ => none

/-- The elements visited by `json_array_foreach`. -/
def json_array_elements : Option Json → List Json
  | some (.array l) => l
  | _ => []

/-- The loop of `parse_server_array` (config.c 22-38) over the elements left. -/
def parse_server_loop : List Json → ServerCategory → Except Fault ServerCategory
  | [], cat => .ok cat
  | value :: rest, cat =>
    if json_is_string (some value) = false then parse_server_loop rest cat
    else
      match json_string_value (some value) with
      | none => parse_server_loop rest cat
      | some url =>
        if strlen url = 0 then parse_server_loop rest cat
        else
          match server_category_add (some cat) (some url) with
          | .error e => .error e
          | .ok (_, c2) => parse_server_loop rest (c2.getD cat)

/-- The function `parse_server_array` (config.c 14-42): return code and the category
afterwards. -/
def parse_server_array (array : Option Json) (category : Option ServerCategory) :
    Except Fault (Int × Option ServerCategory) :=
  match category with
  | none => .ok (BDIX_ERROR_INVALID_INPUT, none)
  | some cat =>
    if json_is_array array = false then .ok (BDIX_ERROR_INVALID_INPUT, some cat)
    else
      match parse_server_loop (json_array_elements array) cat with
      | .error e => .error e
      | .ok c2 => .ok (BDIX_SUCCESS, some c2)

/-- The return code `BDIX_ERROR_JSON_PARSE`. -/
def BDIX_ERROR_JSON_PARSE : Int := -5

/-- One block of `config_load_from_string` (config.c 153-156): the category after
`parse_server_array` was called for the value under `key`, if there is one. -/
def load_key (root : Json) (key : String) (cat : ServerCategory) :
    Except Fault ServerCategory :=
  match json_object_get (some root) key with
  | none => .ok cat
  | some array =>
    match parse_server_array (some array) (some cat) with
    | .error e => .error e
    | .ok (_, c2) => .ok (c2.getD cat)

/-- The function `config_load_from_string` (config.c 128-174): return code and the data
afterwards. `json_loads` is the parser of jansson, which returns NULL (`none`) for a text
that is not valid JSON. -/
def config_load_from_string (json_loads : String → Option Json) (json_str : Option String)
    (data : Option ServerData) : Except Fault (Int × Option ServerData) :=
  match json_str, data with
  | some str, some d =>
    match json_loads str with
    | none => .ok (BDIX_ERROR_JSON_PARSE, some d)
    | some root =>
      if json_is_object (some root) = false then .ok (BDIX_ERROR_JSON_PARSE, some d)
      else
        match load_key root "ftp" d.ftp with
        | .error e => .error e
        | .ok ftp =>
          match load_key root "tv" d.tv with
          | .error e => .error e
          | .ok tv =>
            match load_key root "others" d.others with
            | .error e => .error e
            | .ok others =>
              .ok (BDIX_SUCCESS,
                some { ftp := ftp, tv := tv, others := others
                       total_servers :=
                         server_data_count
                           (some { d with ftp := ftp, tv := tv, others := others }) })
  | _, _ => .ok (BDIX_ERROR_INVALID_INPUT, data)

/-- The elements of a JSON array that `parse_server_array` passes on and
`server_category_add` accepts as URLs: the strings that are valid URLs. -/
def valid_urls (l : List Json) : List String :=
  l.filterMap (fun v =>
    match v with
    | .string s => if is_valid_url (some s) = true then some s else none
    | _ => none)

/-- The arguments of a sequence of `server_category_add` calls that are valid URLs. -/
def accepted_urls (us : List (Option String)) : List String :=
  us.filterMap (fun u => if is_valid_url u = true then u else none)

/-- The function `server_data_init` (server.c 189-223): return code and the data
afterwards. -/
def server_data_init (data : Option ServerData) : Int × Option ServerData :=
  match data with
  | none => (BDIX_ERROR_INVALID_INPUT, none)
  | some _ =>
    (BDIX_SUCCESS,
      some { ftp := initCategory .CATEGORY_FTP "FTP", tv := initCategory .CATEGORY_TV "TV",
             others := initCategory .CATEGORY_OTHERS "Others", total_servers := 0 })

/-- The data set up by `server_data_init`. -/
def initData : ServerData :=
  { ftp := initCategory .CATEGORY_FTP "FTP", tv := initCategory .CATEGORY_TV "TV",
    others := initCategory .CATEGORY_OTHERS "Others", total_servers := 0 }

/-- The URLs of `test_server_category_resize` (tests/test_server.c 46-49). -/
def resizeTestUrls : List String :=
  (List.range 100).map (fun i => "http://server" ++ Nat.repr i ++ ".com")

/-- A category at the limit: 2000 servers in 2048 slots. -/
def fullCategory : ServerCategory :=
  { urls := List.replicate 2000 (some "http://10.0.0.1") ++ List.replicate 48 none
    servers := List.replicate 2000 (freshServer "http://10.0.0.1")
      ++ List.replicate 48 zeroServer
    count := 2000, capacity := 2048, type := .CATEGORY_FTP, name := "FTP" }

/-- The valid URL strings of the array stored under `key` in the object `root` (none when
there is no such key or its value is not an array). -/
def config_urls (root : Json) (key : String) : List String :=
  valid_urls (json_array_elements (json_object_get (some root) key))

/-- Category `new` is `old` with the URLs `l` appended in order, as far as the limit of
MAX_SERVERS_PER_CATEGORY entries allows, each with a fresh `Server` record. -/
def Appended (old new : ServerCategory) (l : List String) : Prop :=
  new.url_list = old.url_list ++ (l.take (MAX_SERVERS_PER_CATEGORY - old.count)).map some ∧
  new.server_list =
    old.server_list ++ (l.take (MAX_SERVERS_PER_CATEGORY - old.count)).map freshServer ∧
  new.count = old.count + min l.length (MAX_SERVERS_PER_CATEGORY - old.count) ∧
  new.type = old.type ∧ new.name = old.name ∧ new.wf

/-- A configuration whose "ftp" array holds 2001 valid URLs. -/
def overfullConfig : Json :=
  .object [("ftp", .array (List.replicate 2001 (.string "http://10.0.0.1")))]

/-- The text of `overfullConfig`. -/
def overfullText : String :=
  "\x7b\"ftp\":[" ++ String.intercalate "," (List.replicate 2001 "\"http://10.0.0.1\"")
    ++ "]\x7d"

/-- A parser that knows the text of `overfullConfig`. -/
def loadsOverfull (text : String) : Option Json :=
  if text = overfullText then some overfullConfig else none

/-- The configuration of `test_config_load_string` (tests/test_config.c 5-10). -/
def testConfig : Json :=
  .object [("ftp", .array [.string "http://ftp1.com", .string "http://ftp2.com"]),
           ("tv", .array [.string "http://tv1.com"]),
           ("others", .array [])]

/-- The text of `testConfig` (tests/test_config.c 5-10). -/
def testConfigText : String :=
  "\x7b  \"ftp\": [\"http://ftp1.com\", \"http://ftp2.com\"],  \"tv\": [\"http://tv1.com\"],  \"others\": []\x7d"

/-- A parser that knows the text of `testConfig`. -/
def loadsTest (text : String) : Option Json :=
  if text = testConfigText then some testConfig else none

/-- The server `sv` after the call of `checker_check_server` made by `check_worker`. -/
def checked_server (pr : Probe) (cfg : CheckerConfig) (sv : Server) : Server :=
  (checker_check_server pr (some sv) (some cfg)).2.getD sv

/-- The call of `ui_print_check_result` made by the task of server `i` of a category when
that task is the only one that touches `servers[i]`. -/
def report_for (env : CheckEnv) (cat : ServerCategory) (cfg : CheckerConfig) (i : Nat) :
    Report :=
  { server := checked_server (env.probe cat.type i) cfg (cat.servers.getD i zeroServer)
    category := cat.name
    current := i + 1
    total := cat.count
    show_only_ok := !cfg.verbose }

/-- A category of capacity 32 holding three servers. -/
def threeServerCategory : ServerCategory :=
  { urls := [some "http://10.0.0.1", some "http://10.0.0.2", some "http://10.0.0.3"]
      ++ List.replicate 29 none
    servers := [freshServer "http://10.0.0.1", freshServer "http://10.0.0.2",
        freshServer "http://10.0.0.3"] ++ List.replicate 29 zeroServer
    count := 3, capacity := 32, type := .CATEGORY_FTP, name := "FTP" }

/-- An outside world in which every pthread call succeeds, the probe of server 0 answers
200, that of server 1 gets no handle and that of server 2 answers 404, and the workers run
the three tasks of a category in the order 2, 0, 1. -/
def envShuffled : CheckEnv :=
  { pthread := fun _ => pthreadOk
    probe := fun _ i =>
      if i = 0 then probeOnline
      else if i = 1 then probeNoHandle
      else { probeOnline with response_code := 404 }
    order := fun _ => [2, 0, 1] }

/-- The pool of three workers as `thread_pool_create` returns it. -/
def threeWorkerPool : ThreadPool :=
  { thread_count := 3, work_queue := [], queue_mutex := none, working_count := 0,
    pending_count := 0, shutdown := false }

/-- A schedule of a pool of three workers for the calls of `checker_check_category` on
three servers: the client submits the three tasks; workers 0, 1 and 2 take tasks 0, 1 and
2 from the queue; worker 2 runs its task first, then worker 0, then worker 1; the client
waits and destroys the pool, the workers leave, the client joins them and returns. -/
def shuffledSchedule : List Label :=
  [.call_add_work CHECK_WORKER 0] ++ List.replicate 5 (.client 0) ++
  [.call_add_work CHECK_WORKER 1] ++ List.replicate 5 (.client 0) ++
  [.call_add_work CHECK_WORKER 2] ++ List.replicate 5 (.client 0) ++
  List.replicate 6 (.worker 0) ++ List.replicate 6 (.worker 1) ++
  List.replicate 6 (.worker 2) ++
  List.replicate 5 (.worker 2) ++ List.replicate 5 (.worker 0) ++
  List.replicate 5 (.worker 1) ++
  [.call_wait] ++ List.replicate 3 (.client 0) ++
  [.call_destroy] ++ List.replicate 4 (.client 0) ++
  List.replicate 3 (.worker 0) ++ List.replicate 3 (.worker 1) ++
  List.replicate 3 (.worker 2) ++
  List.replicate 7 (.client 0)

/-- The schedule `threeSubmitted` followed by the worker's unlock (line 49). -/
def threeSubmittedUnlocked : List Label := threeSubmitted ++ [.worker 0]

/-- The state in which the schedule `threeSubmittedUnlocked` ends: the mutex is free, two
tasks are queued. -/
def oneDequeuedUnlocked : Sys :=
  { oneDequeuedState with
    pool := { oneDequeuedState.pool with queue_mutex := none }
    workers := [.incWorking { function := 1, arg := 10 }] }

/-- The struct `WorkItem` in memory, with its `next` link (`none` is NULL, a pointer is
the address of a node). -/
structure WorkNode where
  function : Nat
  arg : Nat
  next : Option Nat
deriving DecidableEq

/-- The nodes allocated by `thread_pool_add_work` (by address; `none` where no node is
allocated) and the two pointers `work_queue_head` and `work_queue_tail` of the pool. -/
structure LinkedQueue where
  heap : Nat → Option WorkNode
  work_queue_head : Option Nat
  work_queue_tail : Option Nat

/-- Lines 163-176 of `thread_pool_add_work`: `addr` is the address returned by
`safe_malloc`. The node is filled in, linked behind the tail (or made the head), and made
the tail. -/
def LinkedQueue.add_work (q : LinkedQueue) (addr function arg : Nat) :
    Except Fault LinkedQueue :=
  let heap1 : Nat → Option WorkNode := fun a =>
    if a = addr then some { function := function, arg := arg, next := none } else q.heap a
  match q.work_queue_tail with
  | some t =>
    match heap1 t with
    | none => .error .use_after_free
    | some nd =>
      .ok { heap := fun a => if a = t then some { nd with next := some addr } else heap1 a
            work_queue_head := q.work_queue_head
            work_queue_tail := some addr }
  | none => .ok { heap := heap1, work_queue_head := some addr, work_queue_tail := some addr }

/-- Lines 40-45 of `worker_thread`: the pointer `work` and the queue afterwards. -/
def LinkedQueue.dequeue (q : LinkedQueue) : Except Fault (Option Nat × LinkedQueue) :=
  match q.work_queue_head with
  | none => .ok (none, q)
  | some work =>
    match q.heap work with
    | none => .error .use_after_free
    | some nd =>
      .ok (some work,
        { q with work_queue_head := nd.next
                 work_queue_tail := if nd.next = none then none else q.work_queue_tail })

/-- Line 59 of `worker_thread`: `free(work)`. -/
def LinkedQueue.free (q : LinkedQueue) (addr : Nat) : LinkedQueue :=
  { q with heap := fun a => if a = addr then none else q.heap a }

/-- The function and argument stored in a node. -/
def WorkNode.item (nd : WorkNode) : WorkItem := { function := nd.function, arg := nd.arg }

/-- The operations on the queue: an enqueue by `thread_pool_add_work` (with the address
`safe_malloc` returns), a dequeue by a worker, and a worker freeing a node. -/
inductive QueueOp where
  | add (addr function arg : Nat)
  | take
  | free (addr : Nat)
deriving DecidableEq

/-- The queue in memory together with the nodes held by workers (dequeued and not yet
freed) and, as history, the work items dequeued so far. -/
structure QueueSys where
  q : LinkedQueue
  held : List Nat
  taken : List WorkItem

/-- The queue of a pool fresh from `thread_pool_create` (`safe_calloc` zeroes both
pointers), no node allocated. -/
def QueueSys.empty : QueueSys :=
  { q := { heap := fun _ => none, work_queue_head := none, work_queue_tail := none }
    held := [], taken := [] }

/-- One operation on the queue in memory. -/
def QueueSys.step (s : QueueSys) : QueueOp → Except Fault QueueSys
  | .add addr function arg =>
    match s.q.add_work addr function arg with
    | .error e => .error e
    | .ok q2 => .ok { s with q := q2 }
  | .take =>
    match s.q.dequeue with
    | .error e => .error e
    | .ok (none, q2) => .ok { s with q := q2 }
    | .ok (some work, q2) =>
      .ok { q := q2, held := s.held ++ [work]
            taken := s.taken ++ ((s.q.heap work).map WorkNode.item).toList }
  | .free addr => .ok { s with q := s.q.free addr, held := s.held.erase addr }

/-- What the callers guarantee: `malloc` returns the address of a block that is not
allocated, and a worker frees only a node it holds. -/
def QueueSys.enabled (s : QueueSys) : QueueOp → Prop
  | .add addr _ _ => s.q.heap addr = none
  | .take => True
  | .free addr => addr ∈ s.held

instance (s : QueueSys) (op : QueueOp) : Decidable (s.enabled op) := by
  cases op <;> unfold QueueSys.enabled <;> infer_instance

/-- The state after a sequence of operations. -/
def QueueSys.run : QueueSys → List QueueOp → Except Fault QueueSys
  | s, [] => .ok s
  | s, op :: ops =>
    match s.step op with
    | .error e => .error e
    | .ok s2 => QueueSys.run s2 ops

/-- Every operation of the sequence is enabled in the state in which it is applied. -/
def QueueSys.legal : QueueSys → List QueueOp → Bool
  | _, [] => true
  | s, op :: ops =>
    decide (s.enabled op) &&
      match s.step op with
      | .error _ => true
      | .ok s2 => QueueSys.legal s2 ops

/-- Starting at pointer `p`, the list in memory consists of the nodes at the addresses of
`l`, in that order, holding the work items of `l`, and ends with a NULL link. -/
def chain (heap : Nat → Option WorkNode) : Option Nat → List (Nat × WorkItem) → Bool
  | p, [] => decide (p = none)
  | p, (a, w) :: rest =>
    decide (p = some a) &&
      match heap a with
      | none => false
      | some nd => decide (nd.item = w) && chain heap nd.next rest

/-- The linked list is well formed and holds the nodes `l` (address and work item, from
head to tail): the list from `work_queue_head` is `l`, `work_queue_tail` points to its
last node (NULL when there is none), and no node occurs twice. -/
def LinkedQueue.holds (q : LinkedQueue) (l : List (Nat × WorkItem)) : Prop :=
  chain q.heap q.work_queue_head l = true ∧
  q.work_queue_tail = (l.map (fun x => x.1)).getLast? ∧
  (l.map (fun x => x.1)).Nodup

/-- The abstract FIFO queue: the queued work items and, as history, the work items taken
so far. -/
structure Fifo where
  queue : List WorkItem
  taken : List WorkItem
deriving DecidableEq

/-- One operation on the abstract FIFO queue: an enqueue appends at the back, a dequeue
takes the front; addresses and `free` mean nothing here. -/
def Fifo.step (f : Fifo) : QueueOp → Fifo
  | .add _ function arg => { f with queue := f.queue ++ [{ function := function, arg := arg }] }
  | .take =>
    match f.queue with
    | [] => f
    | w :: rest => { queue := rest, taken := f.taken ++ [w] }
  | .free _ => f

/-- The abstract queue after a sequence of operations. -/
def Fifo.run (f : Fifo) (ops : List QueueOp) : Fifo := ops.foldl Fifo.step f

/-- The queue in memory `s` represents the abstract queue `f`: its list is well formed
and holds the work items of `f.queue` in order, the same work items have been taken, and
the nodes held by workers are allocated, distinct and outside the list. -/
def Refines (s : QueueSys) (f : Fifo) : Prop :=
  ∃ l : List (Nat × WorkItem), s.q.holds l ∧ l.map (fun x => x.2) = f.queue ∧
    s.taken = f.taken ∧ s.held.Nodup ∧
    ∀ a ∈ s.held, s.q.heap a ≠ none ∧ a ∉ l.map (fun x => x.1)

/-- A sequence of operations: three enqueues (the allocator hands out 100, 200, 300), two
dequeues, the first node is freed, and an enqueue reuses its address. -/
def queueOps : List QueueOp :=
  [.add 100 1 10, .add 200 1 20, .add 300 1 30, .take, .take, .free 100, .add 100 1 40]

/-- Whether a scheduler choice is a call of the pool API by the client. -/
def Label.isCall : Label → Bool
  | .call_add_work _ _ => true
  | .call_wait => true
  | .call_destroy => true
  | _ => false

/-- The calls of the pool API made by `checker_check_category` for `n` servers, in
program order (checker.c 185-206): one `thread_pool_add_work(pool, check_worker, work)` per
server, then `thread_pool_wait` and `thread_pool_destroy`. The argument of the task of
server `i` stands for its work item, which holds index `i`. -/
def check_calls (n : Nat) : List Label :=
  (List.range n).map (fun i => .call_add_work CHECK_WORKER i) ++ [.call_wait, .call_destroy]

/-- The work items these calls submit. -/
def check_tasks (n : Nat) : List WorkItem :=
  (List.range n).map (fun i => { function := CHECK_WORKER, arg := i })

/-- The order in which the workers call the task functions along the schedule `tr` of the
pool, when `tr` is a run of `checker_check_category` for `n` servers from pool creation to
the return of `thread_pool_destroy`: the calls of the client in `tr` are `check_calls n`
and the client ends in `destroyed`. For any other schedule there is none. -/
def pool_order (pool : ThreadPool) (n : Nat) (tr : List Label) : Option (List Nat) :=
  if tr.filter Label.isCall = check_calls n then
    match Sys.run (Sys.init pool) tr with
    | some s => if s.client = .destroyed then some (s.executed.map (fun w => w.arg)) else none
    | none => none
  else none

/-- The work item whose checks (lines 152-160) the client is about to make. -/
def ClientPc.checking : ClientPc → List WorkItem
  | .addCheck function arg => [{ function := function, arg := arg }]
  | _ => []

/-- Where the client is: between calls (0), inside `thread_pool_add_work` (1), inside
`thread_pool_wait` before its loop has ended (2), after the loop of `thread_pool_wait`
(3), inside or after `thread_pool_destroy` (4). -/
def ClientPc.phase : ClientPc → Nat
  | .ready => 0
  | .addCheck _ _ => 1
  | .addLock _ => 1
  | .addEnqueue _ => 1
  | .addSignal => 1
  | .addUnlock => 1
  | .waitLock => 2
  | .waitLoop => 2
  | .waitBlocked => 2
  | .waitWoken => 2
  | .waitUnlock => 3
  | _ => 4

/-- Invariant of a run of `checker_check_category` on its pool after `k` of the calls
`check_calls n`: the work items dequeued, queued, about to be enqueued or about to be
checked are the first `k` tasks; until `thread_pool_destroy` is called the shutdown flag is
clear; once the loop of `thread_pool_wait` has ended the queue is empty. -/
structure Prog (n : Nat) (s : Sys) (k : Nat) : Prop where
  le : k ≤ n + 2
  pending : s.pool.pending_count = s.pool.work_queue.length % SIZE_MOD
  items : s.dequeued ++ s.pool.work_queue ++ s.client.item.toList ++ s.client.checking
    = (check_tasks n).take k
  adding : k ≤ n → s.client.phase ≤ 1 ∧ s.pool.shutdown = false
  waiting : k = n + 1 →
    (s.client.phase = 0 ∨ s.client.phase = 2 ∨ s.client.phase = 3) ∧
    s.pool.shutdown = false ∧ (s.client.phase ≠ 2 → s.pool.work_queue = [])
  destroying : k = n + 2 → s.client.phase = 4 ∧ s.pool.work_queue = []

/-- The pool between two phases of the sequential schedule: mutex free, flag clear, no
task running, `q` queued, all `m` workers at the top of their loop, the client between
calls. -/
def idleSys (m : Nat) (q deq ex : List WorkItem) (ret : List Returned) : Sys :=
  { pool := { thread_count := m, work_queue := q, queue_mutex := none, working_count := 0,
              pending_count := q.length, shutdown := false }
    workers := List.replicate m .lock
    client := .ready
    dequeued := deq
    executed := ex
    released := []
    returns := ret }

/-- The pool of `m` workers while `thread_pool_destroy` waits for them: flag set, queue
empty, mutex free, the first `gone` workers returned, the others at the top of their
loop, the client at `c`. -/
def leavingSys (m gone : Nat) (deq ex : List WorkItem) (ret : List Returned)
    (c : ClientPc) : Sys :=
  { pool := { thread_count := m, work_queue := [], queue_mutex := none,
              working_count := 0, pending_count := 0, shutdown := true }
    workers := List.replicate gone .exited ++ List.replicate (m - gone) .lock
    client := c
    dequeued := deq
    executed := ex
    released := []
    returns := ret }

/-- The client calls `thread_pool_add_work(pool, check_worker, work_i)` and runs it to its
return. -/
def addSteps (i : Nat) : List Label :=
  [.call_add_work CHECK_WORKER i, .client 0, .client 0, .client 0, .client 0, .client 0]

/-- The calls of `thread_pool_add_work` for servers `0 .. n-1`, each run to its return. -/
def submitSteps : Nat → List Label
  | 0 => []
  | n + 1 => submitSteps n ++ addSteps n

/-- Worker 0 goes once round its loop: it takes the head of the queue, runs it and
signals. -/
def taskSteps : List Label :=
  [.worker 0, .worker 0, .worker 0, .worker 0, .worker 0, .worker 0, .worker 0, .worker 0,
   .worker 0, .worker 0, .worker 0]

/-- Worker 0 goes `n` times round its loop. -/
def workSteps : Nat → List Label
  | 0 => []
  | n + 1 => taskSteps ++ workSteps n

/-- Workers `0 .. m-1` see the flag and return, one after the other. -/
def exitSteps : Nat → List Label
  | 0 => []
  | m + 1 => exitSteps m ++ [.worker m, .worker m, .worker m]

/-- The client takes `k` steps. -/
def clientSteps (k : Nat) : List Label := List.replicate k (.client 0)

/-- The sequential schedule of a pool of `m` workers for a category of `n` servers: the
client submits the `n` tasks, worker 0 runs them one after the other, the client calls
`thread_pool_wait`, which returns at once, then `thread_pool_destroy`; the workers return
and the client joins them, empties the queue and returns. -/
def sequentialSchedule (m n : Nat) : List Label :=
  submitSteps n ++ workSteps n ++
  [.call_wait, .client 0, .client 0, .client 0] ++
  [.call_destroy, .client 0, .client 0, .client 0, .client 0] ++
  exitSteps m ++ clientSteps (m + 4)

/-! # Theorems -/

/-! ## Order facts about the comparison operators -/

theorem Double.le_refl {a : Double} (h : a ≠ .nan) : Double.le a a = true := by
  rcases a with _ | ⟨_ | _⟩ | ⟨_ | _, x⟩ <;> simp_all [Double.le]

theorem Double.le_of_lt {a b : Double} (h : Double.lt a b = true) : Double.le a b = true := by
  rcases a with _ | ⟨_ | _⟩ | ⟨_ | _, x⟩ <;> rcases b with _ | ⟨_ | _⟩ | ⟨_ | _, y⟩ <;>
    simp_all [Double.lt, Double.le, Double.signed] <;> omega

theorem Double.le_of_not_lt {a b : Double} (ha : a ≠ .nan) (hb : b ≠ .nan)
    (h : Double.lt a b = false) : Double.le b a = true := by
  rcases a with _ | ⟨_ | _⟩ | ⟨_ | _, x⟩ <;> rcases b with _ | ⟨_ | _⟩ | ⟨_ | _, y⟩ <;>
    simp_all [Double.lt, Double.le, Double.signed]

theorem Double.le_trans {a b c : Double} (h1 : Double.le a b = true)
    (h2 : Double.le b c = true) : Double.le a c = true := by
  rcases a with _ | ⟨_ | _⟩ | ⟨_ | _, x⟩ <;> rcases b with _ | ⟨_ | _⟩ | ⟨_ | _, y⟩ <;>
    rcases c with _ | ⟨_ | _⟩ | ⟨_ | _, z⟩ <;>
    simp_all [Double.le, Double.signed] <;> omega

theorem Double.feq_of_le_of_le {a b : Double} (h1 : Double.le a b = true)
    (h2 : Double.le b a = true) : Double.feq a b = true := by
  rcases a with _ | ⟨_ | _⟩ | ⟨_ | _, x⟩ <;> rcases b with _ | ⟨_ | _⟩ | ⟨_ | _, y⟩ <;>
    simp_all [Double.feq, Double.le, Double.signed] <;> omega

theorem Double.ne_nan_of_le_left {a b : Double} (h : Double.le a b = true) : a ≠ .nan := by
  rcases a with _ | ⟨_ | _⟩ | ⟨_ | _, x⟩ <;> simp_all [Double.le]

theorem Double.ne_nan_of_le_right {a b : Double} (h : Double.le a b = true) : b ≠ .nan := by
  rcases a with _ | ⟨_ | _⟩ | ⟨_ | _, x⟩ <;> rcases b with _ | ⟨_ | _⟩ | ⟨_ | _, y⟩ <;>
    simp_all [Double.le]

/-! ## Field-wise description of `checker_stats_update` -/

theorem Double.ofNat_zero : Double.ofNat 0 = .fin false 0 := by decide

theorem upd_total (s : CheckerStats) (x : Server) :
    (checker_stats_update s x).total_checked = (s.total_checked + 1) % SIZE_MOD := by
  rcases x with ⟨url, st, lat, rc, lc⟩
  cases st <;> simp [checker_stats_update]
  all_goals split_ifs <;> rfl

theorem upd_online (s : CheckerStats) (x : Server) :
    (checker_stats_update s x).online_count =
      if x.status = .BDIX_STATUS_ONLINE then (s.online_count + 1) % SIZE_MOD
      else s.online_count := by
  rcases x with ⟨url, st, lat, rc, lc⟩
  cases st <;> simp [checker_stats_update]
  all_goals split_ifs <;> rfl

theorem upd_offline (s : CheckerStats) (x : Server) :
    (checker_stats_update s x).offline_count =
      if x.status = .BDIX_STATUS_OFFLINE then (s.offline_count + 1) % SIZE_MOD
      else s.offline_count := by
  rcases x with ⟨url, st, lat, rc, lc⟩
  cases st <;> simp [checker_stats_update]
  all_goals split_ifs <;> rfl

theorem upd_timeout (s : CheckerStats) (x : Server) :
    (checker_stats_update s x).timeout_count =
      if x.status = .BDIX_STATUS_TIMEOUT then (s.timeout_count + 1) % SIZE_MOD
      else s.timeout_count := by
  rcases x with ⟨url, st, lat, rc, lc⟩
  cases st <;> simp [checker_stats_update]
  all_goals split_ifs <;> rfl

theorem upd_error (s : CheckerStats) (x : Server) :
    (checker_stats_update s x).error_count =
      if x.status = .BDIX_STATUS_ERROR then (s.error_count + 1) % SIZE_MOD
      else s.error_count := by
  rcases x with ⟨url, st, lat, rc, lc⟩
  cases st <;> simp [checker_stats_update]
  all_goals split_ifs <;> rfl

theorem upd_sum (s : CheckerStats) (x : Server) :
    (checker_stats_update s x).total_latency_ms =
      if counted x then Double.add s.total_latency_ms x.latency_ms
      else s.total_latency_ms := by
  rcases x with ⟨url, st, lat, rc, lc⟩
  cases st <;> simp [checker_stats_update, counted]
  all_goals split_ifs <;> simp_all

theorem upd_min (s : CheckerStats) (x : Server) :
    (checker_stats_update s x).min_latency_ms =
      if counted x ∧ Double.lt x.latency_ms s.min_latency_ms = true then x.latency_ms
      else s.min_latency_ms := by
  rcases x with ⟨url, st, lat, rc, lc⟩
  cases st <;> simp [checker_stats_update, counted]
  all_goals split_ifs <;> simp_all

theorem upd_max (s : CheckerStats) (x : Server) :
    (checker_stats_update s x).max_latency_ms =
      if counted x ∧ Double.gt x.latency_ms s.max_latency_ms = true then x.latency_ms
      else s.max_latency_ms := by
  rcases x with ⟨url, st, lat, rc, lc⟩
  cases st <;> simp [checker_stats_update, counted]
  all_goals split_ifs <;> simp_all

theorem stats_fold_snoc (l : List Server) (x : Server) :
    stats_fold (l ++ [x]) = checker_stats_update (stats_fold l) x := by
  simp [stats_fold, List.foldl_append]

/-! ## Counters -/

theorem cnt_snoc (st : ServerStatus) (l : List Server) (x : Server) :
    cnt st (l ++ [x]) = cnt st l + if x.status = st then 1 else 0 := by
  simp [cnt, List.countP_append, List.countP_cons]

theorem cnt_total (l : List Server) :
    cnt .BDIX_STATUS_ONLINE l + cnt .BDIX_STATUS_OFFLINE l + cnt .BDIX_STATUS_TIMEOUT l
      + cnt .BDIX_STATUS_ERROR l + cnt .BDIX_STATUS_UNKNOWN l = l.length := by
  induction l using List.reverseRecOn with
  | nil => simp [cnt]
  | append_singleton l x ih =>
    simp only [cnt_snoc, List.length_append, List.length_singleton]
    cases x.status <;> simp <;> omega

theorem cnt_le_length (st : ServerStatus) (l : List Server) : cnt st l ≤ l.length :=
  List.countP_le_length _

/-- Every counter after a fold is the number of matching records modulo `2^64`. -/
theorem stats_fold_counts (l : List Server) :
    (stats_fold l).total_checked = l.length % SIZE_MOD ∧
    (stats_fold l).online_count = cnt .BDIX_STATUS_ONLINE l % SIZE_MOD ∧
    (stats_fold l).offline_count = cnt .BDIX_STATUS_OFFLINE l % SIZE_MOD ∧
    (stats_fold l).timeout_count = cnt .BDIX_STATUS_TIMEOUT l % SIZE_MOD ∧
    (stats_fold l).error_count = cnt .BDIX_STATUS_ERROR l % SIZE_MOD := by
  induction l using List.reverseRecOn with
  | nil => simp [stats_fold, checker_stats_init, cnt]
  | append_singleton l x ih =>
    obtain ⟨h1, h2, h3, h4, h5⟩ := ih
    rw [stats_fold_snoc]
    simp only [upd_total, upd_online, upd_offline, upd_timeout, upd_error, h1, h2, h3, h4, h5,
      cnt_snoc, List.length_append, List.length_singleton]
    cases x.status <;> simp

/-- Below `2^64` records no counter wraps. -/
theorem stats_fold_counts_exact (l : List Server) (hlen : l.length < 2 ^ 64) :
    (stats_fold l).total_checked = l.length ∧
    (stats_fold l).online_count = cnt .BDIX_STATUS_ONLINE l ∧
    (stats_fold l).offline_count = cnt .BDIX_STATUS_OFFLINE l ∧
    (stats_fold l).timeout_count = cnt .BDIX_STATUS_TIMEOUT l ∧
    (stats_fold l).error_count = cnt .BDIX_STATUS_ERROR l := by
  obtain ⟨h1, h2, h3, h4, h5⟩ := stats_fold_counts l
  have b := fun st => cnt_le_length st l
  have hm : SIZE_MOD = 2 ^ 64 := rfl
  rw [h1, h2, h3, h4, h5, hm]
  refine ⟨?_, ?_, ?_, ?_, ?_⟩ <;> apply Nat.mod_eq_of_lt
  · exact hlen
  · exact lt_of_le_of_lt (b _) hlen
  · exact lt_of_le_of_lt (b _) hlen
  · exact lt_of_le_of_lt (b _) hlen
  · exact lt_of_le_of_lt (b _) hlen

/-! ## Running minimum and maximum -/

theorem counted_ne_nan {x : Server} (h : counted x) : x.latency_ms ≠ .nan :=
  Double.ne_nan_of_le_right h.2

theorem counted_nonneg {x : Server} (h : counted x) :
    Double.le Double.zero x.latency_ms = true := by
  have h2 := h.2
  rw [Double.ofNat_zero] at h2
  exact h2

theorem Double.le_inf {a : Double} (h : a ≠ .nan) : Double.le a INFINITY = true := by
  rcases a with _ | ⟨_ | _⟩ | ⟨_ | _, x⟩ <;> simp_all [Double.le, INFINITY]

theorem min_step (m x : Double) (hm : m ≠ .nan) (hx : x ≠ .nan) :
    Double.le (if Double.lt x m = true then x else m) m = true ∧
    Double.le (if Double.lt x m = true then x else m) x = true := by
  by_cases h : Double.lt x m = true
  · simp only [h, if_true]
    exact ⟨Double.le_of_lt h, Double.le_refl hx⟩
  · simp only [h, if_false]
    exact ⟨Double.le_refl hm, Double.le_of_not_lt hx hm (by simpa using h)⟩

theorem max_step (m x : Double) (hm : m ≠ .nan) (hx : x ≠ .nan) :
    Double.le m (if Double.gt x m = true then x else m) = true ∧
    Double.le x (if Double.gt x m = true then x else m) = true := by
  by_cases h : Double.gt x m = true
  · simp only [h, if_true]
    exact ⟨Double.le_of_lt h, Double.le_refl hx⟩
  · simp only [h, if_false]
    exact ⟨Double.le_refl hm, Double.le_of_not_lt hm hx (by simpa [Double.gt] using h)⟩

/-- What the running minimum and maximum are after any fold: never NaN, bounds of every
counted latency, and either still the sentinel or the latency of a counted record. -/
theorem stats_fold_minmax (l : List Server) :
    (stats_fold l).min_latency_ms ≠ .nan ∧ (stats_fold l).max_latency_ms ≠ .nan ∧
    (∀ x ∈ l, counted x →
      Double.le (stats_fold l).min_latency_ms x.latency_ms = true ∧
      Double.le x.latency_ms (stats_fold l).max_latency_ms = true) ∧
    ((stats_fold l).min_latency_ms = INFINITY ∨
      ∃ x ∈ l, counted x ∧ (stats_fold l).min_latency_ms = x.latency_ms) ∧
    ((stats_fold l).max_latency_ms = Double.zero ∨
      ∃ x ∈ l, counted x ∧ (stats_fold l).max_latency_ms = x.latency_ms) := by
  induction l using List.reverseRecOn with
  | nil => simp [stats_fold, checker_stats_init, INFINITY, Double.zero]
  | append_singleton l x ih =>
    obtain ⟨hmin, hmax, hb, hlo, hhi⟩ := ih
    rw [stats_fold_snoc, upd_min, upd_max]
    by_cases hc : counted x
    · have hx := counted_ne_nan hc
      have s1 := min_step (stats_fold l).min_latency_ms x.latency_ms hmin hx
      have s2 := max_step (stats_fold l).max_latency_ms x.latency_ms hmax hx
      simp only [hc, true_and]
      refine ⟨Double.ne_nan_of_le_left s1.1, Double.ne_nan_of_le_right s2.1, ?_, ?_, ?_⟩
      · intro y hy hcy
        rcases List.mem_append.1 hy with hy | hy
        · exact ⟨Double.le_trans s1.1 (hb y hy hcy).1, Double.le_trans (hb y hy hcy).2 s2.1⟩
        · rw [List.mem_singleton.1 hy]
          exact ⟨s1.2, s2.2⟩
      · by_cases h : Double.lt x.latency_ms (stats_fold l).min_latency_ms = true
        · simp only [h, if_true]
          exact Or.inr ⟨x, by simp, hc, rfl⟩
        · simp only [h, if_false]
          rcases hlo with h0 | ⟨y, hy, hcy, e⟩
          · exact Or.inl h0
          · exact Or.inr ⟨y, List.mem_append_left _ hy, hcy, e⟩
      · by_cases h : Double.gt x.latency_ms (stats_fold l).max_latency_ms = true
        · simp only [h, if_true]
          exact Or.inr ⟨x, by simp, hc, rfl⟩
        · simp only [h, if_false]
          rcases hhi with h0 | ⟨y, hy, hcy, e⟩
          · exact Or.inl h0
          · exact Or.inr ⟨y, List.mem_append_left _ hy, hcy, e⟩
    · simp only [hc, false_and, if_false]
      refine ⟨hmin, hmax, ?_, ?_, ?_⟩
      · intro y hy hcy
        rcases List.mem_append.1 hy with hy | hy
        · exact hb y hy hcy
        · rw [List.mem_singleton.1 hy] at hcy
          exact absurd hcy hc
      · rcases hlo with h0 | ⟨y, hy, hcy, e⟩
        · exact Or.inl h0
        · exact Or.inr ⟨y, List.mem_append_left _ hy, hcy, e⟩
      · rcases hhi with h0 | ⟨y, hy, hcy, e⟩
        · exact Or.inl h0
        · exact Or.inr ⟨y, List.mem_append_left _ hy, hcy, e⟩

/-! ## Claims about the statistics accumulator -/

/-- C2, counterexample: one record whose status is BDIX_STATUS_UNKNOWN (latency -1.0, the
state in which server_category_add leaves a server) takes the default branch of the
switch: total_checked becomes 1 while the four category counters stay 0. -/
theorem stats_unknown_breaks_conservation :
    (stats_fold [mkServer .BDIX_STATUS_UNKNOWN (.fin true (1 * 2 ^ 1074))]).total_checked = 1 ∧
    (stats_fold [mkServer .BDIX_STATUS_UNKNOWN (.fin true (1 * 2 ^ 1074))]).online_count
      + (stats_fold [mkServer .BDIX_STATUS_UNKNOWN (.fin true (1 * 2 ^ 1074))]).offline_count
      + (stats_fold [mkServer .BDIX_STATUS_UNKNOWN (.fin true (1 * 2 ^ 1074))]).timeout_count
      + (stats_fold [mkServer .BDIX_STATUS_UNKNOWN (.fin true (1 * 2 ^ 1074))]).error_count = 0 := by
  decide

/-- C2, amended: for every sequence of fewer than 2^64 records folded from the initial
state, total_checked equals online + offline + timeout + error plus the number of records
whose status is BDIX_STATUS_UNKNOWN; so the conservation equation holds whenever every
status is one of ONLINE, OFFLINE, TIMEOUT, ERROR. -/
theorem stats_category_conservation (l : List Server) (hlen : l.length < 2 ^ 64) :
    (stats_fold l).total_checked =
      (stats_fold l).online_count + (stats_fold l).offline_count
        + (stats_fold l).timeout_count + (stats_fold l).error_count
        + cnt .BDIX_STATUS_UNKNOWN l ∧
    ((∀ x ∈ l, x.status ≠ .BDIX_STATUS_UNKNOWN) →
      (stats_fold l).total_checked =
        (stats_fold l).online_count + (stats_fold l).offline_count
          + (stats_fold l).timeout_count + (stats_fold l).error_count) := by
  obtain ⟨h1, h2, h3, h4, h5⟩ := stats_fold_counts_exact l hlen
  have ht := cnt_total l
  refine ⟨by omega, fun hk => ?_⟩
  have h0 : cnt .BDIX_STATUS_UNKNOWN l = 0 := by
    unfold cnt
    rw [List.countP_eq_zero]
    intro x hx
    simpa using hk x hx
  omega

/-- Witness of `stats_category_conservation` on the end-to-end scenario. -/
theorem stats_category_conservation_witness :
    scenario.length < 2 ^ 64 ∧
    ((stats_fold scenario).total_checked =
      (stats_fold scenario).online_count + (stats_fold scenario).offline_count
        + (stats_fold scenario).timeout_count + (stats_fold scenario).error_count
        + cnt .BDIX_STATUS_UNKNOWN scenario ∧
    ((∀ x ∈ scenario, x.status ≠ .BDIX_STATUS_UNKNOWN) →
      (stats_fold scenario).total_checked =
        (stats_fold scenario).online_count + (stats_fold scenario).offline_count
          + (stats_fold scenario).timeout_count + (stats_fold scenario).error_count)) :=
  ⟨by decide, stats_category_conservation scenario (by decide)⟩

/-- C3: for every list of fewer than 2^64 records whose statuses are among ONLINE,
OFFLINE, TIMEOUT, ERROR, the fold from the initial state gives total_checked = length and
each category counter = the number of records with that status; and the scenario
[Online 100 ms, Offline, Timeout] gives total 3, online 1, offline 1, timeout 1, error 0,
min = max = average latency = 100.0. -/
theorem stats_counts_per_status :
    (∀ l : List Server, (∀ x ∈ l, x.status ≠ .BDIX_STATUS_UNKNOWN) → l.length < 2 ^ 64 →
      (stats_fold l).total_checked = l.length ∧
      (stats_fold l).online_count = cnt .BDIX_STATUS_ONLINE l ∧
      (stats_fold l).offline_count = cnt .BDIX_STATUS_OFFLINE l ∧
      (stats_fold l).timeout_count = cnt .BDIX_STATUS_TIMEOUT l ∧
      (stats_fold l).error_count = cnt .BDIX_STATUS_ERROR l ∧
      cnt .BDIX_STATUS_ONLINE l + cnt .BDIX_STATUS_OFFLINE l + cnt .BDIX_STATUS_TIMEOUT l
        + cnt .BDIX_STATUS_ERROR l = l.length) ∧
    stats_fold scenario =
      { total_checked := 3, online_count := 1, offline_count := 1, timeout_count := 1,
        error_count := 0, total_latency_ms := .fin false (100 * 2 ^ 1074),
        min_latency_ms := .fin false (100 * 2 ^ 1074),
        max_latency_ms := .fin false (100 * 2 ^ 1074) } ∧
    checker_stats_get_avg_latency (some (stats_fold scenario)) = .fin false (100 * 2 ^ 1074) := by
  refine ⟨fun l hk hlen => ?_, by decide, by decide⟩
  obtain ⟨h1, h2, h3, h4, h5⟩ := stats_fold_counts_exact l hlen
  have ht := cnt_total l
  have h0 : cnt .BDIX_STATUS_UNKNOWN l = 0 := by
    unfold cnt
    rw [List.countP_eq_zero]
    intro x hx
    simpa using hk x hx
  exact ⟨h1, h2, h3, h4, h5, by omega⟩

/-- Witness of `stats_counts_per_status` on the end-to-end scenario. -/
theorem stats_counts_per_status_witness :
    (∀ x ∈ scenario, x.status ≠ .BDIX_STATUS_UNKNOWN) ∧ scenario.length < 2 ^ 64 ∧
    (stats_fold scenario).total_checked = scenario.length ∧
    (stats_fold scenario).online_count = cnt .BDIX_STATUS_ONLINE scenario ∧
    (stats_fold scenario).offline_count = cnt .BDIX_STATUS_OFFLINE scenario ∧
    (stats_fold scenario).timeout_count = cnt .BDIX_STATUS_TIMEOUT scenario ∧
    (stats_fold scenario).error_count = cnt .BDIX_STATUS_ERROR scenario ∧
    cnt .BDIX_STATUS_ONLINE scenario + cnt .BDIX_STATUS_OFFLINE scenario
      + cnt .BDIX_STATUS_TIMEOUT scenario + cnt .BDIX_STATUS_ERROR scenario
      = scenario.length :=
  ⟨by decide, by decide, stats_counts_per_status.1 scenario (by decide) (by decide)⟩

/-- C4: for every non-empty list of ONLINE records whose latencies pass `latency_ms >= 0`,
and every order (permutation) in which it is folded from the initial state,
min_latency_ms is a lower bound of all latencies and equals (`==`) one of them, and
max_latency_ms is an upper bound and equals (`==`) one of them; for [5, 100, 1, 50] in any
order the minimum is 1.0 and the maximum 100.0. -/
theorem stats_min_max_correct :
    (∀ l l2 : List Server, l ≠ [] →
      (∀ x ∈ l, x.status = .BDIX_STATUS_ONLINE ∧
        Double.ge x.latency_ms (Double.ofNat 0) = true) →
      l2.Perm l →
      (∀ x ∈ l, Double.le (stats_fold l2).min_latency_ms x.latency_ms = true) ∧
      (∃ x ∈ l, Double.feq (stats_fold l2).min_latency_ms x.latency_ms = true) ∧
      (∀ x ∈ l, Double.le x.latency_ms (stats_fold l2).max_latency_ms = true) ∧
      (∃ x ∈ l, Double.feq (stats_fold l2).max_latency_ms x.latency_ms = true)) ∧
    (∀ l2 : List Server, l2.Perm fourLatencies →
      (stats_fold l2).min_latency_ms = .fin false (1 * 2 ^ 1074) ∧
      (stats_fold l2).max_latency_ms = .fin false (100 * 2 ^ 1074)) := by
  have key : ∀ l l2 : List Server, l ≠ [] →
      (∀ x ∈ l, x.status = .BDIX_STATUS_ONLINE ∧
        Double.ge x.latency_ms (Double.ofNat 0) = true) →
      l2.Perm l →
      (∀ x ∈ l, Double.le (stats_fold l2).min_latency_ms x.latency_ms = true) ∧
      (∃ x ∈ l, Double.feq (stats_fold l2).min_latency_ms x.latency_ms = true) ∧
      (∀ x ∈ l, Double.le x.latency_ms (stats_fold l2).max_latency_ms = true) ∧
      (∃ x ∈ l, Double.feq (stats_fold l2).max_latency_ms x.latency_ms = true) := by
    intro l l2 hne hall hperm
    obtain ⟨hmin, hmax, hb, hlo, hhi⟩ := stats_fold_minmax l2
    obtain ⟨x0, hx0⟩ := List.exists_mem_of_ne_nil l hne
    have hc : ∀ x ∈ l, counted x := fun x hx => hall x hx
    have hin : ∀ x ∈ l, x ∈ l2 := fun x hx => hperm.mem_iff.2 hx
    have b0 := hb x0 (hin x0 hx0) (hc x0 hx0)
    refine ⟨fun x hx => (hb x (hin x hx) (hc x hx)).1, ?_,
      fun x hx => (hb x (hin x hx) (hc x hx)).2, ?_⟩
    · rcases hlo with h0 | ⟨y, hy, _, e⟩
      · refine ⟨x0, hx0, Double.feq_of_le_of_le b0.1 ?_⟩
        rw [h0]
        exact Double.le_inf (counted_ne_nan (hc x0 hx0))
      · refine ⟨y, hperm.mem_iff.1 hy, ?_⟩
        rw [e]
        exact Double.feq_of_le_of_le (Double.le_refl (by rw [← e]; exact hmin))
          (Double.le_refl (by rw [← e]; exact hmin))
    · rcases hhi with h0 | ⟨y, hy, _, e⟩
      · refine ⟨x0, hx0, Double.feq_of_le_of_le ?_ b0.2⟩
        rw [h0]
        exact counted_nonneg (hc x0 hx0)
      · refine ⟨y, hperm.mem_iff.1 hy, ?_⟩
        rw [e]
        exact Double.feq_of_le_of_le (Double.le_refl (by rw [← e]; exact hmax))
          (Double.le_refl (by rw [← e]; exact hmax))
  refine ⟨key, fun l2 hperm => ?_⟩
  obtain ⟨hmin, hmax, hb, hlo, hhi⟩ := stats_fold_minmax l2
  have hall : ∀ x ∈ fourLatencies, counted x := by decide
  have hin : ∀ x ∈ fourLatencies, x ∈ l2 := fun x hx => hperm.mem_iff.2 hx
  have b1 := hb (mkServer .BDIX_STATUS_ONLINE (.fin false (1 * 2 ^ 1074)))
    (hin _ (by decide)) (by decide)
  have b2 := hb (mkServer .BDIX_STATUS_ONLINE (.fin false (100 * 2 ^ 1074)))
    (hin _ (by decide)) (by decide)
  constructor
  · rcases hlo with h0 | ⟨y, hy, _, e⟩
    · rw [h0] at b1
      exact absurd b1.1 (by decide)
    · have hy2 := hperm.mem_iff.1 hy
      rw [e] at b1 ⊢
      simp only [fourLatencies, List.mem_cons, List.mem_singleton, List.not_mem_nil,
        or_false] at hy2
      rcases hy2 with rfl | rfl | rfl | rfl
      · exact absurd b1.1 (by decide)
      · exact absurd b1.1 (by decide)
      · rfl
      · exact absurd b1.1 (by decide)
  · rcases hhi with h0 | ⟨y, hy, _, e⟩
    · rw [h0] at b2
      exact absurd b2.2 (by decide)
    · have hy2 := hperm.mem_iff.1 hy
      rw [e] at b2 ⊢
      simp only [fourLatencies, List.mem_cons, List.mem_singleton, List.not_mem_nil,
        or_false] at hy2
      rcases hy2 with rfl | rfl | rfl | rfl
      · exact absurd b2.2 (by decide)
      · rfl
      · exact absurd b2.2 (by decide)
      · exact absurd b2.2 (by decide)

/-- Witness of `stats_min_max_correct`: the list [5, 100, 1, 50] folded in reverse order. -/
theorem stats_min_max_correct_witness :
    fourLatencies ≠ [] ∧
    (∀ x ∈ fourLatencies, x.status = .BDIX_STATUS_ONLINE ∧
      Double.ge x.latency_ms (Double.ofNat 0) = true) ∧
    fourLatencies.reverse.Perm fourLatencies ∧
    ((∀ x ∈ fourLatencies,
        Double.le (stats_fold fourLatencies.reverse).min_latency_ms x.latency_ms = true) ∧
      (∃ x ∈ fourLatencies,
        Double.feq (stats_fold fourLatencies.reverse).min_latency_ms x.latency_ms = true) ∧
      (∀ x ∈ fourLatencies,
        Double.le x.latency_ms (stats_fold fourLatencies.reverse).max_latency_ms = true) ∧
      (∃ x ∈ fourLatencies,
        Double.feq (stats_fold fourLatencies.reverse).max_latency_ms x.latency_ms = true)) :=
  ⟨by decide, by decide, List.reverse_perm _,
    stats_min_max_correct.1 fourLatencies fourLatencies.reverse (by decide) (by decide)
      (List.reverse_perm _)⟩

/-- C5, counterexample: one ONLINE record with latency -1.0 fails the guard
`latency_ms >= 0`, so online_count is 1 while min_latency_ms is still +infinity and
max_latency_ms still 0.0: min <= max is false. -/
theorem stats_online_negative_latency_min_gt_max :
    (stats_fold [mkServer .BDIX_STATUS_ONLINE (.fin true (1 * 2 ^ 1074))]).online_count = 1 ∧
    Double.le
      (stats_fold [mkServer .BDIX_STATUS_ONLINE (.fin true (1 * 2 ^ 1074))]).min_latency_ms
      (stats_fold [mkServer .BDIX_STATUS_ONLINE (.fin true (1 * 2 ^ 1074))]).max_latency_ms
      = false := by
  decide

/-- C5, amended: for every sequence of fewer than 2^64 updates from the initial state,
while online_count is 0 min_latency_ms is +infinity and max_latency_ms is 0.0; and once
at least one ONLINE record whose latency passes `latency_ms >= 0` has been folded,
min_latency_ms <= max_latency_ms. -/
theorem stats_min_le_max (l : List Server) (hlen : l.length < 2 ^ 64) :
    ((stats_fold l).online_count = 0 →
      (stats_fold l).min_latency_ms = INFINITY ∧ (stats_fold l).max_latency_ms = Double.zero) ∧
    ((∃ x ∈ l, x.status = .BDIX_STATUS_ONLINE ∧
        Double.ge x.latency_ms (Double.ofNat 0) = true) →
      Double.le (stats_fold l).min_latency_ms (stats_fold l).max_latency_ms = true) := by
  obtain ⟨hmin, hmax, hb, hlo, hhi⟩ := stats_fold_minmax l
  obtain ⟨_, h2, _, _, _⟩ := stats_fold_counts_exact l hlen
  constructor
  · intro h0
    rw [h2] at h0
    have hnone : ∀ x ∈ l, ¬ counted x := by
      intro x hx hc
      have := (List.countP_eq_zero.1 h0) x hx
      simp [hc.1] at this
    constructor
    · rcases hlo with h | ⟨y, hy, hcy, _⟩
      · exact h
      · exact absurd hcy (hnone y hy)
    · rcases hhi with h | ⟨y, hy, hcy, _⟩
      · exact h
      · exact absurd hcy (hnone y hy)
  · rintro ⟨x, hx, hc⟩
    exact Double.le_trans (hb x hx hc).1 (hb x hx hc).2

/-- Witness of `stats_min_le_max` on the end-to-end scenario. -/
theorem stats_min_le_max_witness :
    scenario.length < 2 ^ 64 ∧
    (((stats_fold scenario).online_count = 0 →
      (stats_fold scenario).min_latency_ms = INFINITY ∧
      (stats_fold scenario).max_latency_ms = Double.zero) ∧
    ((∃ x ∈ scenario, x.status = .BDIX_STATUS_ONLINE ∧
        Double.ge x.latency_ms (Double.ofNat 0) = true) →
      Double.le (stats_fold scenario).min_latency_ms (stats_fold scenario).max_latency_ms
        = true)) :=
  ⟨by decide, stats_min_le_max scenario (by decide)⟩

/-! ## Sums of latencies -/

theorem add_exact (x y : Nat) (h : rnd (x + y) = x + y) (hlt : x + y < OVERFLOW) :
    Double.add (.fin false x) (.fin false y) = .fin false (x + y) := by
  simp [Double.add, Double.ofMag, h, hlt]

theorem counted_online_fin (k : Nat) :
    counted (mkServer .BDIX_STATUS_ONLINE (.fin false k)) := by
  refine ⟨rfl, ?_⟩
  rw [Double.ofNat_zero]
  simp [mkServer, Double.ge, Double.le, Double.signed]

theorem cnt_replicate_online (k K : Nat) :
    cnt .BDIX_STATUS_ONLINE (List.replicate K (mkServer .BDIX_STATUS_ONLINE (.fin false k)))
      = K := by
  induction K with
  | zero => rfl
  | succ n ih =>
    unfold cnt at ih ⊢
    rw [List.replicate_succ, List.countP_cons, ih]
    simp [mkServer]

theorem sum_replicate_exact (k : Nat) :
    ∀ K : Nat, (∀ j, j ≤ K → rnd (j * k) = j * k ∧ j * k < OVERFLOW) →
      (stats_fold (List.replicate K (mkServer .BDIX_STATUS_ONLINE (.fin false k)))).total_latency_ms
        = .fin false (K * k) := by
  intro K
  induction K with
  | zero => intro _; simp [stats_fold, checker_stats_init, Double.zero]
  | succ n ih =>
    intro h
    have hn := ih (fun j hj => h j (Nat.le_succ_of_le hj))
    have hs := h (n + 1) (Nat.le_refl _)
    have e : (n + 1) * k = n * k + k := by ring
    rw [List.replicate_succ', stats_fold_snoc, upd_sum, if_pos (counted_online_fin k), hn]
    simp only [mkServer]
    rw [e] at hs ⊢
    exact add_exact _ _ hs.1 hs.2

/-- C6, counterexample: 0.1 is a double, and ten ONLINE records of latency 0.1 give online_count 10 and
total_latency_ms 0.9999999999999999 (`9007199254740991 * 2^-53`), which is neither the
exact product 10 * 0.1 nor the double nearest to it (1.0): every addition rounds. -/
theorem stats_sum_of_ten_tenths :
    tenth.isDouble = true ∧
    (stats_fold (List.replicate 10 (mkServer .BDIX_STATUS_ONLINE tenth))).online_count = 10 ∧
    (stats_fold (List.replicate 10 (mkServer .BDIX_STATUS_ONLINE tenth))).total_latency_ms
      = .fin false (9007199254740991 * 2 ^ 1021) ∧
    (stats_fold (List.replicate 10 (mkServer .BDIX_STATUS_ONLINE tenth))).total_latency_ms
      ≠ .fin false (10 * (3602879701896397 * 2 ^ 1019)) ∧
    Double.ofMag false (10 * (3602879701896397 * 2 ^ 1019)) = .fin false (1 * 2 ^ 1074) ∧
    Double.feq
      (stats_fold (List.replicate 10 (mkServer .BDIX_STATUS_ONLINE tenth))).total_latency_ms
      (Double.ofMag false (10 * (3602879701896397 * 2 ^ 1019))) = false := by
  decide

/-- C6, amended: for every K < 2^64 and every finite latency v = k * 2^-1074 >= 0 such
that every multiple j * v with j <= K is a finite double (no addition rounds), folding K
ONLINE records of latency v from the initial state gives online_count = K and
total_latency_ms = K * v exactly. -/
theorem stats_sum_exact_multiples (K k : Nat) (hK : K < 2 ^ 64)
    (hexact : ∀ j, j ≤ K → rnd (j * k) = j * k ∧ j * k < OVERFLOW) :
    (stats_fold (List.replicate K (mkServer .BDIX_STATUS_ONLINE (.fin false k)))).online_count
      = K ∧
    (stats_fold (List.replicate K (mkServer .BDIX_STATUS_ONLINE (.fin false k)))).total_latency_ms
      = .fin false (K * k) := by
  refine ⟨?_, sum_replicate_exact k K hexact⟩
  obtain ⟨_, h2, _⟩ := stats_fold_counts_exact
    (List.replicate K (mkServer .BDIX_STATUS_ONLINE (.fin false k))) (by simpa using hK)
  rw [h2]
  exact cnt_replicate_online k K

/-- Witness of `stats_sum_exact_multiples`: three ONLINE records of 100 ms sum to 300 ms. -/
theorem stats_sum_exact_multiples_witness :
    3 < 2 ^ 64 ∧
    (∀ j, j ≤ 3 → rnd (j * (100 * 2 ^ 1074)) = j * (100 * 2 ^ 1074) ∧
      j * (100 * 2 ^ 1074) < OVERFLOW) ∧
    (stats_fold (List.replicate 3
      (mkServer .BDIX_STATUS_ONLINE (.fin false (100 * 2 ^ 1074))))).online_count = 3 ∧
    (stats_fold (List.replicate 3
      (mkServer .BDIX_STATUS_ONLINE (.fin false (100 * 2 ^ 1074))))).total_latency_ms
      = .fin false (3 * (100 * 2 ^ 1074)) :=
  ⟨by decide, by decide, stats_sum_exact_multiples 3 (100 * 2 ^ 1074) (by decide) (by decide)⟩

/-! ## Order independence -/

theorem Double.same_refl (a : Double) : Double.same a a := Or.inl rfl

theorem Double.feq_trans {a b c : Double} (h1 : Double.feq a b = true)
    (h2 : Double.feq b c = true) : Double.feq a c = true := by
  rcases a with _ | ⟨_ | _⟩ | ⟨_ | _, x⟩ <;> rcases b with _ | ⟨_ | _⟩ | ⟨_ | _, y⟩ <;>
    rcases c with _ | ⟨_ | _⟩ | ⟨_ | _, z⟩ <;>
    simp_all [Double.feq, Double.signed]

theorem Double.same_trans {a b c : Double} (h1 : Double.same a b) (h2 : Double.same b c) :
    Double.same a c := by
  rcases h1 with rfl | h1
  · exact h2
  · rcases h2 with rfl | h2
    · exact Or.inr h1
    · exact Or.inr (Double.feq_trans h1 h2)

theorem Double.lt_trans {a b c : Double} (h1 : Double.lt a b = true)
    (h2 : Double.lt b c = true) : Double.lt a c = true := by
  rcases a with _ | ⟨_ | _⟩ | ⟨_ | _, x⟩ <;> rcases b with _ | ⟨_ | _⟩ | ⟨_ | _, y⟩ <;>
    rcases c with _ | ⟨_ | _⟩ | ⟨_ | _, z⟩ <;>
    simp_all [Double.lt, Double.signed] <;> omega

theorem Double.lt_asymm {a b : Double} (h : Double.lt a b = true) : Double.lt b a = false := by
  rcases a with _ | ⟨_ | _⟩ | ⟨_ | _, x⟩ <;> rcases b with _ | ⟨_ | _⟩ | ⟨_ | _, y⟩ <;>
    simp_all [Double.lt, Double.signed] <;> omega

theorem Double.ne_nan_of_lt_left {a b : Double} (h : Double.lt a b = true) : a ≠ .nan := by
  rcases a with _ | ⟨_ | _⟩ | ⟨_ | _, x⟩ <;> simp_all [Double.lt]

theorem Double.ne_nan_of_lt_right {a b : Double} (h : Double.lt a b = true) : b ≠ .nan := by
  rcases a with _ | ⟨_ | _⟩ | ⟨_ | _, x⟩ <;> rcases b with _ | ⟨_ | _⟩ | ⟨_ | _, y⟩ <;>
    simp_all [Double.lt]

theorem Double.feq_of_not_lt {a b : Double} (ha : a ≠ .nan) (hb : b ≠ .nan)
    (h1 : Double.lt a b = false) (h2 : Double.lt b a = false) : Double.feq a b = true := by
  rcases a with _ | ⟨_ | _⟩ | ⟨_ | _, x⟩ <;> rcases b with _ | ⟨_ | _⟩ | ⟨_ | _, y⟩ <;>
    simp_all [Double.lt, Double.feq, Double.signed] <;> omega

theorem Double.lt_congr_right (x : Double) {m n : Double} (h : Double.feq m n = true) :
    Double.lt x m = Double.lt x n := by
  rcases x with _ | ⟨_ | _⟩ | ⟨_ | _, x⟩ <;> rcases m with _ | ⟨_ | _⟩ | ⟨_ | _, y⟩ <;>
    rcases n with _ | ⟨_ | _⟩ | ⟨_ | _, z⟩ <;>
    simp_all [Double.lt, Double.feq, Double.signed]

theorem Double.lt_congr_left (x : Double) {m n : Double} (h : Double.feq m n = true) :
    Double.lt m x = Double.lt n x := by
  rcases x with _ | ⟨_ | _⟩ | ⟨_ | _, x⟩ <;> rcases m with _ | ⟨_ | _⟩ | ⟨_ | _, y⟩ <;>
    rcases n with _ | ⟨_ | _⟩ | ⟨_ | _, z⟩ <;>
    simp_all [Double.lt, Double.feq, Double.signed]

theorem lower_comm (m a b : Double) :
    Double.same (lower b (lower a m)) (lower a (lower b m)) := by
  unfold lower
  cases h1 : Double.lt a m <;> cases h2 : Double.lt b m <;>
    simp only [h1, h2, if_true, if_false, Bool.false_eq_true]
  · exact Or.inl rfl
  · have h3 : Double.lt a b = false := by
      cases h : Double.lt a b
      · rfl
      · rw [Double.lt_trans h h2] at h1; exact absurd h1 (by decide)
    simp only [h3, if_false, Bool.false_eq_true]
    exact Or.inl rfl
  · have h3 : Double.lt b a = false := by
      cases h : Double.lt b a
      · rfl
      · rw [Double.lt_trans h h1] at h2; exact absurd h2 (by decide)
    simp only [h3, if_false, Bool.false_eq_true]
    exact Or.inl rfl
  · cases h3 : Double.lt b a
    · cases h4 : Double.lt a b
      · simp only [if_false, Bool.false_eq_true]
        exact Or.inr (Double.feq_of_not_lt (Double.ne_nan_of_lt_left h1)
          (Double.ne_nan_of_lt_left h2) h4 h3)
      · simp only [if_true, if_false, Bool.false_eq_true]
        exact Or.inl rfl
    · simp only [Double.lt_asymm h3, if_true, if_false, Bool.false_eq_true]
      exact Or.inl rfl

theorem raise_comm (m a b : Double) :
    Double.same (raise b (raise a m)) (raise a (raise b m)) := by
  unfold raise Double.gt
  cases h1 : Double.lt m a <;> cases h2 : Double.lt m b <;>
    simp only [h1, h2, if_true, if_false, Bool.false_eq_true]
  · exact Or.inl rfl
  · have h3 : Double.lt b a = false := by
      cases h : Double.lt b a
      · rfl
      · rw [Double.lt_trans h2 h] at h1; exact absurd h1 (by decide)
    simp only [h3, if_false, Bool.false_eq_true]
    exact Or.inl rfl
  · have h3 : Double.lt a b = false := by
      cases h : Double.lt a b
      · rfl
      · rw [Double.lt_trans h1 h] at h2; exact absurd h2 (by decide)
    simp only [h3, if_false, Bool.false_eq_true]
    exact Or.inl rfl
  · cases h3 : Double.lt a b
    · cases h4 : Double.lt b a
      · simp only [if_false, Bool.false_eq_true]
        exact Or.inr (Double.feq_of_not_lt (Double.ne_nan_of_lt_right h1)
          (Double.ne_nan_of_lt_right h2) h3 h4)
      · simp only [if_true, if_false, Bool.false_eq_true]
        exact Or.inl rfl
    · simp only [Double.lt_asymm h3, if_true, if_false, Bool.false_eq_true]
      exact Or.inl rfl

theorem lower_congr (x : Double) {m n : Double} (h : Double.same m n) :
    Double.same (lower x m) (lower x n) := by
  rcases h with rfl | h
  · exact Or.inl rfl
  · unfold lower
    rw [Double.lt_congr_right x h]
    cases h1 : Double.lt x n
    · simp only [if_false, Bool.false_eq_true]; exact Or.inr h
    · simp only [if_true]; exact Or.inl rfl

theorem raise_congr (x : Double) {m n : Double} (h : Double.same m n) :
    Double.same (raise x m) (raise x n) := by
  rcases h with rfl | h
  · exact Or.inl rfl
  · unfold raise Double.gt
    rw [Double.lt_congr_left x h]
    cases h1 : Double.lt n x
    · simp only [if_false, Bool.false_eq_true]; exact Or.inr h
    · simp only [if_true]; exact Or.inl rfl

theorem upd_min_lower (s : CheckerStats) (x : Server) :
    (checker_stats_update s x).min_latency_ms =
      if counted x then lower x.latency_ms s.min_latency_ms else s.min_latency_ms := by
  rw [upd_min]
  unfold lower
  by_cases h : counted x <;> simp [h]

theorem upd_max_raise (s : CheckerStats) (x : Server) :
    (checker_stats_update s x).max_latency_ms =
      if counted x then raise x.latency_ms s.max_latency_ms else s.max_latency_ms := by
  rw [upd_max]
  unfold raise
  by_cases h : counted x <;> simp [h]

theorem StatsEquiv.refl (s : CheckerStats) : StatsEquiv s s :=
  ⟨rfl, rfl, rfl, rfl, rfl, Or.inl rfl, Or.inl rfl⟩

theorem StatsEquiv.trans {s t u : CheckerStats} (h1 : StatsEquiv s t) (h2 : StatsEquiv t u) :
    StatsEquiv s u := by
  obtain ⟨a1, a2, a3, a4, a5, a6, a7⟩ := h1
  obtain ⟨b1, b2, b3, b4, b5, b6, b7⟩ := h2
  exact ⟨a1.trans b1, a2.trans b2, a3.trans b3, a4.trans b4, a5.trans b5,
    Double.same_trans a6 b6, Double.same_trans a7 b7⟩

theorem StatsEquiv.update {s t : CheckerStats} (h : StatsEquiv s t) (x : Server) :
    StatsEquiv (checker_stats_update s x) (checker_stats_update t x) := by
  obtain ⟨a1, a2, a3, a4, a5, a6, a7⟩ := h
  refine ⟨?_, ?_, ?_, ?_, ?_, ?_, ?_⟩
  · rw [upd_total, upd_total, a1]
  · rw [upd_online, upd_online, a2]
  · rw [upd_offline, upd_offline, a3]
  · rw [upd_timeout, upd_timeout, a4]
  · rw [upd_error, upd_error, a5]
  · rw [upd_min_lower, upd_min_lower]
    by_cases hc : counted x
    · simp only [hc, if_true]; exact lower_congr _ a6
    · simp only [hc, if_false]; exact a6
  · rw [upd_max_raise, upd_max_raise]
    by_cases hc : counted x
    · simp only [hc, if_true]; exact raise_congr _ a7
    · simp only [hc, if_false]; exact a7

theorem StatsEquiv.swap (s : CheckerStats) (a b : Server) :
    StatsEquiv (checker_stats_update (checker_stats_update s a) b)
      (checker_stats_update (checker_stats_update s b) a) := by
  refine ⟨?_, ?_, ?_, ?_, ?_, ?_, ?_⟩
  · simp only [upd_total]
  · simp only [upd_online]; split_ifs <;> rfl
  · simp only [upd_offline]; split_ifs <;> rfl
  · simp only [upd_timeout]; split_ifs <;> rfl
  · simp only [upd_error]; split_ifs <;> rfl
  · simp only [upd_min_lower]
    by_cases ha : counted a <;> by_cases hb : counted b <;>
      simp only [ha, hb, if_true, if_false]
    · exact lower_comm _ _ _
    · exact Or.inl rfl
    · exact Or.inl rfl
    · exact Or.inl rfl
  · simp only [upd_max_raise]
    by_cases ha : counted a <;> by_cases hb : counted b <;>
      simp only [ha, hb, if_true, if_false]
    · exact raise_comm _ _ _
    · exact Or.inl rfl
    · exact Or.inl rfl
    · exact Or.inl rfl

theorem StatsEquiv.foldl (l : List Server) :
    ∀ s t : CheckerStats, StatsEquiv s t →
      StatsEquiv (l.foldl checker_stats_update s) (l.foldl checker_stats_update t) := by
  induction l with
  | nil => intro s t h; exact h
  | cons x l ih => intro s t h; exact ih _ _ (h.update x)

theorem StatsEquiv.perm {l1 l2 : List Server} (hp : l1.Perm l2) :
    ∀ s t : CheckerStats, StatsEquiv s t →
      StatsEquiv (l1.foldl checker_stats_update s) (l2.foldl checker_stats_update t) := by
  induction hp with
  | nil => intro s t h; exact h
  | cons x _ ih => intro s t h; exact ih _ _ (h.update x)
  | swap x y l =>
    intro s t h
    simp only [List.foldl_cons]
    exact StatsEquiv.foldl l _ _
      (((h.update y).update x).trans (StatsEquiv.swap t y x))
  | trans _ _ ih1 ih2 => intro s t h; exact (ih1 s t h).trans (ih2 t t (StatsEquiv.refl t))

/-- C7, counterexample: from the state after one ONLINE record of 0.1 ms, adding the
ONLINE records 0.1 ms and 1.5 ms gives total_latency_ms 1.7 in that order and
1.7000000000000002 in the other: double addition rounds, so the sum depends on order. -/
theorem stats_sum_depends_on_order :
    tenth.isDouble = true ∧ Double.isDouble (.fin false (3 * 2 ^ 1073)) = true ∧
    (checker_stats_update
      (checker_stats_update (stats_fold [mkServer .BDIX_STATUS_ONLINE tenth])
        (mkServer .BDIX_STATUS_ONLINE tenth))
      (mkServer .BDIX_STATUS_ONLINE (.fin false (3 * 2 ^ 1073)))).total_latency_ms
      = .fin false (7656119366529843 * 2 ^ 1022) ∧
    (checker_stats_update
      (checker_stats_update (stats_fold [mkServer .BDIX_STATUS_ONLINE tenth])
        (mkServer .BDIX_STATUS_ONLINE (.fin false (3 * 2 ^ 1073))))
      (mkServer .BDIX_STATUS_ONLINE tenth)).total_latency_ms
      = .fin false (1914029841632461 * 2 ^ 1024) ∧
    Double.feq (.fin false (7656119366529843 * 2 ^ 1022))
      (.fin false (1914029841632461 * 2 ^ 1024)) = false := by
  decide

/-- C7, amended: for every state s and records a, b, updating with a then b and with b
then a gives the same five counters and the same minimum and maximum (equal bits or equal
under `==`); hence folding any permutation of a list from any state gives these seven
values again; and total_latency_ms is the same in both orders whenever the additions are
exact (finite non-negative operands whose sums are finite doubles). -/
theorem stats_update_order_independent :
    (∀ (s : CheckerStats) (a b : Server),
      StatsEquiv (checker_stats_update (checker_stats_update s a) b)
        (checker_stats_update (checker_stats_update s b) a)) ∧
    (∀ (s : CheckerStats) (l1 l2 : List Server), l1.Perm l2 →
      StatsEquiv (l1.foldl checker_stats_update s) (l2.foldl checker_stats_update s)) ∧
    (∀ (s : CheckerStats) (a b : Server) (t x y : Nat),
      s.total_latency_ms = .fin false t → a.latency_ms = .fin false x →
      b.latency_ms = .fin false y →
      rnd (t + x) = t + x → rnd (t + y) = t + y → rnd (t + x + y) = t + x + y →
      t + x + y < OVERFLOW →
      (checker_stats_update (checker_stats_update s a) b).total_latency_ms
        = (checker_stats_update (checker_stats_update s b) a).total_latency_ms) := by
  refine ⟨StatsEquiv.swap, fun s l1 l2 hp => StatsEquiv.perm hp s s (StatsEquiv.refl s), ?_⟩
  intro s a b t x y hs ha hb e1 e2 e3 hlt
  simp only [upd_sum, hs, ha, hb]
  have e4 : rnd (t + y + x) = t + y + x := by
    rw [show t + y + x = t + x + y by omega]; exact e3
  by_cases hca : counted a <;> by_cases hcb : counted b <;>
    simp only [hca, hcb, if_true, if_false]
  rw [add_exact t x e1 (by omega), add_exact t y e2 (by omega),
    add_exact (t + x) y e3 hlt, add_exact (t + y) x e4 (by omega)]
  congr 1
  omega

/-- Witness of `stats_update_order_independent`: the four latencies folded backwards and
forwards, and the exact sums 0 + 100 + 250 in both orders. -/
theorem stats_update_order_independent_witness :
    fourLatencies.reverse.Perm fourLatencies ∧
    StatsEquiv (fourLatencies.reverse.foldl checker_stats_update checker_stats_init)
      (fourLatencies.foldl checker_stats_update checker_stats_init) ∧
    (checker_stats_update (checker_stats_update checker_stats_init
        (mkServer .BDIX_STATUS_ONLINE (.fin false (100 * 2 ^ 1074))))
        (mkServer .BDIX_STATUS_ONLINE (.fin false (250 * 2 ^ 1074)))).total_latency_ms
      = (checker_stats_update (checker_stats_update checker_stats_init
        (mkServer .BDIX_STATUS_ONLINE (.fin false (250 * 2 ^ 1074))))
        (mkServer .BDIX_STATUS_ONLINE (.fin false (100 * 2 ^ 1074)))).total_latency_ms :=
  ⟨List.reverse_perm _,
    stats_update_order_independent.2.1 checker_stats_init _ _ (List.reverse_perm _),
    stats_update_order_independent.2.2 checker_stats_init
      (mkServer .BDIX_STATUS_ONLINE (.fin false (100 * 2 ^ 1074)))
      (mkServer .BDIX_STATUS_ONLINE (.fin false (250 * 2 ^ 1074)))
      0 (100 * 2 ^ 1074) (250 * 2 ^ 1074) rfl rfl rfl
      (by decide) (by decide) (by decide) (by decide)⟩

/-! ## The step relation of the pool -/

theorem unfinishedItems_set_same (ws : List WorkerPc) (i : Nat) (pc pc2 : WorkerPc)
    (h : ws[i]? = some pc) (e : pc2.unfinished = pc.unfinished) :
    unfinishedItems (ws.set i pc2) = unfinishedItems ws := by
  induction ws generalizing i with
  | nil => simp at h
  | cons a ws ih =>
    cases i with
    | zero =>
      simp at h
      subst h
      simp [unfinishedItems, List.filterMap_cons, e]
    | succ i =>
      simp at h
      have := ih i h
      simp only [unfinishedItems, List.set_cons_succ, List.filterMap_cons] at this ⊢
      rw [this]

theorem unfinishedItems_set_add (ws : List WorkerPc) (i : Nat) (pc pc2 : WorkerPc)
    (w : WorkItem) (h : ws[i]? = some pc) (e1 : pc.unfinished = none)
    (e2 : pc2.unfinished = some w) :
    (unfinishedItems (ws.set i pc2)).Perm (w :: unfinishedItems ws) := by
  induction ws generalizing i with
  | nil => simp at h
  | cons a ws ih =>
    cases i with
    | zero =>
      simp at h
      subst h
      simp [unfinishedItems, List.filterMap_cons, e1, e2]
    | succ i =>
      simp at h
      have := ih i h
      simp only [unfinishedItems, List.set_cons_succ, List.filterMap_cons] at this ⊢
      cases a.unfinished with
      | none => exact this
      | some v => exact (List.Perm.cons v this).trans (List.Perm.swap w v _)

theorem unfinishedItems_set_remove (ws : List WorkerPc) (i : Nat) (pc pc2 : WorkerPc)
    (w : WorkItem) (h : ws[i]? = some pc) (e1 : pc.unfinished = some w)
    (e2 : pc2.unfinished = none) :
    (w :: unfinishedItems (ws.set i pc2)).Perm (unfinishedItems ws) := by
  induction ws generalizing i with
  | nil => simp at h
  | cons a ws ih =>
    cases i with
    | zero =>
      simp at h
      subst h
      simp [unfinishedItems, List.filterMap_cons, e1, e2]
    | succ i =>
      simp at h
      have := ih i h
      simp only [unfinishedItems, List.set_cons_succ, List.filterMap_cons] at this ⊢
      cases a.unfinished with
      | none => exact this
      | some v => exact (List.Perm.swap v w _).trans (List.Perm.cons v this)

theorem unfinishedItems_wakeAll (ws : List WorkerPc) :
    unfinishedItems (wakeAll ws) = unfinishedItems ws := by
  induction ws with
  | nil => rfl
  | cons a ws ih =>
    simp only [unfinishedItems, wakeAll, List.map_cons, List.filterMap_cons] at ih ⊢
    rw [ih]
    by_cases h : a = .blocked
    · subst h; simp [WorkerPc.unfinished]
    · simp [h]

theorem unfinishedItems_replicate_lock (n : Nat) :
    unfinishedItems (List.replicate n .lock) = [] := by
  induction n with
  | zero => rfl
  | succ n ih =>
    simp only [unfinishedItems, List.replicate_succ, List.filterMap_cons] at ih ⊢
    simp [WorkerPc.unfinished]

theorem wakeAll_exited (ws : List WorkerPc) (j : Nat) (h : ws[j]? = some .exited) :
    (wakeAll ws)[j]? = some .exited := by
  simp [wakeAll, List.getElem?_map, h]

theorem set_exited (ws : List WorkerPc) (i j : Nat) (pc pc2 : WorkerPc)
    (hi : ws[i]? = some pc) (hne : pc ≠ .exited) (h : ws[j]? = some .exited) :
    (ws.set i pc2)[j]? = some .exited := by
  by_cases e : i = j
  · subst e
    rw [hi] at h
    exact absurd (Option.some.inj h) hne
  · rw [List.getElem?_set_ne e]
    exact h

theorem unfinishedItems_of_all_exited (ws : List WorkerPc)
    (h : ∀ pc ∈ ws, pc = .exited) : unfinishedItems ws = [] := by
  induction ws with
  | nil => rfl
  | cons a ws ih =>
    have ha := h a (by simp)
    subst ha
    have := ih (fun pc hpc => h pc (List.mem_cons_of_mem _ hpc))
    simp only [unfinishedItems, List.filterMap_cons] at this ⊢
    simpa [WorkerPc.unfinished] using this

theorem mem_unfinishedItems (ws : List WorkerPc) (i : Nat) (pc : WorkerPc) (w : WorkItem)
    (h : ws[i]? = some pc) (e : pc.unfinished = some w) : w ∈ unfinishedItems ws := by
  unfold unfinishedItems
  rw [List.mem_filterMap]
  exact ⟨pc, List.getElem?_mem h, e⟩

/-- What one step of a worker can do, by event. -/
theorem worker_thread_spec (i : Nat) (pool p : ThreadPool) (pc pc2 : WorkerPc) (ev : Event)
    (hw : worker_thread i pool pc = some (p, pc2, ev)) :
    p.thread_count = pool.thread_count ∧ p.shutdown = pool.shutdown ∧ pc ≠ .exited ∧
    (pc2 = .dequeue → pool.shutdown = false) ∧
    (pc = .checkShutdown → pool.shutdown = true → pc2 = .exited) ∧
    match ev with
    | .dequeued w =>
      pc = .dequeue ∧ pc2 ≠ .dequeue ∧ pool.work_queue = w :: p.work_queue ∧
        pc.unfinished = none ∧ pc2.unfinished = some w
    | .executed w =>
      p.work_queue = pool.work_queue ∧ pc.unfinished = some w ∧ pc2.unfinished = none
    | .tau =>
      p.work_queue = pool.work_queue ∧
        (pc2.unfinished = pc.unfinished ∨
          ∃ w, pc.unfinished = some w ∧ w.function = 0 ∧ pc2.unfinished = none)
    | .signalDone => p.work_queue = pool.work_queue ∧ pc2.unfinished = pc.unfinished := by
  cases pc with
  | lock =>
    simp only [worker_thread] at hw
    split_ifs at hw
    simp only [Option.some.injEq, Prod.mk.injEq] at hw
    obtain ⟨rfl, rfl, rfl⟩ := hw
    simp [WorkerPc.unfinished]
  | waitLoop =>
    simp only [worker_thread] at hw
    split_ifs at hw <;> simp only [Option.some.injEq, Prod.mk.injEq] at hw <;>
      obtain ⟨rfl, rfl, rfl⟩ := hw <;> simp [WorkerPc.unfinished]
  | condWait =>
    simp only [worker_thread, Option.some.injEq, Prod.mk.injEq] at hw
    obtain ⟨rfl, rfl, rfl⟩ := hw
    simp [WorkerPc.unfinished]
  | blocked => simp [worker_thread] at hw
  | woken =>
    simp only [worker_thread] at hw
    split_ifs at hw
    simp only [Option.some.injEq, Prod.mk.injEq] at hw
    obtain ⟨rfl, rfl, rfl⟩ := hw
    simp [WorkerPc.unfinished]
  | checkShutdown =>
    simp only [worker_thread] at hw
    split_ifs at hw with hsd <;> simp only [Option.some.injEq, Prod.mk.injEq] at hw <;>
      obtain ⟨rfl, rfl, rfl⟩ := hw <;> simp [WorkerPc.unfinished, hsd]
  | dequeue =>
    simp only [worker_thread] at hw
    split at hw <;> simp only [Option.some.injEq, Prod.mk.injEq] at hw <;>
      obtain ⟨rfl, rfl, rfl⟩ := hw <;> simp_all [WorkerPc.unfinished]
  | unlock work =>
    cases work <;> simp only [worker_thread, Option.some.injEq, Prod.mk.injEq] at hw <;>
      obtain ⟨rfl, rfl, rfl⟩ := hw <;> simp [WorkerPc.unfinished]
  | incWorking work =>
    simp only [worker_thread, Option.some.injEq, Prod.mk.injEq] at hw
    obtain ⟨rfl, rfl, rfl⟩ := hw
    simp [WorkerPc.unfinished]
  | run work =>
    simp only [worker_thread, Option.some.injEq, Prod.mk.injEq] at hw
    obtain ⟨rfl, rfl, hev⟩ := hw
    by_cases hf : work.function = 0
    · rw [if_pos hf] at hev
      subst hev
      simp [WorkerPc.unfinished, hf]
    · rw [if_neg hf] at hev
      subst hev
      simp [WorkerPc.unfinished]
  | decWorking =>
    simp only [worker_thread, Option.some.injEq, Prod.mk.injEq] at hw
    obtain ⟨rfl, rfl, rfl⟩ := hw
    simp [WorkerPc.unfinished]
  | doneLock =>
    simp only [worker_thread] at hw
    split_ifs at hw
    simp only [Option.some.injEq, Prod.mk.injEq] at hw
    obtain ⟨rfl, rfl, rfl⟩ := hw
    simp [WorkerPc.unfinished]
  | doneSignal =>
    simp only [worker_thread, Option.some.injEq, Prod.mk.injEq] at hw
    obtain ⟨rfl, rfl, rfl⟩ := hw
    simp [WorkerPc.unfinished]
  | doneUnlock =>
    simp only [worker_thread, Option.some.injEq, Prod.mk.injEq] at hw
    obtain ⟨rfl, rfl, rfl⟩ := hw
    simp [WorkerPc.unfinished]
  | exited => simp [worker_thread] at hw

theorem Inv.worker {s : Sys} (h : Inv s) (i : Nat) (pc pc2 : WorkerPc) (p : ThreadPool)
    (ev : Event) (hi : s.workers[i]? = some pc)
    (hw : worker_thread i s.pool pc = some (p, pc2, ev)) :
    Inv (Sys.apply { s with pool := p, workers := s.workers.set i pc2 } ev) := by
  obtain ⟨f1, _, f3, _, _, f6⟩ := worker_thread_spec i s.pool p pc pc2 ev hw
  have hj : ∀ j, j < s.client.joined s.pool.thread_count →
      (s.workers.set i pc2)[j]? = some .exited :=
    fun j hj => set_exited _ _ _ _ _ hi f3 (h.joined j hj)
  have hilt : i < s.pool.thread_count := by
    rw [← h.len]
    by_contra hge
    rw [List.getElem?_eq_none (by omega)] at hi
    exact absurd hi (by simp)
  have hnd : ¬ (s.client = .drainUnlock ∨ s.client = .destroyed) := by
    intro hc
    have hx : s.workers[i]? = some .exited := by
      apply h.joined
      rcases hc with hc | hc <;> rw [hc] <;> exact hilt
    rw [hi] at hx
    exact f3 (Option.some.inj hx)
  cases ev with
  | tau =>
    obtain ⟨q, u⟩ := f6
    have hu : pc2.unfinished = pc.unfinished := by
      rcases u with u | ⟨w, u1, u2, _⟩
      · exact u
      · exact absurd u2 (h.fnHeld w (mem_unfinishedItems _ _ _ _ hi u1))
    have e := unfinishedItems_set_same s.workers i pc pc2 hi hu
    exact
      { len := by simpa [Sys.apply, f1] using h.len
        hist := by simpa [Sys.apply, e] using h.hist
        fnQueue := by simpa [Sys.apply, q] using h.fnQueue
        fnHeld := by simpa [Sys.apply, e] using h.fnHeld
        fnClient := by simpa [Sys.apply] using h.fnClient
        joined := by simpa [Sys.apply, f1] using hj
        drained := fun hc => absurd hc hnd }
  | signalDone =>
    obtain ⟨q, hu⟩ := f6
    have e := unfinishedItems_set_same s.workers i pc pc2 hi hu
    by_cases hc : s.client = .waitBlocked
    · exact
        { len := by simpa [Sys.apply, hc, f1] using h.len
          hist := by simpa [Sys.apply, hc, e] using h.hist
          fnQueue := by simpa [Sys.apply, hc, q] using h.fnQueue
          fnHeld := by simpa [Sys.apply, hc, e] using h.fnHeld
          fnClient := by simp [Sys.apply, hc, ClientPc.item]
          joined := by simp [Sys.apply, hc, ClientPc.joined]
          drained := by simp [Sys.apply, hc] }
    · exact
        { len := by simpa [Sys.apply, hc, f1] using h.len
          hist := by simpa [Sys.apply, hc, e] using h.hist
          fnQueue := by simpa [Sys.apply, hc, q] using h.fnQueue
          fnHeld := by simpa [Sys.apply, hc, e] using h.fnHeld
          fnClient := by simpa [Sys.apply, hc] using h.fnClient
          joined := by simpa [Sys.apply, hc, f1] using hj
          drained := by
            intro hd
            simp only [Sys.apply, hc, if_false] at hd
            exact absurd hd hnd }
  | dequeued w =>
    obtain ⟨_, _, q, u1, u2⟩ := f6
    have e := unfinishedItems_set_add s.workers i pc pc2 w hi u1 u2
    have hwq : w ∈ s.pool.work_queue := by rw [q]; simp
    exact
      { len := by simpa [Sys.apply, f1] using h.len
        hist := by
          simp only [Sys.apply]
          have a1 : (s.executed ++ unfinishedItems (s.workers.set i pc2)).Perm
              (s.executed ++ (w :: unfinishedItems s.workers)) := List.Perm.append_left _ e
          have a2 : (s.executed ++ (w :: unfinishedItems s.workers)).Perm
              ((s.executed ++ unfinishedItems s.workers) ++ [w]) := by
            rw [List.append_assoc]
            exact List.Perm.append_left _ (List.perm_append_singleton _ _).symm
          exact a1.trans (a2.trans (List.Perm.append_right _ h.hist))
        fnQueue := by
          intro v hv
          simp only [Sys.apply] at hv
          exact h.fnQueue v (by rw [q]; exact List.mem_cons_of_mem _ hv)
        fnHeld := by
          intro v hv
          simp only [Sys.apply] at hv
          rcases List.mem_cons.1 (e.subset hv) with rfl | hv2
          · exact h.fnQueue _ hwq
          · exact h.fnHeld v hv2
        fnClient := by simpa [Sys.apply] using h.fnClient
        joined := by simpa [Sys.apply, f1] using hj
        drained := fun hc => absurd hc hnd }
  | executed w =>
    obtain ⟨q, u1, u2⟩ := f6
    have e := unfinishedItems_set_remove s.workers i pc pc2 w hi u1 u2
    exact
      { len := by simpa [Sys.apply, f1] using h.len
        hist := by
          simp only [Sys.apply]
          have a1 : ((s.executed ++ [w]) ++ unfinishedItems (s.workers.set i pc2)).Perm
              (s.executed ++ unfinishedItems s.workers) := by
            rw [List.append_assoc]
            exact List.Perm.append_left _ e
          exact a1.trans h.hist
        fnQueue := by simpa [Sys.apply, q] using h.fnQueue
        fnHeld := by
          intro v hv
          simp only [Sys.apply] at hv
          exact h.fnHeld v (e.subset (List.mem_cons_of_mem _ hv))
        fnClient := by simpa [Sys.apply] using h.fnClient
        joined := by simpa [Sys.apply, f1] using hj
        drained := fun hc => absurd hc hnd }

/-- A step that keeps the workers, the queue and the history of dequeued and executed
items keeps the invariant, given the three facts about the new client program point. -/
theorem Inv.frame {s : Sys} (h : Inv s) (s2 : Sys)
    (e1 : s2.workers = s.workers) (e2 : s2.pool.thread_count = s.pool.thread_count)
    (e3 : s2.pool.work_queue = s.pool.work_queue) (e4 : s2.executed = s.executed)
    (e5 : s2.dequeued = s.dequeued)
    (c1 : ∀ w, s2.client.item = some w → w.function ≠ 0)
    (c2 : ∀ j, j < s2.client.joined s.pool.thread_count → s.workers[j]? = some .exited)
    (c3 : s2.client = .drainUnlock ∨ s2.client = .destroyed →
      s2.released = s.pool.work_queue) : Inv s2 :=
  { len := by rw [e1, e2]; exact h.len
    hist := by rw [e1, e4, e5]; exact h.hist
    fnQueue := by rw [e3]; exact h.fnQueue
    fnHeld := by rw [e1]; exact h.fnHeld
    fnClient := c1
    joined := by rw [e1, e2]; exact c2
    drained := by rw [e3]; exact c3 }

theorem Inv.client {s s2 : Sys} (h : Inv s) (t : Nat) (hc : client_step s t = some s2) :
    Inv s2 := by
  cases hcl : s.client with
  | ready => simp [client_step, hcl] at hc
  | addCheck f a =>
    simp only [client_step, hcl, add_work_check] at hc
    split_ifs at hc with hf hsd <;> simp only [Option.some.injEq] at hc <;> subst hc
    · exact h.frame _ rfl rfl rfl rfl rfl (by simp [ClientPc.item]) (by simp [ClientPc.joined])
        (by simp)
    · exact h.frame _ rfl rfl rfl rfl rfl (by simp [ClientPc.item]) (by simp [ClientPc.joined])
        (by simp)
    · exact h.frame _ rfl rfl rfl rfl rfl (by simpa [ClientPc.item] using hf)
        (by simp [ClientPc.joined]) (by simp)
  | addLock w =>
    simp only [client_step, hcl] at hc
    split_ifs at hc
    simp only [Option.some.injEq] at hc
    subst hc
    exact h.frame _ rfl rfl rfl rfl rfl
      (by simpa [ClientPc.item, hcl] using h.fnClient w) (by simp [ClientPc.joined]) (by simp)
  | addEnqueue w =>
    simp only [client_step, hcl, Option.some.injEq] at hc
    subst hc
    have hw : w.function ≠ 0 := h.fnClient w (by simp [hcl, ClientPc.item])
    exact
      { len := by simpa [enqueue] using h.len
        hist := h.hist
        fnQueue := by
          intro v hv
          simp only [enqueue, List.mem_append, List.mem_singleton] at hv
          rcases hv with hv | rfl
          · exact h.fnQueue v hv
          · exact hw
        fnHeld := h.fnHeld
        fnClient := by simp [ClientPc.item]
        joined := by simp [ClientPc.joined]
        drained := by simp }
  | addSignal =>
    simp only [client_step, hcl] at hc
    split_ifs at hc with hb hm <;> simp only [Option.some.injEq] at hc <;> subst hc
    · have e := unfinishedItems_set_same s.workers t .blocked .woken hb rfl
      exact
        { len := by simpa using h.len
          hist := by simpa [e] using h.hist
          fnQueue := h.fnQueue
          fnHeld := by simpa [e] using h.fnHeld
          fnClient := by simp [ClientPc.item]
          joined := by simp [ClientPc.joined]
          drained := by simp }
    · exact h.frame _ rfl rfl rfl rfl rfl (by simp [ClientPc.item]) (by simp [ClientPc.joined])
        (by simp)
  | addUnlock =>
    simp only [client_step, hcl, Option.some.injEq] at hc
    subst hc
    exact h.frame _ rfl rfl rfl rfl rfl (by simp [ClientPc.item]) (by simp [ClientPc.joined])
      (by simp)
  | waitLock =>
    simp only [client_step, hcl] at hc
    split_ifs at hc
    simp only [Option.some.injEq] at hc
    subst hc
    exact h.frame _ rfl rfl rfl rfl rfl (by simp [ClientPc.item]) (by simp [ClientPc.joined])
      (by simp)
  | waitLoop =>
    simp only [client_step, hcl] at hc
    split_ifs at hc <;> simp only [Option.some.injEq] at hc <;> subst hc
    · exact h.frame _ rfl rfl rfl rfl rfl (by simp [ClientPc.item]) (by simp [ClientPc.joined])
        (by simp)
    · exact h.frame _ rfl rfl rfl rfl rfl (by simp [ClientPc.item]) (by simp [ClientPc.joined])
        (by simp)
  | waitBlocked => simp [client_step, hcl] at hc
  | waitWoken =>
    simp only [client_step, hcl] at hc
    split_ifs at hc
    simp only [Option.some.injEq] at hc
    subst hc
    exact h.frame _ rfl rfl rfl rfl rfl (by simp [ClientPc.item]) (by simp [ClientPc.joined])
      (by simp)
  | waitUnlock =>
    simp only [client_step, hcl, Option.some.injEq] at hc
    subst hc
    exact h.frame _ rfl rfl rfl rfl rfl (by simp [ClientPc.item]) (by simp [ClientPc.joined])
      (by simp)
  | destroyStore =>
    simp only [client_step, hcl, Option.some.injEq] at hc
    subst hc
    exact h.frame _ rfl rfl rfl rfl rfl (by simp [ClientPc.item]) (by simp [ClientPc.joined])
      (by simp)
  | destroyLock =>
    simp only [client_step, hcl] at hc
    split_ifs at hc
    simp only [Option.some.injEq] at hc
    subst hc
    exact h.frame _ rfl rfl rfl rfl rfl (by simp [ClientPc.item]) (by simp [ClientPc.joined])
      (by simp)
  | destroyBroadcast =>
    simp only [client_step, hcl, Option.some.injEq] at hc
    subst hc
    have e := unfinishedItems_wakeAll s.workers
    exact
      { len := by simpa [wakeAll] using h.len
        hist := by simpa [e] using h.hist
        fnQueue := h.fnQueue
        fnHeld := by simpa [e] using h.fnHeld
        fnClient := by simp [ClientPc.item]
        joined := by simp [ClientPc.joined]
        drained := by simp }
  | destroyUnlock =>
    simp only [client_step, hcl, Option.some.injEq] at hc
    subst hc
    exact h.frame _ rfl rfl rfl rfl rfl (by simp [ClientPc.item]) (by simp [ClientPc.joined])
      (by simp)
  | destroyJoin i =>
    simp only [client_step, hcl] at hc
    have hjn := h.joined
    simp only [hcl, ClientPc.joined] at hjn
    split_ifs at hc with hlt hex <;> simp only [Option.some.injEq] at hc <;> subst hc
    · refine h.frame _ rfl rfl rfl rfl rfl (by simp [ClientPc.item]) ?_ (by simp)
      intro j hj
      simp only [ClientPc.joined] at hj
      by_cases e : j = i
      · rw [e]; exact hex
      · exact hjn j (by omega)
    · refine h.frame _ rfl rfl rfl rfl rfl (by simp [ClientPc.item]) ?_ (by simp)
      intro j hj
      simp only [ClientPc.joined] at hj
      exact hjn j (by omega)
  | drainLock =>
    simp only [client_step, hcl] at hc
    have hjn := h.joined
    simp only [hcl, ClientPc.joined] at hjn
    split_ifs at hc
    simp only [Option.some.injEq] at hc
    subst hc
    exact h.frame _ rfl rfl rfl rfl rfl (by simp [ClientPc.item])
      (by simpa [ClientPc.joined] using hjn) (by simp)
  | drainFree =>
    simp only [client_step, hcl, Option.some.injEq] at hc
    have hjn := h.joined
    simp only [hcl, ClientPc.joined] at hjn
    subst hc
    exact h.frame _ rfl rfl rfl rfl rfl (by simp [ClientPc.item])
      (by simpa [ClientPc.joined] using hjn) (by simp)
  | drainUnlock =>
    simp only [client_step, hcl, Option.some.injEq] at hc
    have hjn := h.joined
    simp only [hcl, ClientPc.joined] at hjn
    have hd := h.drained (Or.inl hcl)
    subst hc
    exact h.frame _ rfl rfl rfl rfl rfl (by simp [ClientPc.item])
      (by simpa [ClientPc.joined] using hjn) (by simpa using hd)
  | destroyed => simp [client_step, hcl] at hc

theorem Inv.step {s s2 : Sys} (h : Inv s) (l : Label) (hs : Sys.step s l = some s2) :
    Inv s2 := by
  cases l with
  | worker i =>
    simp only [Sys.step] at hs
    cases hi : s.workers[i]? with
    | none => simp [hi] at hs
    | some pc =>
      simp only [hi] at hs
      cases hw : worker_thread i s.pool pc with
      | none => simp [hw] at hs
      | some r =>
        obtain ⟨p, pc2, ev⟩ := r
        simp only [hw, Option.some.injEq] at hs
        rw [← hs]
        exact h.worker i pc pc2 p ev hi hw
  | wake i =>
    simp only [Sys.step] at hs
    split_ifs at hs with hb
    simp only [Option.some.injEq] at hs
    subst hs
    have e := unfinishedItems_set_same s.workers i .blocked .woken hb rfl
    exact
      { len := by simpa using h.len
        hist := by simpa [e] using h.hist
        fnQueue := h.fnQueue
        fnHeld := by simpa [e] using h.fnHeld
        fnClient := h.fnClient
        joined := fun j hj => set_exited _ _ _ _ _ hb (by simp) (h.joined j hj)
        drained := h.drained }
  | wakeClient =>
    simp only [Sys.step] at hs
    split_ifs at hs with hb
    simp only [Option.some.injEq] at hs
    subst hs
    exact h.frame _ rfl rfl rfl rfl rfl (by simp [ClientPc.item]) (by simp [ClientPc.joined])
      (by simp)
  | call_add_work f a =>
    simp only [Sys.step] at hs
    split_ifs at hs with hb
    simp only [Option.some.injEq] at hs
    subst hs
    exact h.frame _ rfl rfl rfl rfl rfl (by simp [ClientPc.item]) (by simp [ClientPc.joined])
      (by simp)
  | call_wait =>
    simp only [Sys.step] at hs
    split_ifs at hs with hb
    simp only [Option.some.injEq] at hs
    subst hs
    exact h.frame _ rfl rfl rfl rfl rfl (by simp [ClientPc.item]) (by simp [ClientPc.joined])
      (by simp)
  | call_destroy =>
    simp only [Sys.step] at hs
    split_ifs at hs with hb
    simp only [Option.some.injEq] at hs
    subst hs
    exact h.frame _ rfl rfl rfl rfl rfl (by simp [ClientPc.item]) (by simp [ClientPc.joined])
      (by simp)
  | client t => exact h.client t hs

theorem Inv.run {s : Sys} (h : Inv s) (tr : List Label) :
    ∀ s2, Sys.run s tr = some s2 → Inv s2 := by
  induction tr generalizing s with
  | nil =>
    intro s2 hr
    simp only [Sys.run, Option.some.injEq] at hr
    rw [← hr]
    exact h
  | cons l ls ih =>
    intro s2 hr
    simp only [Sys.run] at hr
    cases hs : Sys.step s l with
    | none => simp [hs] at hr
    | some s1 =>
      simp only [hs] at hr
      exact ih (h.step l hs) s2 hr

theorem thread_pool_create_some (env : PthreadEnv) (n k : Nat) (p : ThreadPool)
    (h : thread_pool_create env n = { pool := some p, started := k }) :
    1 ≤ n ∧ n ≤ MAX_THREADS ∧ k = n ∧
    p = { thread_count := n, work_queue := [], queue_mutex := none, working_count := 0,
          pending_count := 0, shutdown := false } := by
  unfold thread_pool_create at h
  split_ifs at h with h1 h2 h3 h4
  · simp at h
  · simp at h
  · simp at h
  · simp at h
  · split at h
    · simp at h
    · simp only [CreateResult.mk.injEq, Option.some.injEq] at h
      obtain ⟨rfl, rfl, _⟩ := h
      refine ⟨by omega, by omega, rfl, rfl⟩

theorem Inv.init (env : PthreadEnv) (n k : Nat) (p : ThreadPool)
    (h : thread_pool_create env n = { pool := some p, started := k }) : Inv (Sys.init p) := by
  obtain ⟨_, _, _, rfl⟩ := thread_pool_create_some env n k p h
  exact
    { len := by simp [Sys.init]
      hist := by simp [Sys.init, unfinishedItems_replicate_lock]
      fnQueue := by simp [Sys.init]
      fnHeld := by simp [Sys.init, unfinishedItems_replicate_lock]
      fnClient := by simp [Sys.init, ClientPc.item]
      joined := by simp [Sys.init, ClientPc.joined]
      drained := by simp [Sys.init] }

theorem wakeAll_getElem? (ws : List WorkerPc) (j : Nat) (pc : WorkerPc)
    (h : (wakeAll ws)[j]? = some pc) :
    ws[j]? = some pc ∨ (pc = .woken ∧ ws[j]? = some .blocked) := by
  simp only [wakeAll, List.getElem?_map] at h
  cases hq : ws[j]? with
  | none => simp [hq] at h
  | some a =>
    simp only [hq, Option.map_some', Option.some.injEq] at h
    by_cases hb : a = .blocked
    · rw [if_pos hb] at h
      exact Or.inr ⟨h.symm, by rw [hb]⟩
    · rw [if_neg hb] at h
      exact Or.inl (by rw [h])

theorem set_woken_getElem? (ws : List WorkerPc) (i j : Nat) (pc : WorkerPc)
    (hb : ws[i]? = some .blocked) (h : (ws.set i .woken)[j]? = some pc) :
    ws[j]? = some pc ∨ (pc = .woken ∧ ws[j]? = some .blocked) := by
  by_cases e : i = j
  · subst e
    rw [List.getElem?_set] at h
    simp only [if_true] at h
    split_ifs at h
    exact Or.inr ⟨(Option.some.inj h).symm, hb⟩
  · rw [List.getElem?_set_ne e] at h
    exact Or.inl h

/-- What a step of the client leaves alone. -/
theorem client_step_frame (s s2 : Sys) (t : Nat) (hc : client_step s t = some s2) :
    (s.pool.shutdown = true → s2.pool.shutdown = true) ∧
    s2.dequeued = s.dequeued ∧ s2.executed = s.executed ∧
    (∀ (j : Nat) (pc : WorkerPc), s2.workers[j]? = some pc →
      s.workers[j]? = some pc ∨ (pc = .woken ∧ s.workers[j]? = some .blocked)) := by
  cases hcl : s.client <;> simp only [client_step, hcl, add_work_check] at hc
  all_goals (try split_ifs at hc with hb)
  all_goals (try simp only [Option.some.injEq] at hc)
  all_goals (try subst hc)
  all_goals (try exact absurd hc (by simp))
  all_goals first
    | exact ⟨fun h => h, rfl, rfl, fun j pc h => Or.inl h⟩
    | exact ⟨fun _ => rfl, rfl, rfl, fun j pc h => Or.inl h⟩
    | exact ⟨fun h => h, rfl, rfl, fun j pc h => set_woken_getElem? _ _ _ _ hb h⟩
    | exact ⟨fun h => h, rfl, rfl, fun j pc h => wakeAll_getElem? _ _ _ h⟩

theorem Sys.apply_pool (s : Sys) (ev : Event) : (Sys.apply s ev).pool = s.pool := by
  cases ev <;> simp only [Sys.apply]
  split_ifs <;> rfl

theorem Sys.apply_workers (s : Sys) (ev : Event) : (Sys.apply s ev).workers = s.workers := by
  cases ev <;> simp only [Sys.apply]
  split_ifs <;> rfl

theorem Sys.apply_dequeued (s : Sys) (ev : Event) :
    (Sys.apply s ev).dequeued =
      match ev with
      | .dequeued w => s.dequeued ++ [w]
      | _ => s.dequeued := by
  cases ev <;> simp only [Sys.apply]
  split_ifs <;> rfl

theorem Sys.apply_executed (s : Sys) (ev : Event) :
    (Sys.apply s ev).executed =
      match ev with
      | .executed w => s.executed ++ [w]
      | _ => s.executed := by
  cases ev <;> simp only [Sys.apply]
  split_ifs <;> rfl

/-- Steps taken while the shutdown flag is set. -/
theorem step_after_shutdown (s s2 : Sys) (l : Label) (hsd : s.pool.shutdown = true)
    (hs : Sys.step s l = some s2) :
    s2.pool.shutdown = true ∧
    (∀ i : Nat, s2.workers[i]? = some .dequeue → s.workers[i]? = some .dequeue) ∧
    (s2.dequeued ≠ s.dequeued →
      ∃ i : Nat, l = .worker i ∧ s.workers[i]? = some .dequeue ∧
        s2.workers[i]? ≠ some .dequeue) ∧
    (∀ i : Nat, l = .worker i → s.workers[i]? = some .checkShutdown →
      s2.workers[i]? = some .exited ∧ s2.dequeued = s.dequeued ∧
        s2.pool.work_queue = s.pool.work_queue) := by
  cases l with
  | worker i =>
    simp only [Sys.step] at hs
    cases hi : s.workers[i]? with
    | none => simp [hi] at hs
    | some pc =>
      simp only [hi] at hs
      cases hw : worker_thread i s.pool pc with
      | none => simp [hw] at hs
      | some r =>
        obtain ⟨p, pc2, ev⟩ := r
        simp only [hw, Option.some.injEq] at hs
        obtain ⟨_, f2, _, f4, f5, f6⟩ := worker_thread_spec i s.pool p pc pc2 ev hw
        have hlt : i < s.workers.length := by
          by_contra hge
          rw [List.getElem?_eq_none (by omega)] at hi
          exact absurd hi (by simp)
        have hset : s2.workers[i]? = some pc2 := by
          rw [← hs, Sys.apply_workers]
          simp [List.getElem?_set, hlt]
        refine ⟨?_, ?_, ?_, ?_⟩
        · rw [← hs, Sys.apply_pool]
          exact f2.trans hsd
        · intro j hj
          rw [← hs, Sys.apply_workers] at hj
          by_cases e : i = j
          · subst e
            simp only [List.getElem?_set, if_true, hlt] at hj
            have := f4 (Option.some.inj hj)
            rw [hsd] at this
            exact absurd this (by simp)
          · rwa [List.getElem?_set_ne e] at hj
        · intro hne
          rw [← hs, Sys.apply_dequeued] at hne
          cases ev with
          | dequeued w =>
            obtain ⟨g1, g2, _⟩ := f6
            refine ⟨i, rfl, by rw [hi, g1], ?_⟩
            rw [hset]
            exact fun h => g2 (Option.some.inj h)
          | tau => exact absurd rfl hne
          | executed w => exact absurd rfl hne
          | signalDone => exact absurd rfl hne
        · intro j hj hpc
          cases hj
          rw [hi] at hpc
          have hpc2 := Option.some.inj hpc
          have hex := f5 hpc2 hsd
          refine ⟨by rw [hset, hex], ?_, ?_⟩
          · rw [← hs, Sys.apply_dequeued]
            cases ev with
            | dequeued w => exact absurd f6.1 (by rw [hpc2]; simp)
            | tau => rfl
            | executed w => rfl
            | signalDone => rfl
          · rw [← hs, Sys.apply_pool]
            cases ev with
            | dequeued w => exact absurd f6.1 (by rw [hpc2]; simp)
            | tau => exact f6.1
            | executed w => exact f6.1
            | signalDone => exact f6.1
  | wake i =>
    simp only [Sys.step] at hs
    split_ifs at hs with hb
    simp only [Option.some.injEq] at hs
    subst hs
    refine ⟨hsd, ?_, fun h => absurd rfl h, fun j hj => by cases hj⟩
    intro j hj
    rcases set_woken_getElem? _ _ _ _ hb hj with h | ⟨h, _⟩
    · exact h
    · exact absurd h (by simp)
  | wakeClient =>
    simp only [Sys.step] at hs
    split_ifs at hs with hb
    simp only [Option.some.injEq] at hs
    subst hs
    exact ⟨hsd, fun j hj => hj, fun h => absurd rfl h, fun j hj => by cases hj⟩
  | call_add_work f a =>
    simp only [Sys.step] at hs
    split_ifs at hs with hb
    simp only [Option.some.injEq] at hs
    subst hs
    exact ⟨hsd, fun j hj => hj, fun h => absurd rfl h, fun j hj => by cases hj⟩
  | call_wait =>
    simp only [Sys.step] at hs
    split_ifs at hs with hb
    simp only [Option.some.injEq] at hs
    subst hs
    exact ⟨hsd, fun j hj => hj, fun h => absurd rfl h, fun j hj => by cases hj⟩
  | call_destroy =>
    simp only [Sys.step] at hs
    split_ifs at hs with hb
    simp only [Option.some.injEq] at hs
    subst hs
    exact ⟨hsd, fun j hj => hj, fun h => absurd rfl h, fun j hj => by cases hj⟩
  | client t =>
    obtain ⟨c1, c2, _, c4⟩ := client_step_frame s s2 t hs
    refine ⟨c1 hsd, ?_, fun h => absurd c2 h, fun j hj => by cases hj⟩
    intro j hj
    rcases c4 j _ hj with h | ⟨h, _⟩
    · exact h
    · exact absurd h (by simp)

/-- Once every worker has returned, no step executes or dequeues anything. -/
theorem step_after_exit (s s2 : Sys) (l : Label) (hex : ∀ pc ∈ s.workers, pc = .exited)
    (hs : Sys.step s l = some s2) :
    s2.executed = s.executed ∧ s2.dequeued = s.dequeued ∧
    ∀ pc ∈ s2.workers, pc = .exited := by
  cases l with
  | worker i =>
    simp only [Sys.step] at hs
    cases hi : s.workers[i]? with
    | none => simp [hi] at hs
    | some pc =>
      have := hex pc (List.getElem?_mem hi)
      subst this
      simp [hi, worker_thread] at hs
  | wake i =>
    simp only [Sys.step] at hs
    split_ifs at hs with hb
    exact absurd (hex _ (List.getElem?_mem hb)) (by simp)
  | wakeClient =>
    simp only [Sys.step] at hs
    split_ifs at hs with hb
    simp only [Option.some.injEq] at hs
    subst hs
    exact ⟨rfl, rfl, hex⟩
  | call_add_work f a =>
    simp only [Sys.step] at hs
    split_ifs at hs with hb
    simp only [Option.some.injEq] at hs
    subst hs
    exact ⟨rfl, rfl, hex⟩
  | call_wait =>
    simp only [Sys.step] at hs
    split_ifs at hs with hb
    simp only [Option.some.injEq] at hs
    subst hs
    exact ⟨rfl, rfl, hex⟩
  | call_destroy =>
    simp only [Sys.step] at hs
    split_ifs at hs with hb
    simp only [Option.some.injEq] at hs
    subst hs
    exact ⟨rfl, rfl, hex⟩
  | client t =>
    obtain ⟨_, c2, c3, c4⟩ := client_step_frame s s2 t hs
    refine ⟨c3, c2, ?_⟩
    intro pc hpc
    obtain ⟨j, hj⟩ := List.mem_iff_getElem?.1 hpc
    rcases c4 j pc hj with h | ⟨_, h⟩
    · exact hex pc (List.getElem?_mem h)
    · exact absurd (hex _ (List.getElem?_mem h)) (by simp)

/-- C1, failing run: on the pool made by thread_pool_create(1) the client submits one
task; the worker dequeues it (pending_count 1 -> 0, line 46) and unlocks the mutex (line 49)
but has not yet incremented working_count (line 53). In that state pending_count = 0 and
working_count = 0, the loop condition of thread_pool_wait is false, and the pool is not
idle; thread_pool_wait called there returns BDIX_SUCCESS while the task has not run. -/
theorem thread_pool_wait_returns_before_task_runs :
    (thread_pool_create pthreadOk 1).pool = some pool1 ∧
    Sys.run (Sys.init pool1) dequeuedNotStarted = some raceState ∧
    raceState.pool.pending_count = 0 ∧ raceState.pool.working_count = 0 ∧
    thread_pool_wait_cond raceState.pool = false ∧ thread_pool_is_idle raceState.pool = true ∧
    ¬ raceState.idle ∧ raceState.executed = [] ∧
    Sys.run raceState waitCall =
      some { raceState with returns := [.add_work BDIX_SUCCESS, .wait BDIX_SUCCESS] } := by
  refine ⟨by decide, by decide, by decide, by decide, by decide, by decide, by decide,
    by decide, by decide⟩

/-- C8, counterexample: the worker passes its shutdown check (line 34) while the flag is
clear; thread_pool_destroy then sets the flag (line 227, outside the mutex) with the task
still queued; the worker goes on to dequeue and execute that task, and
thread_pool_destroy returns with the task executed and nothing left to release. -/
theorem shutdown_flag_set_then_queued_task_runs :
    Sys.run (Sys.init pool1) flagSetAfterCheck = some flagSetState ∧
    flagSetState.pool.shutdown = true ∧
    flagSetState.pool.work_queue = [{ function := 1, arg := 7 }] ∧
    flagSetState.executed = [] ∧
    (Sys.run flagSetState workerRuns).map (fun s => s.executed)
      = some [{ function := 1, arg := 7 }] ∧
    Sys.run flagSetState (workerRuns ++ destroyCompletes) = some destroyedState := by
  refine ⟨by decide, by decide, by decide, by decide, by decide, by decide⟩

/-- C8, amended: (1) every step taken while the shutdown flag is set keeps it set, moves
no worker to the dequeue point (lines 40-47), and removes a task from the queue only if
it is the step of a worker that was already at the dequeue point, having passed its
shutdown check before; that worker leaves the dequeue point, and a worker at its shutdown
check (line 34) exits without touching the queue. (2) In every state reachable from a
created pool, the executed tasks together with the unfinished ones are exactly the
dequeued ones, and when thread_pool_destroy has returned every worker has exited, every
dequeued task has been executed, and the drain loop released exactly the tasks left in
the queue. (3) Once every worker has exited no step executes or dequeues a task. -/
theorem shutdown_stops_dequeue_after_check :
    (∀ (s s2 : Sys) (l : Label), s.pool.shutdown = true → Sys.step s l = some s2 →
      s2.pool.shutdown = true ∧
      (∀ i : Nat, s2.workers[i]? = some .dequeue → s.workers[i]? = some .dequeue) ∧
      (s2.dequeued ≠ s.dequeued →
        ∃ i : Nat, l = .worker i ∧ s.workers[i]? = some .dequeue ∧
          s2.workers[i]? ≠ some .dequeue) ∧
      (∀ i : Nat, l = .worker i → s.workers[i]? = some .checkShutdown →
        s2.workers[i]? = some .exited ∧ s2.dequeued = s.dequeued ∧
          s2.pool.work_queue = s.pool.work_queue)) ∧
    (∀ (env : PthreadEnv) (n k : Nat) (p : ThreadPool) (tr : List Label) (s : Sys),
      thread_pool_create env n = { pool := some p, started := k } →
      Sys.run (Sys.init p) tr = some s →
      (s.executed ++ unfinishedItems s.workers).Perm s.dequeued ∧
      (s.client = .destroyed →
        (∀ pc ∈ s.workers, pc = .exited) ∧ s.executed.Perm s.dequeued ∧
          s.released = s.pool.work_queue)) ∧
    (∀ (s s2 : Sys) (l : Label), (∀ pc ∈ s.workers, pc = .exited) → Sys.step s l = some s2 →
      s2.executed = s.executed ∧ s2.dequeued = s.dequeued ∧
        ∀ pc ∈ s2.workers, pc = .exited) := by
  refine ⟨fun s s2 l hsd hs => step_after_shutdown s s2 l hsd hs, ?_,
    fun s s2 l hex hs => step_after_exit s s2 l hex hs⟩
  intro env n k p tr s hcr hrun
  have hinv : Inv s := (Inv.init env n k p hcr).run tr s hrun
  refine ⟨hinv.hist, fun hd => ?_⟩
  have hall : ∀ pc ∈ s.workers, pc = .exited := by
    intro pc hpc
    obtain ⟨j, hj⟩ := List.mem_iff_getElem?.1 hpc
    have hlt : j < s.workers.length := by
      by_contra hge
      rw [List.getElem?_eq_none (by omega)] at hj
      exact absurd hj (by simp)
    have := hinv.joined j (by rw [hd]; simp only [ClientPc.joined]; rw [← hinv.len]; exact hlt)
    rw [hj] at this
    exact Option.some.inj this
  refine ⟨hall, ?_, hinv.drained (Or.inr hd)⟩
  have := hinv.hist
  rwa [unfinishedItems_of_all_exited _ hall, List.append_nil] at this

/-- Witness of `shutdown_stops_dequeue_after_check`: the run in which the flag is set
after the worker's check, continued until thread_pool_destroy has returned. -/
theorem shutdown_stops_dequeue_after_check_witness :
    thread_pool_create pthreadOk 1 = { pool := some pool1, started := 1 } ∧
    Sys.run (Sys.init pool1) (flagSetAfterCheck ++ workerRuns ++ destroyCompletes)
      = some destroyedState ∧
    (destroyedState.executed ++ unfinishedItems destroyedState.workers).Perm
      destroyedState.dequeued ∧
    (destroyedState.client = .destroyed →
      (∀ pc ∈ destroyedState.workers, pc = .exited) ∧
        destroyedState.executed.Perm destroyedState.dequeued ∧
        destroyedState.released = destroyedState.pool.work_queue) :=
  ⟨by decide, by decide,
    shutdown_stops_dequeue_after_check.2.1 pthreadOk 1 1 pool1
      (flagSetAfterCheck ++ workerRuns ++ destroyCompletes) destroyedState
      (by decide) (by decide)⟩

/-- C9: on a pool whose shutdown flag is set, thread_pool_add_work with a non-NULL
function returns BDIX_ERROR, which is not BDIX_SUCCESS, and leaves the pool (queue and
pending_count included) unchanged; in the step relation the client's call ends at its
check with that return code and no other change. -/
theorem add_work_rejected_after_shutdown (p : ThreadPool) (function arg : Nat)
    (hsd : p.shutdown = true) (hf : function ≠ 0) :
    thread_pool_add_work (some p) function arg = (BDIX_ERROR, some p) ∧
    BDIX_ERROR ≠ BDIX_SUCCESS ∧
    (∀ (s : Sys) (t : Nat), s.pool = p → s.client = .addCheck function arg →
      client_step s t =
        some { s with client := .ready, returns := s.returns ++ [.add_work BDIX_ERROR] }) := by
  refine ⟨?_, by decide, ?_⟩
  · simp [thread_pool_add_work, add_work_check, hsd, hf]
  · intro s t hp hc
    simp [client_step, hc, add_work_check, hp, hsd, hf]

/-- Witness of `add_work_rejected_after_shutdown`: the pool of `destroyedState`
(shutdown set) and the task (function 1, argument 7). -/
theorem add_work_rejected_after_shutdown_witness :
    destroyedState.pool.shutdown = true ∧ (1 : Nat) ≠ 0 ∧
    thread_pool_add_work (some destroyedState.pool) 1 7 = (BDIX_ERROR, some destroyedState.pool) ∧
    BDIX_ERROR ≠ BDIX_SUCCESS ∧
    (∀ (s : Sys) (t : Nat), s.pool = destroyedState.pool → s.client = .addCheck 1 7 →
      client_step s t =
        some { s with client := .ready, returns := s.returns ++ [.add_work BDIX_ERROR] }) :=
  ⟨by decide, by decide,
    add_work_rejected_after_shutdown destroyedState.pool 1 7 (by decide) (by decide)⟩

/-- C10: when the mutex, both condition variables and every pthread_create succeed,
thread_pool_create(n) returns NULL if and only if n = 0 or n > MAX_THREADS = 64, and then
no worker was started; for 1 <= n <= 64 it returns a pool with thread_count = n, an empty
queue, pending_count = 0, working_count = 0, shutdown = false, and n workers started. -/
theorem thread_pool_create_bounds (env : PthreadEnv) (n : Nat)
    (h1 : env.mutex_init_ok = true) (h2 : env.work_cond_init_ok = true)
    (h3 : env.done_cond_init_ok = true) (h4 : ∀ i, i < n → env.create_ok i = true) :
    ((thread_pool_create env n).pool = none ↔ n = 0 ∨ n > 64) ∧
    ((thread_pool_create env n).pool = none → (thread_pool_create env n).started = 0) ∧
    (1 ≤ n → n ≤ 64 →
      thread_pool_create env n =
        { pool := some { thread_count := n, work_queue := [], queue_mutex := none,
                         working_count := 0, pending_count := 0, shutdown := false }
          started := n }) := by
  have hfind : (List.range n).find? (fun i => env.create_ok i = false) = none := by
    rw [List.find?_eq_none]
    intro i hi
    simp [h4 i (List.mem_range.1 hi)]
  by_cases hn : n = 0 ∨ n > MAX_THREADS
  · have e : thread_pool_create env n = { pool := none, started := 0 } := by
      simp [thread_pool_create, hn]
    rw [e]
    refine ⟨⟨fun _ => hn, fun _ => rfl⟩, fun _ => rfl, fun a b => ?_⟩
    simp only [MAX_THREADS] at hn
    omega
  · have e : thread_pool_create env n =
        { pool := some { thread_count := n, work_queue := [], queue_mutex := none,
                         working_count := 0, pending_count := 0, shutdown := false }
          started := n } := by
      simp only [thread_pool_create, hn, if_false, h1, h2, h3, hfind]
      simp
    rw [e]
    refine ⟨⟨fun h => by simp at h, fun h => absurd h hn⟩, fun h => by simp at h, fun _ _ => rfl⟩

/-- Witness of `thread_pool_create_bounds`: 64 threads, every pthread call succeeding. -/
theorem thread_pool_create_bounds_witness :
    pthreadOk.mutex_init_ok = true ∧ pthreadOk.work_cond_init_ok = true ∧
    pthreadOk.done_cond_init_ok = true ∧ (∀ i, i < 64 → pthreadOk.create_ok i = true) ∧
    ((thread_pool_create pthreadOk 64).pool = none ↔ (64 : Nat) = 0 ∨ 64 > 64) ∧
    ((thread_pool_create pthreadOk 64).pool = none →
      (thread_pool_create pthreadOk 64).started = 0) ∧
    (1 ≤ 64 → 64 ≤ 64 →
      thread_pool_create pthreadOk 64 =
        { pool := some { thread_count := 64, work_queue := [], queue_mutex := none,
                         working_count := 0, pending_count := 0, shutdown := false }
          started := 64 }) :=
  ⟨rfl, rfl, rfl, fun _ _ => rfl, thread_pool_create_bounds pthreadOk 64 rfl rfl rfl (fun _ _ => rfl)⟩

/-! ## Submission order of the queue -/

theorem Sys.apply_item (s : Sys) (ev : Event) :
    (Sys.apply s ev).client.item = s.client.item := by
  cases ev <;> simp only [Sys.apply]
  split_ifs with h
  · simp [h, ClientPc.item]
  · rfl

/-- Every step keeps "dequeued, then queued, then about to be enqueued" equal to the
sequence of accepted work items. -/
theorem step_accepts (s s2 : Sys) (l : Label) (hs : Sys.step s l = some s2) :
    s2.dequeued ++ s2.pool.work_queue ++ s2.client.item.toList =
      s.dequeued ++ s.pool.work_queue ++ s.client.item.toList ++ s.accepts l := by
  cases l with
  | worker i =>
    simp only [Sys.step] at hs
    cases hi : s.workers[i]? with
    | none => simp [hi] at hs
    | some pc =>
      simp only [hi] at hs
      cases hw : worker_thread i s.pool pc with
      | none => simp [hw] at hs
      | some r =>
        obtain ⟨p, pc2, ev⟩ := r
        simp only [hw, Option.some.injEq] at hs
        obtain ⟨_, _, _, _, _, f6⟩ := worker_thread_spec i s.pool p pc pc2 ev hw
        rw [← hs, Sys.apply_item, Sys.apply_pool, Sys.apply_dequeued]
        cases ev with
        | dequeued w =>
          obtain ⟨_, _, q, _⟩ := f6
          simp [Sys.accepts, q]
        | tau => simp [Sys.accepts, f6.1]
        | executed w => simp [Sys.accepts, f6.1]
        | signalDone => simp [Sys.accepts, f6.1]
  | wake i =>
    simp only [Sys.step] at hs
    split_ifs at hs
    simp only [Option.some.injEq] at hs
    subst hs
    simp [Sys.accepts]
  | wakeClient =>
    simp only [Sys.step] at hs
    split_ifs at hs with hb
    simp only [Option.some.injEq] at hs
    subst hs
    simp [Sys.accepts, hb, ClientPc.item]
  | call_add_work f a =>
    simp only [Sys.step] at hs
    split_ifs at hs with hb
    simp only [Option.some.injEq] at hs
    subst hs
    simp [Sys.accepts, hb, ClientPc.item]
  | call_wait =>
    simp only [Sys.step] at hs
    split_ifs at hs with hb
    simp only [Option.some.injEq] at hs
    subst hs
    simp [Sys.accepts, hb, ClientPc.item]
  | call_destroy =>
    simp only [Sys.step] at hs
    split_ifs at hs with hb
    simp only [Option.some.injEq] at hs
    subst hs
    simp [Sys.accepts, hb, ClientPc.item]
  | client t =>
    simp only [Sys.step] at hs
    cases hcl : s.client <;> simp only [client_step, hcl] at hs
    all_goals (try split at hs)
    all_goals (try split_ifs at hs)
    all_goals (try simp only [Option.some.injEq] at hs)
    all_goals (try subst hs)
    all_goals (try exact absurd hs (by simp))
    all_goals simp_all [Sys.accepts, ClientPc.item, enqueue]

/-- Along every schedule the accepted work items are appended behind the queue. -/
theorem run_accepted (tr : List Label) :
    ∀ s s2 : Sys, Sys.run s tr = some s2 →
      s2.dequeued ++ s2.pool.work_queue ++ s2.client.item.toList =
        s.dequeued ++ s.pool.work_queue ++ s.client.item.toList ++ Sys.accepted s tr := by
  induction tr with
  | nil =>
    intro s s2 hr
    simp only [Sys.run, Option.some.injEq] at hr
    subst hr
    simp [Sys.accepted]
  | cons l ls ih =>
    intro s s2 hr
    simp only [Sys.run] at hr
    cases hs : Sys.step s l with
    | none => simp [hs] at hr
    | some s1 =>
      simp only [hs] at hr
      rw [ih s1 s2 hr, step_accepts s s1 l hs]
      simp [Sys.accepted, hs]

/-- C11: on a pool that is not shut down (and whose pending_count is not SIZE_MAX),
thread_pool_add_work with a non-NULL function returns BDIX_SUCCESS, turns the queue q
into q followed by the new task and adds exactly 1 to pending_count; a worker's dequeue
step on a non-empty queue takes the head and leaves the rest; hence in every state
reachable from a created pool the dequeued tasks, followed by the queued ones and the one
about to be enqueued, are the accepted submissions in call order: tasks are dequeued in
exactly the order in which they were submitted. -/
theorem thread_pool_queue_fifo :
    (∀ (p : ThreadPool) (function arg : Nat), p.shutdown = false → function ≠ 0 →
      p.pending_count + 1 < 2 ^ 64 →
      thread_pool_add_work (some p) function arg =
        (BDIX_SUCCESS,
          some { p with work_queue := p.work_queue ++ [{ function := function, arg := arg }]
                        pending_count := p.pending_count + 1 })) ∧
    (∀ (i : Nat) (p : ThreadPool) (w : WorkItem) (rest : List WorkItem),
      p.work_queue = w :: rest →
      ∃ p2, worker_thread i p .dequeue = some (p2, .unlock (some w), .dequeued w) ∧
        p2.work_queue = rest) ∧
    (∀ (env : PthreadEnv) (n k : Nat) (p : ThreadPool) (tr : List Label) (s : Sys),
      thread_pool_create env n = { pool := some p, started := k } →
      Sys.run (Sys.init p) tr = some s →
      s.dequeued ++ s.pool.work_queue ++ s.client.item.toList = Sys.accepted (Sys.init p) tr ∧
        s.dequeued <+: Sys.accepted (Sys.init p) tr) := by
  refine ⟨?_, ?_, ?_⟩
  · intro p f a hsd hf hlt
    have hm : (p.pending_count + 1) % SIZE_MOD = p.pending_count + 1 :=
      Nat.mod_eq_of_lt hlt
    simp [thread_pool_add_work, add_work_check, hsd, hf, enqueue, hm]
  · intro i p w rest hq
    simp [worker_thread, hq]
  · intro env n k p tr s hcr hrun
    obtain ⟨_, _, _, rfl⟩ := thread_pool_create_some env n k p hcr
    have h := run_accepted tr _ s hrun
    have e0 : ∀ q : ThreadPool, q.work_queue = [] →
        (Sys.init q).dequeued ++ (Sys.init q).pool.work_queue
          ++ (Sys.init q).client.item.toList = [] := by
      intro q hq
      simp [Sys.init, ClientPc.item, hq]
    rw [e0 _ rfl, List.nil_append] at h
    refine ⟨h, ?_⟩
    rw [← h, List.append_assoc]
    exact List.prefix_append _ _

/-- Witness of `thread_pool_queue_fifo`: a submission to the fresh pool, and the run in
which three tasks are submitted and the first is dequeued. -/
theorem thread_pool_queue_fifo_witness :
    pool1.shutdown = false ∧ (1 : Nat) ≠ 0 ∧ pool1.pending_count + 1 < 2 ^ 64 ∧
    thread_pool_add_work (some pool1) 1 10 =
      (BDIX_SUCCESS,
        some { pool1 with work_queue := pool1.work_queue ++ [{ function := 1, arg := 10 }]
                          pending_count := pool1.pending_count + 1 }) ∧
    thread_pool_create pthreadOk 1 = { pool := some pool1, started := 1 } ∧
    Sys.run (Sys.init pool1) threeSubmitted = some oneDequeuedState ∧
    oneDequeuedState.dequeued ++ oneDequeuedState.pool.work_queue
        ++ oneDequeuedState.client.item.toList = Sys.accepted (Sys.init pool1) threeSubmitted ∧
    oneDequeuedState.dequeued <+: Sys.accepted (Sys.init pool1) threeSubmitted :=
  ⟨by decide, by decide, by decide,
    thread_pool_queue_fifo.1 pool1 1 10 (by decide) (by decide) (by decide),
    by decide, by decide,
    thread_pool_queue_fifo.2.2 pthreadOk 1 1 pool1 threeSubmitted oneDequeuedState
      (by decide) (by decide)⟩

/-! ## Calling `thread_pool_destroy` twice -/

/-- C19, counterexample: the first thread_pool_destroy on the pool made by
thread_pool_create(1) joins its worker and frees the pool, leaving the caller's handle
dangling; the second call on that handle passes the NULL check and writes to freed memory
at line 227: it is a fault, not a call without effect. -/
theorem thread_pool_destroy_twice_faults :
    thread_pool_destroy (.live pool1) = .ok (.freed, 1) ∧
    thread_pool_destroy .freed = .error .use_after_free ∧
    thread_pool_destroy .freed ≠ .ok (.freed, 0) :=
  ⟨rfl, rfl, fun h => by cases h⟩

/-- C19, amended: thread_pool_destroy is safe to call once. On a NULL handle it returns
at once with no join; on a live pool it joins each of the thread_count workers once and
frees the pool, after which the caller's handle dangles; a call on a dangling handle is a
use of freed memory. -/
theorem thread_pool_destroy_once (p : ThreadPool) :
    thread_pool_destroy .null = .ok (.null, 0) ∧
    thread_pool_destroy (.live p) = .ok (.freed, p.thread_count) ∧
    thread_pool_destroy .freed = .error .use_after_free :=
  ⟨rfl, rfl, rfl⟩

/-! ## The failure path of `thread_pool_create` -/

/-- C20, failing run: thread_pool_create(2) where pthread_create succeeds for worker 0
and fails for worker 1 (the function returns NULL with one worker started). Worker 0 has
found the wait condition true (line 29) but not yet called pthread_cond_wait (line 30)
when the creator stores the flag and broadcasts work_cond without the mutex (lines
127-128); the broadcast finds no waiter, worker 0 then blocks, and in the state reached
the flag is set, the broadcast is issued, worker 0 is blocked on work_cond, the join of
worker 0 (line 132) cannot complete and no worker can move. -/
theorem thread_pool_create_lost_wakeup :
    thread_pool_create secondCreateFails 2 = { pool := none, started := 1 } ∧
    CreateSys.run secondCreateFails (CreateSys.init 2) lostWakeup = some lostWakeupState ∧
    lostWakeupState.pool.shutdown = true ∧ lostWakeupState.creator = .join 1 0 ∧
    lostWakeupState.workers = [.blocked] ∧
    CreateSys.step secondCreateFails lostWakeupState .creator = none ∧
    (∀ i : Nat, CreateSys.step secondCreateFails lostWakeupState (.worker i) = none) := by
  refine ⟨by decide, by decide, rfl, rfl, rfl, by decide, ?_⟩
  intro i
  cases i with
  | zero => decide
  | succ j => simp [CreateSys.step, lostWakeupState]

/-! ## Checks: classification, check_worker, checker_check_category -/

theorem submit_work_ok (items : List CheckWorkItem) :
    ∀ (pool : ThreadPool) (done : List CheckWorkItem), pool.shutdown = false →
      (submit_work pool items done).1 = BDIX_SUCCESS ∧
      (submit_work pool items done).2.2 = done ++ items := by
  induction items with
  | nil => intro pool done _; simp [submit_work]
  | cons w ws ih =>
    intro pool done hsd
    have e : thread_pool_add_work (some pool) CHECK_WORKER w.index =
        (BDIX_SUCCESS, some (enqueue pool { function := CHECK_WORKER, arg := w.index })) := by
      simp [thread_pool_add_work, add_work_check, hsd, CHECK_WORKER]
    have h := ih (enqueue pool { function := CHECK_WORKER, arg := w.index }) (done ++ [w])
      (by simpa [enqueue] using hsd)
    simp only [submit_work, e, if_true]
    simpa using h

/-- A call of `thread_pool_create` that blocks returns no pool. -/
theorem thread_pool_create_blocks (env : PthreadEnv) (n : Nat)
    (h : (thread_pool_create env n).blocks = true) : (thread_pool_create env n).pool = none := by
  unfold thread_pool_create at h ⊢
  split_ifs at h ⊢ with h1 h2 h3 h4
  all_goals first
    | rfl
    | (cases hf : (List.range n).find? (fun i => env.create_ok i = false) with
       | some i => rfl
       | none =>
         rw [hf] at h
         simp at h)

theorem thread_pool_create_shutdown (env : PthreadEnv) (n : Nat) (p : ThreadPool)
    (h : (thread_pool_create env n).pool = some p) :
    p.shutdown = false ∧ p.thread_count = n ∧ (thread_pool_create env n).started = n := by
  have hb : (thread_pool_create env n).blocks = false := by
    cases hc : (thread_pool_create env n).blocks with
    | false => rfl
    | true =>
      rw [thread_pool_create_blocks env n hc] at h
      cases h
  have e : thread_pool_create env n =
      { pool := some p, started := (thread_pool_create env n).started } := by
    cases hc : thread_pool_create env n with
    | mk pool started blocks =>
      rw [hc] at h hb
      simp only at h hb
      rw [h, hb]
  obtain ⟨_, _, h3, rfl⟩ := thread_pool_create_some env n _ p e
  exact ⟨rfl, rfl, h3⟩

/-- The return code of `checker_check_category` on non-NULL arguments. -/
theorem check_category_ret (env : CheckEnv) (cat : ServerCategory) (cfg : CheckerConfig)
    (tc : Int) (stats : Option CheckerStats) :
    (checker_check_category env (some cat) (some cfg) tc stats).ret =
      if cat.count = 0 then some BDIX_SUCCESS
      else if (thread_pool_create (env.pthread cat.type) (size_t_of_int tc)).pool = none then
        if (thread_pool_create (env.pthread cat.type) (size_t_of_int tc)).blocks = true then
          none
        else some BDIX_ERROR_THREAD
      else some BDIX_SUCCESS := by
  by_cases h0 : cat.count = 0
  · simp [checker_check_category, h0]
  · cases hp : (thread_pool_create (env.pthread cat.type) (size_t_of_int tc)).pool with
    | none => simp [checker_check_category, h0, hp]
    | some pool =>
      have hsd := (thread_pool_create_shutdown _ _ _ hp).1
      simp only [checker_check_category, h0, if_false, hp]
      simpa using (submit_work_ok _ pool [] hsd).1

/-- What `checker_check_category` does when `thread_pool_create` returns NULL. -/
theorem check_category_no_pool (env : CheckEnv) (cat : ServerCategory) (cfg : CheckerConfig)
    (tc : Int) (stats : Option CheckerStats) (h0 : cat.count > 0)
    (hp : pool_fails env tc cat) :
    checker_check_category env (some cat) (some cfg) tc stats =
      { ret := some BDIX_ERROR_THREAD
        created := some (thread_pool_create (env.pthread cat.type) (size_t_of_int tc))
        submitted := [], category := some cat, stats := stats, reports := [] } := by
  have h1 : cat.count ≠ 0 := by omega
  simp [checker_check_category, h1, hp.1, hp.2]

/-- What `checker_check_category` does when `thread_pool_create` does not return. -/
theorem check_category_blocked (env : CheckEnv) (cat : ServerCategory) (cfg : CheckerConfig)
    (tc : Int) (stats : Option CheckerStats) (h0 : cat.count > 0)
    (hp : pool_blocks env tc cat) :
    checker_check_category env (some cat) (some cfg) tc stats =
      { ret := none
        created := some (thread_pool_create (env.pthread cat.type) (size_t_of_int tc))
        submitted := [], category := some cat, stats := stats, reports := [] } := by
  have h1 : cat.count ≠ 0 := by omega
  have h2 := thread_pool_create_blocks _ _ hp
  have h3 : (thread_pool_create (env.pthread cat.type) (size_t_of_int tc)).blocks = true := hp
  simp [checker_check_category, h1, h2, h3]

/-- C12: for every category with count = 0, every configuration, every thread_count and
every statistics value (or NULL statistics pointer), checker_check_category returns
BDIX_SUCCESS, does not call thread_pool_create, submits and reports nothing and leaves
the category and the statistics unchanged. -/
theorem check_category_empty (env : CheckEnv) (cat : ServerCategory) (cfg : CheckerConfig)
    (tc : Int) (stats : Option CheckerStats) (h0 : cat.count = 0) :
    checker_check_category env (some cat) (some cfg) tc stats =
      { ret := some BDIX_SUCCESS, created := none, submitted := [], category := some cat,
        stats := stats, reports := [] } := by
  simp [checker_check_category, h0]

/-- Witness of `check_category_empty`: the empty category with thread_count 0. -/
theorem check_category_empty_witness :
    emptyCategory.count = 0 ∧
    checker_check_category envTvFails (some emptyCategory) (some defaultConfig) 0
        (some checker_stats_init) =
      { ret := some BDIX_SUCCESS, created := none, submitted := [],
        category := some emptyCategory,
        stats := some checker_stats_init, reports := [] } :=
  ⟨rfl, check_category_empty envTvFails emptyCategory defaultConfig 0
    (some checker_stats_init) rfl⟩

/-- C14, failing input: a server as server_category_add leaves it (status UNKNOWN) and a
probe for which curl_easy_init returns NULL. checker_check_server returns BDIX_ERROR at
line 69 without calling server_update_status; check_worker ignores that return code and
calls checker_stats_update: the status is still UNKNOWN, total_checked is 1 and no category
counter moved. -/
theorem check_worker_leaves_unknown :
    checker_check_server probeNoHandle (some (freshServer "http://10.0.0.1"))
      (some defaultConfig) = (BDIX_ERROR, some (freshServer "http://10.0.0.1")) ∧
    (check_worker probeNoHandle
      (some (make_work oneServerCategory defaultConfig (some checker_stats_init) 0))
      { servers := oneServerCategory.servers, stats := some checker_stats_init,
        reports := [] }).servers[0]? = some (freshServer "http://10.0.0.1") ∧
    (check_worker probeNoHandle
      (some (make_work oneServerCategory defaultConfig (some checker_stats_init) 0))
      { servers := oneServerCategory.servers, stats := some checker_stats_init,
        reports := [] }).stats =
      some { checker_stats_init with total_checked := 1 } := by
  refine ⟨by decide, by decide, by decide⟩

/-- C15: the status computed by lines 96-109 of checker_check_server is ONLINE exactly
when the result is CURLE_OK and 200 <= code < 400, OFFLINE exactly when the result is
CURLE_OK and the code is outside that range, TIMEOUT exactly when the result is
CURLE_OPERATION_TIMEDOUT, ERROR exactly for every other result, and never UNKNOWN; and it
is the status the server has after a call of checker_check_server that got its handle. -/
theorem classify_status_total (res : Nat) (code : Int) :
    (classify_status res code = .BDIX_STATUS_ONLINE ↔
      res = CURLE_OK ∧ 200 ≤ code ∧ code < 400) ∧
    (classify_status res code = .BDIX_STATUS_OFFLINE ↔
      res = CURLE_OK ∧ ¬ (200 ≤ code ∧ code < 400)) ∧
    (classify_status res code = .BDIX_STATUS_TIMEOUT ↔ res = CURLE_OPERATION_TIMEDOUT) ∧
    (classify_status res code = .BDIX_STATUS_ERROR ↔
      res ≠ CURLE_OK ∧ res ≠ CURLE_OPERATION_TIMEDOUT) ∧
    classify_status res code ≠ .BDIX_STATUS_UNKNOWN ∧
    (∀ (pr : Probe) (sv : Server) (cfg : CheckerConfig),
      pr.handle = true → pr.res = res → pr.response_code = code →
      ∃ sv2, checker_check_server pr (some sv) (some cfg) = (BDIX_SUCCESS, some sv2) ∧
        sv2.status = classify_status res code) := by
  have hne : CURLE_OK ≠ CURLE_OPERATION_TIMEDOUT := by decide
  refine ⟨?_, ?_, ?_, ?_, ?_, ?_⟩
  · unfold classify_status
    split_ifs with h1 h2 h3 <;> simp_all
  · unfold classify_status
    split_ifs with h1 h2 h3 <;> simp_all
  · unfold classify_status
    split_ifs with h1 h2 h3 <;> simp_all
  · unfold classify_status
    split_ifs with h1 h2 h3 <;> simp_all
  · unfold classify_status
    split_ifs <;> simp
  · intro pr sv cfg hh hr hc
    subst hr hc
    refine ⟨{ sv with status := classify_status pr.res pr.response_code,
                      latency_ms := Double.sub pr.end_time pr.start_time,
                      response_code := pr.response_code, last_checked := pr.now }, ?_, rfl⟩
    simp [checker_check_server, hh, server_update_status]

/-- Witness of `classify_status_total`: the probe that answers 200. -/
theorem classify_status_total_witness :
    probeOnline.handle = true ∧ probeOnline.res = 0 ∧ probeOnline.response_code = 200 ∧
    ∃ sv2, checker_check_server probeOnline (some (freshServer "http://10.0.0.1"))
        (some defaultConfig) = (BDIX_SUCCESS, some sv2) ∧
      sv2.status = classify_status 0 200 :=
  ⟨rfl, rfl, rfl,
    (classify_status_total 0 200).2.2.2.2.2 probeOnline (freshServer "http://10.0.0.1")
      defaultConfig rfl rfl rfl⟩

theorem size_t_of_int_range (tc : Int) (hlo : -2 ^ 31 ≤ tc) (hhi : tc < 2 ^ 31) :
    (1 ≤ tc → tc ≤ 64 → size_t_of_int tc = tc.toNat ∧ 1 ≤ tc.toNat ∧ tc.toNat ≤ 64) ∧
    (tc < 1 ∨ tc > 64 → size_t_of_int tc = 0 ∨ size_t_of_int tc > 64) := by
  unfold size_t_of_int
  constructor
  · intro h1 h2
    have : tc % 2 ^ 64 = tc := Int.emod_eq_of_lt (by omega) (by omega)
    rw [this]
    omega
  · intro h
    by_cases hz : tc = 0
    · subst hz
      left
      rfl
    · right
      by_cases hneg : tc < 0
      · have e := Int.add_mul_emod_self (a := tc) (b := 1) (c := 2 ^ 64)
        rw [one_mul, Int.emod_eq_of_lt (by omega) (by omega)] at e
        rw [← e]
        omega
      · have : tc % 2 ^ 64 = tc := Int.emod_eq_of_lt (by omega) (by omega)
        rw [this]
        omega

theorem thread_pool_create_invalid (env : PthreadEnv) (n : Nat) (h : n = 0 ∨ n > 64) :
    thread_pool_create env n = { pool := none, started := 0 } := by
  have h2 : n = 0 ∨ n > MAX_THREADS := h
  simp [thread_pool_create, h2]

theorem thread_pool_create_valid (env : PthreadEnv) (n : Nat)
    (h1 : env.mutex_init_ok = true) (h2 : env.work_cond_init_ok = true)
    (h3 : env.done_cond_init_ok = true) (h4 : ∀ i, i < n → env.create_ok i = true)
    (hlo : 1 ≤ n) (hhi : n ≤ 64) :
    thread_pool_create env n =
      { pool := some { thread_count := n, work_queue := [], queue_mutex := none,
                       working_count := 0, pending_count := 0, shutdown := false }
        started := n } := by
  have hfind : (List.range n).find? (fun i => env.create_ok i = false) = none := by
    rw [List.find?_eq_none]
    intro i hi
    simp [h4 i (List.mem_range.1 hi)]
  have hn : ¬ (n = 0 ∨ n > MAX_THREADS) := by
    simp only [MAX_THREADS]
    omega
  simp only [thread_pool_create, hn, if_false, h1, h2, h3, hfind]
  simp

/-- C13, counterexample: with one server in the category and every pthread call
succeeding, thread_count 0 is passed on as it is, thread_pool_create(0) returns NULL and
checker_check_category returns BDIX_ERROR_THREAD with nothing checked (a clamp would have
given 1 worker); thread_count -1 becomes SIZE_MAX and 100 stays 100, both above
MAX_THREADS, with the same result. -/
theorem check_category_does_not_clamp :
    checker_check_category envOk (some oneServerCategory) (some defaultConfig) 0
        (some checker_stats_init) =
      { ret := some BDIX_ERROR_THREAD, created := some { pool := none, started := 0 },
        submitted := [], category := some oneServerCategory,
        stats := some checker_stats_init, reports := [] } ∧
    size_t_of_int (-1) = 2 ^ 64 - 1 ∧
    (checker_check_category envOk (some oneServerCategory) (some defaultConfig) (-1)
        (some checker_stats_init)).ret = some BDIX_ERROR_THREAD ∧
    (checker_check_category envOk (some oneServerCategory) (some defaultConfig) 100
        (some checker_stats_init)).ret = some BDIX_ERROR_THREAD := by
  refine ⟨by decide, by decide, by decide, by decide⟩

/-- C13, amended: for every int thread_count and every category with count > 0,
checker_check_category passes thread_count unchanged (converted to size_t) to
thread_pool_create; when thread_count < 1 or thread_count > 64 the pool is not created and
the call returns BDIX_ERROR_THREAD with nothing submitted, checked or reported; when
1 <= thread_count <= 64 and the pthread calls succeed the pool is created with exactly
thread_count workers and the call returns BDIX_SUCCESS. -/
theorem check_category_thread_count (env : CheckEnv) (cat : ServerCategory)
    (cfg : CheckerConfig) (tc : Int) (stats : Option CheckerStats) (h0 : cat.count > 0)
    (hlo : -2 ^ 31 ≤ tc) (hhi : tc < 2 ^ 31) :
    (checker_check_category env (some cat) (some cfg) tc stats).created =
      some (thread_pool_create (env.pthread cat.type) (size_t_of_int tc)) ∧
    (tc < 1 ∨ tc > 64 →
      checker_check_category env (some cat) (some cfg) tc stats =
        { ret := some BDIX_ERROR_THREAD, created := some { pool := none, started := 0 },
          submitted := [], category := some cat, stats := stats, reports := [] }) ∧
    (1 ≤ tc → tc ≤ 64 →
      (env.pthread cat.type).mutex_init_ok = true →
      (env.pthread cat.type).work_cond_init_ok = true →
      (env.pthread cat.type).done_cond_init_ok = true →
      (∀ i, (env.pthread cat.type).create_ok i = true) →
      (checker_check_category env (some cat) (some cfg) tc stats).ret = some BDIX_SUCCESS ∧
      ∃ p, (checker_check_category env (some cat) (some cfg) tc stats).created =
          some { pool := some p, started := tc.toNat } ∧ p.thread_count = tc.toNat) := by
  have h1 : cat.count ≠ 0 := by omega
  obtain ⟨r1, r2⟩ := size_t_of_int_range tc hlo hhi
  have hcr : (checker_check_category env (some cat) (some cfg) tc stats).created =
      some (thread_pool_create (env.pthread cat.type) (size_t_of_int tc)) := by
    simp only [checker_check_category, h1, if_false]
    split <;> rfl
  refine ⟨hcr, ?_, ?_⟩
  · intro h
    have e := thread_pool_create_invalid (env.pthread cat.type) _ (r2 h)
    rw [check_category_no_pool env cat cfg tc stats h0 ⟨by rw [e], by rw [e]⟩, e]
  · intro a b m1 m2 m3 m4
    obtain ⟨e1, e2, e3⟩ := r1 a b
    have hc := thread_pool_create_valid (env.pthread cat.type) tc.toNat m1 m2 m3
      (fun i _ => m4 i) e2 e3
    rw [← e1] at hc
    constructor
    · rw [check_category_ret, if_neg h1, hc]
      simp
    · rw [hcr, hc, e1]
      exact ⟨_, rfl, rfl⟩

/-- Witness of `check_category_thread_count`: one server, 15 threads. -/
theorem check_category_thread_count_witness :
    oneServerCategory.count > 0 ∧ (-2 ^ 31 : Int) ≤ 15 ∧ (15 : Int) < 2 ^ 31 ∧
    (checker_check_category envOk (some oneServerCategory) (some defaultConfig) 15
        (some checker_stats_init)).created =
      some (thread_pool_create (envOk.pthread oneServerCategory.type) (size_t_of_int 15)) ∧
    (checker_check_category envOk (some oneServerCategory) (some defaultConfig) 15
        (some checker_stats_init)).ret = some BDIX_SUCCESS ∧
    ∃ p, (checker_check_category envOk (some oneServerCategory) (some defaultConfig) 15
        (some checker_stats_init)).created =
        some { pool := some p, started := (15 : Int).toNat } ∧
      p.thread_count = (15 : Int).toNat :=
  ⟨by decide, by decide, by decide,
    (check_category_thread_count envOk oneServerCategory defaultConfig 15
      (some checker_stats_init) (by decide) (by decide) (by decide)).1,
    (check_category_thread_count envOk oneServerCategory defaultConfig 15
      (some checker_stats_init) (by decide) (by decide) (by decide)).2.2
      (by decide) (by decide) rfl rfl rfl (fun _ => rfl)⟩

theorem check_selected_abort (env : CheckEnv) (cfg : CheckerConfig) (tc : Int) (sel : Bool)
    (cat : ServerCategory) (stats : Option CheckerStats) (h : aborts env tc sel cat) :
    check_selected env cfg tc sel cat stats =
      some { ret := some BDIX_ERROR_THREAD
             created := some (thread_pool_create (env.pthread cat.type) (size_t_of_int tc))
             submitted := [], category := some cat, stats := stats, reports := [] } := by
  obtain ⟨h1, h2, h3⟩ := h
  simp only [check_selected, h1, h2, and_self, if_true]
  rw [check_category_no_pool env cat cfg tc stats h2 h3]

theorem check_selected_hang (env : CheckEnv) (cfg : CheckerConfig) (tc : Int) (sel : Bool)
    (cat : ServerCategory) (stats : Option CheckerStats) (h : hangs env tc sel cat) :
    check_selected env cfg tc sel cat stats =
      some { ret := none
             created := some (thread_pool_create (env.pthread cat.type) (size_t_of_int tc))
             submitted := [], category := some cat, stats := stats, reports := [] } := by
  obtain ⟨h1, h2, h3⟩ := h
  simp only [check_selected, h1, h2, and_self, if_true]
  rw [check_category_blocked env cat cfg tc stats h2 h3]

theorem check_selected_ok (env : CheckEnv) (cfg : CheckerConfig) (tc : Int) (sel : Bool)
    (cat : ServerCategory) (stats : Option CheckerStats) (h : ¬ aborts env tc sel cat)
    (hb : ¬ hangs env tc sel cat) :
    block_ret (check_selected env cfg tc sel cat stats) = some BDIX_SUCCESS := by
  unfold check_selected
  split_ifs with hs
  · simp only [block_ret]
    rw [check_category_ret]
    have h1 : cat.count ≠ 0 := by omega
    have h3 : ¬ (thread_pool_create (env.pthread cat.type) (size_t_of_int tc)).blocks = true :=
      fun hp => hb ⟨hs.1, hs.2, hp⟩
    have h2 : ¬ (thread_pool_create (env.pthread cat.type) (size_t_of_int tc)).pool = none :=
      fun hp => h ⟨hs.1, hs.2, hp, by simpa using h3⟩
    simp [h1, h2]
  · rfl

theorem multiple_total_ne_zero (d : ServerData) (f t o : Bool)
    (hsum : d.ftp.count + d.tv.count + d.others.count < 2 ^ 64)
    (h : (f = true ∧ d.ftp.count > 0) ∨ (t = true ∧ d.tv.count > 0) ∨
      (o = true ∧ d.others.count > 0)) :
    ¬ ((if o = true then
          ((if t = true then ((if f = true then d.ftp.count % SIZE_MOD else 0) + d.tv.count)
              % SIZE_MOD
            else (if f = true then d.ftp.count % SIZE_MOD else 0)) + d.others.count)
            % SIZE_MOD
        else
          (if t = true then ((if f = true then d.ftp.count % SIZE_MOD else 0) + d.tv.count)
              % SIZE_MOD
            else (if f = true then d.ftp.count % SIZE_MOD else 0))) = 0) := by
  have hm : SIZE_MOD = 2 ^ 64 := rfl
  rw [hm]
  cases f <;> cases t <;> cases o <;> simp at h ⊢ <;> omega

/-- C16: when thread_pool_create returns NULL for a non-empty category,
checker_check_category returns BDIX_ERROR_THREAD, submits and reports nothing and leaves
the category and the statistics as they were. In checker_check_multiple (block sizes
summing below 2^64) the first block, in the order FTP, TV, Others, that is selected, not
empty and for which thread_pool_create returns NULL ends the run with BDIX_ERROR_THREAD:
the run of that block is the last one recorded, it checked nothing, and the categories
after it are unchanged. When the pool is created for every selected non-empty category,
checker_check_multiple returns BDIX_SUCCESS whatever the probes of the servers return.
(The third outcome of thread_pool_create is that it does not return, see C20: then
checker_check_category does not return either, with nothing checked, and neither does
checker_check_multiple when it reaches that block.) -/
theorem pool_failure_aborts_run (env : CheckEnv) (cfg : CheckerConfig) (tc : Int)
    (stats : Option CheckerStats) :
    (∀ cat : ServerCategory, cat.count > 0 → pool_fails env tc cat →
      checker_check_category env (some cat) (some cfg) tc stats =
        { ret := some BDIX_ERROR_THREAD
          created := some (thread_pool_create (env.pthread cat.type) (size_t_of_int tc))
          submitted := [], category := some cat, stats := stats, reports := [] }) ∧
    (∀ cat : ServerCategory, cat.count > 0 → pool_blocks env tc cat →
      checker_check_category env (some cat) (some cfg) tc stats =
        { ret := none
          created := some (thread_pool_create (env.pthread cat.type) (size_t_of_int tc))
          submitted := [], category := some cat, stats := stats, reports := [] }) ∧
    (∀ (d : ServerData) (f t o : Bool),
      d.ftp.count + d.tv.count + d.others.count < 2 ^ 64 →
      (aborts env tc f d.ftp →
        checker_check_multiple env (some d) (some cfg) tc f t o stats =
          { ret := some BDIX_ERROR_THREAD, data := some d, stats := stats
            runs := [checker_check_category env (some d.ftp) (some cfg) tc stats] }) ∧
      (¬ aborts env tc f d.ftp → ¬ hangs env tc f d.ftp → aborts env tc t d.tv →
        (checker_check_multiple env (some d) (some cfg) tc f t o stats).ret
            = some BDIX_ERROR_THREAD ∧
          (checker_check_multiple env (some d) (some cfg) tc f t o stats).data.map
            (fun x => (x.tv, x.others)) = some (d.tv, d.others) ∧
          ∃ r, (checker_check_multiple env (some d) (some cfg) tc f t o stats).runs.getLast?
              = some r ∧
            r.ret = some BDIX_ERROR_THREAD ∧ r.submitted = [] ∧ r.reports = [] ∧
            r.category = some d.tv) ∧
      (¬ aborts env tc f d.ftp → ¬ hangs env tc f d.ftp →
        ¬ aborts env tc t d.tv → ¬ hangs env tc t d.tv → aborts env tc o d.others →
        (checker_check_multiple env (some d) (some cfg) tc f t o stats).ret
            = some BDIX_ERROR_THREAD ∧
          (checker_check_multiple env (some d) (some cfg) tc f t o stats).data.map
            (fun x => x.others) = some d.others ∧
          ∃ r, (checker_check_multiple env (some d) (some cfg) tc f t o stats).runs.getLast?
              = some r ∧
            r.ret = some BDIX_ERROR_THREAD ∧ r.submitted = [] ∧ r.reports = [] ∧
            r.category = some d.others) ∧
      (¬ aborts env tc f d.ftp → ¬ hangs env tc f d.ftp →
        ¬ aborts env tc t d.tv → ¬ hangs env tc t d.tv →
        ¬ aborts env tc o d.others → ¬ hangs env tc o d.others →
        (checker_check_multiple env (some d) (some cfg) tc f t o stats).ret
          = some BDIX_SUCCESS) ∧
      (hangs env tc f d.ftp ∨
        (¬ aborts env tc f d.ftp ∧ ¬ hangs env tc f d.ftp ∧ hangs env tc t d.tv) ∨
        (¬ aborts env tc f d.ftp ∧ ¬ hangs env tc f d.ftp ∧
          ¬ aborts env tc t d.tv ∧ ¬ hangs env tc t d.tv ∧ hangs env tc o d.others) →
        (checker_check_multiple env (some d) (some cfg) tc f t o stats).ret = none)) := by
  have hne : (some BDIX_ERROR_THREAD : Option Int) ≠ some BDIX_SUCCESS := by decide
  have hnn : (none : Option Int) ≠ some BDIX_SUCCESS := by decide
  refine ⟨fun cat h0 hp => check_category_no_pool env cat cfg tc stats h0 hp,
    fun cat h0 hp => check_category_blocked env cat cfg tc stats h0 hp, ?_⟩
  intro d f t o hsum
  refine ⟨?_, ?_, ?_, ?_, ?_⟩
  · intro ha
    have ht := multiple_total_ne_zero d f t o hsum (Or.inl ⟨ha.1, ha.2.1⟩)
    rw [check_category_no_pool env d.ftp cfg tc stats ha.2.1 ha.2.2]
    simp only [checker_check_multiple, ht, if_false]
    rw [check_selected_abort env cfg tc f d.ftp stats ha]
    simp [block_ret, block_category, block_stats, hne]
  · intro hf hf2 ha
    have ht := multiple_total_ne_zero d f t o hsum (Or.inr (Or.inl ⟨ha.1, ha.2.1⟩))
    have h1 := check_selected_ok env cfg tc f d.ftp stats hf hf2
    simp only [checker_check_multiple, ht, if_false, h1, ne_eq, not_true_eq_false]
    rw [check_selected_abort env cfg tc t d.tv _ ha]
    simp [block_ret, block_category, block_stats, hne]
  · intro hf hf2 htv htv2 ha
    have ht := multiple_total_ne_zero d f t o hsum (Or.inr (Or.inr ⟨ha.1, ha.2.1⟩))
    have h1 := check_selected_ok env cfg tc f d.ftp stats hf hf2
    have h2 := fun s => check_selected_ok env cfg tc t d.tv s htv htv2
    simp only [checker_check_multiple, ht, if_false, h1, h2, ne_eq, not_true_eq_false]
    rw [check_selected_abort env cfg tc o d.others _ ha]
    simp [block_ret, block_category, block_stats, hne]
  · intro hf hf2 htv htv2 ho ho2
    have h1 := check_selected_ok env cfg tc f d.ftp stats hf hf2
    have h2 := fun s => check_selected_ok env cfg tc t d.tv s htv htv2
    have h3 := fun s => check_selected_ok env cfg tc o d.others s ho ho2
    simp only [checker_check_multiple, h1, h2, h3, ne_eq, not_true_eq_false, if_false]
    split_ifs <;> rfl
  · rintro (ha | ⟨hf, hf2, ha⟩ | ⟨hf, hf2, htv, htv2, ha⟩)
    · have ht := multiple_total_ne_zero d f t o hsum (Or.inl ⟨ha.1, ha.2.1⟩)
      simp only [checker_check_multiple, ht, if_false]
      rw [check_selected_hang env cfg tc f d.ftp stats ha]
      simp [block_ret, hnn]
    · have ht := multiple_total_ne_zero d f t o hsum (Or.inr (Or.inl ⟨ha.1, ha.2.1⟩))
      have h1 := check_selected_ok env cfg tc f d.ftp stats hf hf2
      simp only [checker_check_multiple, ht, if_false, h1, ne_eq, not_true_eq_false]
      rw [check_selected_hang env cfg tc t d.tv _ ha]
      simp [block_ret, hnn]
    · have ht := multiple_total_ne_zero d f t o hsum (Or.inr (Or.inr ⟨ha.1, ha.2.1⟩))
      have h1 := check_selected_ok env cfg tc f d.ftp stats hf hf2
      have h2 := fun s => check_selected_ok env cfg tc t d.tv s htv htv2
      simp only [checker_check_multiple, ht, if_false, h1, h2, ne_eq, not_true_eq_false]
      rw [check_selected_hang env cfg tc o d.others _ ha]
      simp [block_ret, hnn]

/-- Witness of `pool_failure_aborts_run`: three categories of one server each. When
pthread_mutex_init fails for the TV pool the run returns BDIX_ERROR_THREAD and leaves TV
and Others unchecked; when every pool is created it returns BDIX_SUCCESS; when the creation
of the TV pool blocks the run does not return; when pthread_create fails for the second
worker of the TV pool and the first is joined, the run returns BDIX_ERROR_THREAD. -/
theorem pool_failure_aborts_run_witness :
    threeCategories.ftp.count + threeCategories.tv.count + threeCategories.others.count
      < 2 ^ 64 ∧
    (¬ aborts envTvFails 15 true threeCategories.ftp ∧
      ¬ hangs envTvFails 15 true threeCategories.ftp ∧
      aborts envTvFails 15 true threeCategories.tv ∧
      (checker_check_multiple envTvFails (some threeCategories) (some defaultConfig) 15
        true true true (some checker_stats_init)).ret = some BDIX_ERROR_THREAD ∧
      (checker_check_multiple envTvFails (some threeCategories) (some defaultConfig) 15
        true true true (some checker_stats_init)).data.map (fun x => (x.tv, x.others))
        = some (threeCategories.tv, threeCategories.others)) ∧
    (¬ aborts envOk 15 true threeCategories.ftp ∧ ¬ hangs envOk 15 true threeCategories.ftp ∧
      ¬ aborts envOk 15 true threeCategories.tv ∧ ¬ hangs envOk 15 true threeCategories.tv ∧
      ¬ aborts envOk 15 true threeCategories.others ∧
      ¬ hangs envOk 15 true threeCategories.others ∧
      (checker_check_multiple envOk (some threeCategories) (some defaultConfig) 15
        true true true (some checker_stats_init)).ret = some BDIX_SUCCESS) ∧
    (hangs envTvBlocks 15 true threeCategories.tv ∧
      (checker_check_multiple envTvBlocks (some threeCategories) (some defaultConfig) 15
        true true true (some checker_stats_init)).ret = none) ∧
    (aborts envTvCreateFails 15 true threeCategories.tv ∧
      (checker_check_multiple envTvCreateFails (some threeCategories) (some defaultConfig)
        15 true true true (some checker_stats_init)).ret = some BDIX_ERROR_THREAD) :=
  have hs : threeCategories.ftp.count + threeCategories.tv.count
      + threeCategories.others.count < 2 ^ 64 := by decide
  have hf : ¬ aborts envTvFails 15 true threeCategories.ftp := by
    unfold aborts pool_fails; decide
  have hf2 : ¬ hangs envTvFails 15 true threeCategories.ftp := by
    unfold hangs pool_blocks; decide
  have ht : aborts envTvFails 15 true threeCategories.tv := by
    unfold aborts pool_fails; decide
  have a1 : ¬ aborts envOk 15 true threeCategories.ftp := by
    unfold aborts pool_fails; decide
  have a2 : ¬ hangs envOk 15 true threeCategories.ftp := by
    unfold hangs pool_blocks; decide
  have a3 : ¬ aborts envOk 15 true threeCategories.tv := by
    unfold aborts pool_fails; decide
  have a4 : ¬ hangs envOk 15 true threeCategories.tv := by
    unfold hangs pool_blocks; decide
  have a5 : ¬ aborts envOk 15 true threeCategories.others := by
    unfold aborts pool_fails; decide
  have a6 : ¬ hangs envOk 15 true threeCategories.others := by
    unfold hangs pool_blocks; decide
  have b1 : ¬ aborts envTvBlocks 15 true threeCategories.ftp := by
    unfold aborts pool_fails; decide
  have b2 : ¬ hangs envTvBlocks 15 true threeCategories.ftp := by
    unfold hangs pool_blocks; decide
  have b3 : hangs envTvBlocks 15 true threeCategories.tv := by
    unfold hangs pool_blocks; decide
  have c1 : ¬ aborts envTvCreateFails 15 true threeCategories.ftp := by
    unfold aborts pool_fails; decide
  have c2 : ¬ hangs envTvCreateFails 15 true threeCategories.ftp := by
    unfold hangs pool_blocks; decide
  have c3 : aborts envTvCreateFails 15 true threeCategories.tv := by
    unfold aborts pool_fails; decide
  have j := ((pool_failure_aborts_run envTvCreateFails defaultConfig 15
    (some checker_stats_init)).2.2 threeCategories true true true hs).2.1 c1 c2 c3
  have h := ((pool_failure_aborts_run envTvFails defaultConfig 15
    (some checker_stats_init)).2.2 threeCategories true true true hs).2.1 hf hf2 ht
  have g := ((pool_failure_aborts_run envOk defaultConfig 15
    (some checker_stats_init)).2.2 threeCategories true true true hs).2.2.2.1
    a1 a2 a3 a4 a5 a6
  have k := ((pool_failure_aborts_run envTvBlocks defaultConfig 15
    (some checker_stats_init)).2.2 threeCategories true true true hs).2.2.2.2
    (Or.inr (Or.inl ⟨b1, b2, b3⟩))
  ⟨hs, ⟨hf, hf2, ht, h.1, h.2.1⟩, ⟨a1, a2, a3, a4, a5, a6, g⟩, ⟨b3, k⟩, ⟨c3, j.1⟩⟩

/-! ## Average latency and the latency block of `checker_stats_update` -/

/-- C17: for every statistics value with online_count > 0, checker_stats_get_avg_latency
returns the double quotient of total_latency_ms by online_count converted to double; it
returns 0.0 when online_count is 0 and when the statistics pointer is NULL. Its only
result is that double: the statistics are an argument that is read. -/
theorem avg_latency_quotient :
    (∀ s : CheckerStats, s.online_count > 0 →
      checker_stats_get_avg_latency (some s) =
        Double.div s.total_latency_ms (Double.ofNat s.online_count)) ∧
    (∀ s : CheckerStats, s.online_count = 0 →
      checker_stats_get_avg_latency (some s) = Double.zero) ∧
    checker_stats_get_avg_latency none = Double.zero := by
  refine ⟨fun s h => ?_, fun s h => ?_, rfl⟩
  · have h0 : s.online_count ≠ 0 := by omega
    simp [checker_stats_get_avg_latency, h0]
  · simp [checker_stats_get_avg_latency, h]

/-- Witness of `avg_latency_quotient`: after the end-to-end scenario online_count is 1 and
the average is 100.0. -/
theorem avg_latency_quotient_witness :
    (stats_fold scenario).online_count > 0 ∧
    checker_stats_get_avg_latency (some (stats_fold scenario)) =
      Double.div (stats_fold scenario).total_latency_ms
        (Double.ofNat (stats_fold scenario).online_count) :=
  ⟨by decide, avg_latency_quotient.1 (stats_fold scenario) (by decide)⟩

/-- C18, counterexample: after one ONLINE record of 100.0 ms, an ONLINE record whose
latency is -1.0 is counted as online, but total_latency_ms stays 100.0 although
100.0 + (-1.0) is 99.0. -/
theorem stats_online_negative_latency_not_added :
    (stats_fold [mkServer .BDIX_STATUS_ONLINE (.fin false (100 * 2 ^ 1074))]).total_latency_ms
      = .fin false (100 * 2 ^ 1074) ∧
    (checker_stats_update
      (stats_fold [mkServer .BDIX_STATUS_ONLINE (.fin false (100 * 2 ^ 1074))])
      (mkServer .BDIX_STATUS_ONLINE (.fin true (1 * 2 ^ 1074)))).online_count = 2 ∧
    (checker_stats_update
      (stats_fold [mkServer .BDIX_STATUS_ONLINE (.fin false (100 * 2 ^ 1074))])
      (mkServer .BDIX_STATUS_ONLINE (.fin true (1 * 2 ^ 1074)))).total_latency_ms
      = .fin false (100 * 2 ^ 1074) ∧
    Double.add (.fin false (100 * 2 ^ 1074)) (.fin true (1 * 2 ^ 1074))
      = .fin false (99 * 2 ^ 1074) := by
  decide

/-- C18, amended: for every CheckerStats state and every Server, when the status is not
ONLINE, or the latency fails `latency_ms >= 0` (negative or NaN), checker_stats_update
leaves total_latency_ms, min_latency_ms and max_latency_ms unchanged; when the status is
ONLINE and `latency_ms >= 0` holds, the new total_latency_ms is the double sum of the old
one and the latency, the new minimum is the latency if it is below the old minimum and the
new maximum is the latency if it is above the old maximum. -/
theorem stats_latency_online_only (s : CheckerStats) (x : Server) :
    ((x.status ≠ .BDIX_STATUS_ONLINE ∨ Double.ge x.latency_ms (Double.ofNat 0) = false) →
      (checker_stats_update s x).total_latency_ms = s.total_latency_ms ∧
      (checker_stats_update s x).min_latency_ms = s.min_latency_ms ∧
      (checker_stats_update s x).max_latency_ms = s.max_latency_ms) ∧
    (x.status = .BDIX_STATUS_ONLINE → Double.ge x.latency_ms (Double.ofNat 0) = true →
      (checker_stats_update s x).total_latency_ms
        = Double.add s.total_latency_ms x.latency_ms ∧
      (checker_stats_update s x).min_latency_ms = lower x.latency_ms s.min_latency_ms ∧
      (checker_stats_update s x).max_latency_ms = raise x.latency_ms s.max_latency_ms) := by
  refine ⟨fun h => ?_, fun h1 h2 => ?_⟩
  · have hc : ¬ counted x := by
      rintro ⟨c1, c2⟩
      rcases h with h | h
      · exact h c1
      · rw [c2] at h; exact Bool.noConfusion h
    rw [upd_sum, upd_min_lower, upd_max_raise]
    simp [hc]
  · have hc : counted x := ⟨h1, h2⟩
    rw [upd_sum, upd_min_lower, upd_max_raise]
    simp [hc]

/-- Witness of `stats_latency_online_only`: the ONLINE record of 100.0 ms of the unit test
on the initial statistics. -/
theorem stats_latency_online_only_witness :
    (mkServer .BDIX_STATUS_ONLINE (.fin false (100 * 2 ^ 1074))).status
      = .BDIX_STATUS_ONLINE ∧
    Double.ge (mkServer .BDIX_STATUS_ONLINE (.fin false (100 * 2 ^ 1074))).latency_ms
      (Double.ofNat 0) = true ∧
    (checker_stats_update checker_stats_init
      (mkServer .BDIX_STATUS_ONLINE (.fin false (100 * 2 ^ 1074)))).total_latency_ms
      = Double.add checker_stats_init.total_latency_ms
          (mkServer .BDIX_STATUS_ONLINE (.fin false (100 * 2 ^ 1074))).latency_ms :=
  ⟨rfl, by decide,
    ((stats_latency_online_only checker_stats_init
      (mkServer .BDIX_STATUS_ONLINE (.fin false (100 * 2 ^ 1074)))).2 rfl (by decide)).1⟩

/-! ## Categories: `server_category_add` -/

theorem take_set_succ {α : Type} (l : List α) (n : Nat) (v : α) (h : n < l.length) :
    (l.set n v).take (n + 1) = l.take n ++ [v] := by
  induction l generalizing n with
  | nil => simp at h
  | cons a l ih =>
    cases n with
    | zero => simp
    | succ n =>
      simp only [List.length_cons, Nat.add_lt_add_iff_right] at h
      simp [ih n h]

theorem is_valid_url_iff (u : String) :
    is_valid_url (some u) = true ↔
      1 ≤ strlen u ∧ strlen u ≤ 511 ∧
      ("http://".data <+: u.data ∨ "https://".data <+: u.data) := by
  have e7 : "http://".data.take 7 = "http://".data := by decide
  have e8 : "https://".data.take 8 = "https://".data := by decide
  have l7 : "http://".data.length = 7 := by decide
  have l8 : "https://".data.length = 8 := by decide
  have p7 : "http://".data <+: u.data ↔ u.data.take 7 = "http://".data := by
    rw [List.prefix_iff_eq_take, l7]
    exact eq_comm
  have p8 : "https://".data <+: u.data ↔ u.data.take 8 = "https://".data := by
    rw [List.prefix_iff_eq_take, l8]
    exact eq_comm
  rw [p7, p8]
  simp only [is_valid_url, strncmp_eq, e7, e8, MAX_URL_LENGTH]
  split_ifs with h1 h2
  · simp only [Bool.false_eq_true, false_iff]
    omega
  · simp only [Bool.false_eq_true, false_iff]
    simp only [decide_eq_false_iff_not] at h2
    tauto
  · simp only [true_iff]
    simp only [decide_eq_false_iff_not, not_and_or, not_not] at h2
    refine ⟨by omega, by omega, h2⟩

theorem safe_strncpy_valid (dest u : String) (h : is_valid_url (some u) = true) :
    safe_strncpy dest (some u) MAX_URL_LENGTH = u := by
  obtain ⟨_, h2, _⟩ := (is_valid_url_iff u).1 h
  have : u.data.take 511 = u.data := List.take_of_length_le (by simpa [strlen] using h2)
  simp [safe_strncpy, MAX_URL_LENGTH, this]

/-- The resize block on a category with `capacity` slots of which `count < 2000` are in
use: afterwards slot `count` exists, and the slots in use are as before. -/
theorem resize_if_needed_wf (cat : ServerCategory) (hw : cat.wf)
    (hc : cat.count < MAX_SERVERS_PER_CATEGORY) :
    (resize_if_needed cat).urls.length = (resize_if_needed cat).capacity ∧
    (resize_if_needed cat).servers.length = (resize_if_needed cat).capacity ∧
    (resize_if_needed cat).count = cat.count ∧
    cat.count < (resize_if_needed cat).capacity ∧
    (resize_if_needed cat).urls.take cat.count = cat.urls.take cat.count ∧
    (resize_if_needed cat).servers.take cat.count = cat.servers.take cat.count ∧
    (resize_if_needed cat).type = cat.type ∧ (resize_if_needed cat).name = cat.name ∧
    (resize_if_needed cat).capacity =
      (if cat.count = cat.capacity then 2 * cat.capacity else cat.capacity) := by
  obtain ⟨h1, h2, h3, h4⟩ := hw
  have hM : MAX_SERVERS_PER_CATEGORY = 2000 := rfl
  rw [hM] at hc
  by_cases hge : cat.count ≥ cat.capacity
  · have heq : cat.count = cat.capacity := by omega
    have hm : cat.capacity * 2 % SIZE_MOD = cat.capacity * 2 := by
      apply Nat.mod_eq_of_lt
      have : SIZE_MOD = 2 ^ 64 := rfl
      rw [this]
      omega
    have e1 : realloc_array cat.urls (cat.capacity * 2) none
        = cat.urls ++ List.replicate cat.capacity none := by
      unfold realloc_array
      rw [List.take_of_length_le (by omega), h1]
      congr 2
      omega
    have e2 : memset_servers (realloc_array cat.servers (cat.capacity * 2) zeroServer)
        cat.capacity (cat.capacity * 2 - cat.capacity)
        = cat.servers ++ List.replicate cat.capacity zeroServer := by
      unfold memset_servers realloc_array
      rw [List.take_of_length_le (l := cat.servers) (by omega), h2]
      have a1 : cat.capacity * 2 - cat.capacity = cat.capacity := by omega
      rw [a1]
      rw [List.take_append_of_le_length (by omega), List.take_of_length_le (by omega)]
      rw [List.drop_of_length_le (by simp; omega)]
      simp
    have hr : resize_if_needed cat =
        { cat with urls := cat.urls ++ List.replicate cat.capacity none
                   servers := cat.servers ++ List.replicate cat.capacity zeroServer
                   capacity := cat.capacity * 2 } := by
      simp only [resize_if_needed, hge, if_true, hm, e1, e2]
    rw [hr]
    refine ⟨by simp [h1]; omega, by simp [h2]; omega, rfl, by simp only; omega, ?_, ?_, rfl,
      rfl, by simp only [heq, if_true]; omega⟩
    · simp only
      rw [List.take_append_of_le_length (by omega)]
    · simp only
      rw [List.take_append_of_le_length (by omega)]
  · have hne : cat.count ≠ cat.capacity := by omega
    simp only [resize_if_needed, hge, if_false, hne]
    exact ⟨h1, h2, trivial, by omega, trivial, trivial, trivial, trivial, trivial⟩

/-- One accepted `server_category_add`: the category afterwards. -/
theorem server_category_add_ok (cat : ServerCategory) (u : String) (hw : cat.wf)
    (hc : cat.count < MAX_SERVERS_PER_CATEGORY) (hv : is_valid_url (some u) = true) :
    ∃ c2, server_category_add (some cat) (some u) = .ok (BDIX_SUCCESS, some c2) ∧
      c2.wf ∧ c2.count = cat.count + 1 ∧
      c2.url_list = cat.url_list ++ [some u] ∧
      c2.server_list = cat.server_list ++ [freshServer u] ∧
      c2.type = cat.type ∧ c2.name = cat.name ∧
      c2.capacity = (if cat.count = cat.capacity then 2 * cat.capacity else cat.capacity) := by
  obtain ⟨r1, r2, r3, r4, r5, r6, r7, r8, r9⟩ := resize_if_needed_wf cat hw hc
  have hM : MAX_SERVERS_PER_CATEGORY = 2000 := rfl
  have hnot : ¬ cat.count ≥ MAX_SERVERS_PER_CATEGORY := by omega
  have hmod : (cat.count + 1) % SIZE_MOD = cat.count + 1 := by
    apply Nat.mod_eq_of_lt
    have : SIZE_MOD = 2 ^ 64 := rfl
    rw [this, hM] at *
    omega
  have hb : (resize_if_needed cat).count < (resize_if_needed cat).urls.length ∧
      (resize_if_needed cat).count < (resize_if_needed cat).servers.length := by
    rw [r1, r2, r3]; exact ⟨r4, r4⟩
  refine ⟨{ resize_if_needed cat with
      urls := (resize_if_needed cat).urls.set cat.count (some u)
      servers := (resize_if_needed cat).servers.set cat.count (freshServer u)
      count := cat.count + 1 }, ?_, ?_, rfl, ?_, ?_, r7, r8, r9⟩
  · simp only [server_category_add, hv, Bool.true_eq_false, if_false, hnot, hb, and_self,
      if_true, safe_strncpy_valid _ _ hv, r3, hmod, freshServer]
    rw [r3] at hb
    rw [if_pos hb]
  · exact ⟨by simp [r1], by simp [r2], by simp only; omega, by simp only; omega⟩
  · simp only [ServerCategory.url_list]
    rw [take_set_succ _ _ _ (by rw [r1]; exact r4), r5]
  · simp only [ServerCategory.server_list]
    rw [take_set_succ _ _ _ (by rw [r2]; exact r4), r6]

theorem server_category_add_invalid (cat : ServerCategory) (u : Option String)
    (hv : is_valid_url u = false) :
    server_category_add (some cat) u = .ok (BDIX_ERROR_INVALID_INPUT, some cat) := by
  cases u with
  | none => rfl
  | some u => simp [server_category_add, hv]

theorem server_category_add_full (cat : ServerCategory) (u : String)
    (hv : is_valid_url (some u) = true) (hc : cat.count ≥ MAX_SERVERS_PER_CATEGORY) :
    server_category_add (some cat) (some u) = .ok (BDIX_ERROR, some cat) := by
  simp [server_category_add, hv, hc]

theorem accepted_urls_cons_invalid (u : Option String) (us : List (Option String))
    (hv : is_valid_url u = false) : accepted_urls (u :: us) = accepted_urls us := by
  simp [accepted_urls, List.filterMap_cons, hv]

theorem accepted_urls_cons_valid (u : String) (us : List (Option String))
    (hv : is_valid_url (some u) = true) :
    accepted_urls (some u :: us) = u :: accepted_urls us := by
  simp [accepted_urls, List.filterMap_cons, hv]

/-- Any sequence of `server_category_add` calls on a well-formed category: no fault, the
valid URLs are appended in call order while `count < 2000`, the rest is dropped. -/
theorem add_each_spec (us : List (Option String)) :
    ∀ cat : ServerCategory, cat.wf →
    ∃ c2, add_each cat us = .ok c2 ∧ c2.wf ∧ c2.type = cat.type ∧ c2.name = cat.name ∧
      c2.url_list = cat.url_list ++
        ((accepted_urls us).take (MAX_SERVERS_PER_CATEGORY - cat.count)).map some ∧
      c2.server_list = cat.server_list ++
        ((accepted_urls us).take (MAX_SERVERS_PER_CATEGORY - cat.count)).map freshServer ∧
      c2.count = cat.count +
        min (accepted_urls us).length (MAX_SERVERS_PER_CATEGORY - cat.count) ∧
      (∃ k, c2.capacity = cat.capacity * 2 ^ k) := by
  induction us with
  | nil =>
    intro cat hw
    exact ⟨cat, rfl, hw, rfl, rfl, by simp [accepted_urls], by simp [accepted_urls],
      by simp [accepted_urls], 0, by simp⟩
  | cons u us ih =>
    intro cat hw
    cases hv : is_valid_url u with
    | false =>
      obtain ⟨c2, h1, h2⟩ := ih cat hw
      refine ⟨c2, ?_, ?_⟩
      · simp only [add_each, server_category_add_invalid cat u hv, Option.getD_some]
        exact h1
      · rw [accepted_urls_cons_invalid u us hv]
        exact h2
    | true =>
      cases u with
      | none => simp [is_valid_url] at hv
      | some s =>
        rw [accepted_urls_cons_valid s us hv]
        by_cases hc : cat.count < MAX_SERVERS_PER_CATEGORY
        · obtain ⟨c1, a1, a2, a3, a4, a5, a6, a7, a8⟩ := server_category_add_ok cat s hw hc hv
          obtain ⟨c2, b1, b2, b3, b4, b5, b6, b7, k, b8⟩ := ih c1 a2
          have hsub : MAX_SERVERS_PER_CATEGORY - cat.count
              = (MAX_SERVERS_PER_CATEGORY - c1.count) + 1 := by omega
          refine ⟨c2, ?_, b2, by rw [b3, a6], by rw [b4, a7], ?_, ?_, ?_, ?_⟩
          · simp only [add_each, a1, Option.getD_some]
            exact b1
          · rw [b5, a4, hsub, List.take_succ_cons]
            simp
          · rw [b6, a5, hsub, List.take_succ_cons]
            simp
          · rw [b7, a3, hsub]
            simp only [List.length_cons]
            omega
          · rw [b8, a8]
            split_ifs
            · exact ⟨k + 1, by rw [pow_succ]; ring⟩
            · exact ⟨k, rfl⟩
        · obtain ⟨c2, b1, b2, b3, b4, b5, b6, b7, b8⟩ := ih cat hw
          have hz : MAX_SERVERS_PER_CATEGORY - cat.count = 0 := by omega
          rw [hz] at b5 b6 b7 ⊢
          refine ⟨c2, ?_, b2, b3, b4, ?_, ?_, ?_, b8⟩
          · simp only [add_each, server_category_add_full cat s hv (by omega),
              Option.getD_some]
            exact b1
          · simpa using b5
          · simpa using b6
          · simpa using b7

/-- The return codes of a sequence of valid URLs that fits below the limit. -/
theorem add_codes_valid (l : List String) :
    ∀ cat : ServerCategory, cat.wf → (∀ u ∈ l, is_valid_url (some u) = true) →
      cat.count + l.length ≤ MAX_SERVERS_PER_CATEGORY →
      add_codes cat (l.map some) = List.replicate l.length BDIX_SUCCESS := by
  induction l with
  | nil => intro cat _ _ _; rfl
  | cons u l ih =>
    intro cat hw hv hc
    simp only [List.length_cons] at hc
    obtain ⟨c1, a1, a2, a3, _⟩ :=
      server_category_add_ok cat u hw (by omega) (hv u (List.mem_cons_self u l))
    have h := ih c1 a2 (fun v hm => hv v (List.mem_cons_of_mem u hm)) (by omega)
    simp only [List.map_cons, add_codes, a1, Option.getD_some, h, List.length_cons,
      List.replicate_succ]

theorem accepted_urls_valid (l : List String) (hv : ∀ u ∈ l, is_valid_url (some u) = true) :
    accepted_urls (l.map some) = l := by
  induction l with
  | nil => rfl
  | cons u l ih =>
    rw [List.map_cons, accepted_urls_cons_valid u _ (hv u (List.mem_cons_self u l)),
      ih (fun v hm => hv v (List.mem_cons_of_mem u hm))]

theorem initCategory_wf (t : ServerCategoryType) (nm : String) : (initCategory t nm).wf := by
  simp [ServerCategory.wf, initCategory]

theorem url_list_length (cat : ServerCategory) (hw : cat.wf) :
    cat.url_list.length = cat.count ∧ cat.server_list.length = cat.count := by
  obtain ⟨h1, h2, h3, _⟩ := hw
  simp only [ServerCategory.url_list, ServerCategory.server_list, List.length_take]
  omega

/-- Slot `i < count` of the two arrays, read from the lists of slots in use. -/
theorem slot_of_lists (cat : ServerCategory) (i : Nat) (hi : i < cat.count) :
    cat.urls[i]? = cat.url_list[i]? ∧ cat.servers[i]? = cat.server_list[i]? := by
  simp only [ServerCategory.url_list, ServerCategory.server_list, List.getElem?_take, hi,
    if_true, and_self]

theorem accepted_urls_all_valid (us : List (Option String)) :
    ∀ u ∈ accepted_urls us, is_valid_url (some u) = true := by
  intro u hu
  simp only [accepted_urls, List.mem_filterMap] at hu
  obtain ⟨a, _, ha⟩ := hu
  split_ifs at ha with h
  subst ha
  exact h

/-- The category reached from `server_category_init` by any sequence of
`server_category_add` calls. -/
theorem add_each_from_init (t : ServerCategoryType) (nm : String)
    (us : List (Option String)) :
    ∃ c, add_each (initCategory t nm) us = .ok c ∧ c.wf ∧
      c.url_list = ((accepted_urls us).take MAX_SERVERS_PER_CATEGORY).map some ∧
      c.server_list = ((accepted_urls us).take MAX_SERVERS_PER_CATEGORY).map freshServer ∧
      c.count = ((accepted_urls us).take MAX_SERVERS_PER_CATEGORY).length ∧
      c.count ≤ MAX_SERVERS_PER_CATEGORY ∧
      (∃ k, c.capacity = 32 * 2 ^ k) := by
  obtain ⟨c, h1, h2, _, _, h5, h6, h7, h8⟩ := add_each_spec us _ (initCategory_wf t nm)
  have e0 : (initCategory t nm).count = 0 := rfl
  have e1 : (initCategory t nm).url_list = [] := rfl
  have e2 : (initCategory t nm).server_list = [] := rfl
  have e3 : (initCategory t nm).capacity = 32 := rfl
  rw [e0, e1, Nat.sub_zero, List.nil_append] at h5
  rw [e0, e2, Nat.sub_zero, List.nil_append] at h6
  rw [e0, Nat.sub_zero, Nat.zero_add] at h7
  rw [e3] at h8
  refine ⟨c, h1, h2, h5, h6, ?_, ?_, h8⟩
  · rw [h7, List.length_take, Nat.min_comm]
  · rw [h7]
    exact Nat.min_le_right _ _

theorem server_category_add_no_fault (cat : ServerCategory) (hw : cat.wf)
    (u : Option String) : ∃ r, server_category_add (some cat) u = .ok r := by
  obtain ⟨c2, h, _⟩ := add_each_spec [u] cat hw
  simp only [add_each] at h
  cases hr : server_category_add (some cat) u with
  | error e => rw [hr] at h; cases h
  | ok r => exact ⟨r, rfl⟩

/-- C22: for every category whose two arrays have `capacity` > 0 slots with `count` of
them in use (every category reached from server_category_init is one), with count <
MAX_SERVERS_PER_CATEGORY, and every valid URL u, server_category_add returns BDIX_SUCCESS,
count grows by exactly 1, urls[count-1] is u and servers[count-1] has url u (not
truncated), status UNKNOWN, latency_ms -1.0, response_code 0 and last_checked 0. -/
theorem server_category_add_appends :
    (∀ (cat : ServerCategory) (u : String), cat.wf →
      cat.count < MAX_SERVERS_PER_CATEGORY → is_valid_url (some u) = true →
      ∃ c2, server_category_add (some cat) (some u) = .ok (BDIX_SUCCESS, some c2) ∧
        c2.count = cat.count + 1 ∧
        c2.urls[c2.count - 1]? = some (some u) ∧
        c2.servers[c2.count - 1]? =
          some { url := u, status := .BDIX_STATUS_UNKNOWN,
                 latency_ms := .fin true (1 * 2 ^ 1074), response_code := 0,
                 last_checked := 0 } ∧
        c2.wf) ∧
    (∀ (c0 : ServerCategory) (t : ServerCategoryType) (nm : String)
        (us : List (Option String)),
      ∃ ci c, server_category_init (some c0) t (some nm) = (BDIX_SUCCESS, some ci) ∧
        add_each ci us = .ok c ∧ c.wf) := by
  constructor
  · intro cat u hw hc hv
    obtain ⟨c2, a1, a2, a3, a4, a5, _⟩ := server_category_add_ok cat u hw hc hv
    have hi : c2.count - 1 < c2.count := by omega
    obtain ⟨s1, s2⟩ := slot_of_lists c2 _ hi
    obtain ⟨l1, l2⟩ := url_list_length cat hw
    refine ⟨c2, a1, a3, ?_, ?_, a2⟩
    · rw [s1, a4, a3, Nat.add_sub_cancel, List.getElem?_append_right (by omega), l1]
      simp
    · rw [s2, a5, a3, Nat.add_sub_cancel, List.getElem?_append_right (by omega), l2]
      simp [freshServer]
  · intro c0 t nm us
    obtain ⟨c, h1, h2, _⟩ := add_each_from_init t nm us
    exact ⟨initCategory t nm, c, rfl, h1, h2⟩

/-- Witness of `server_category_add_appends`: the first add of `test_server_category_add`
on a freshly initialised category. -/
theorem server_category_add_appends_witness :
    emptyCategory.wf ∧ emptyCategory.count < MAX_SERVERS_PER_CATEGORY ∧
    is_valid_url (some "http://example.com") = true ∧
    ∃ c2, server_category_add (some emptyCategory) (some "http://example.com")
        = .ok (BDIX_SUCCESS, some c2) ∧
      c2.count = emptyCategory.count + 1 ∧
      c2.urls[c2.count - 1]? = some (some "http://example.com") ∧
      c2.servers[c2.count - 1]? =
        some { url := "http://example.com", status := .BDIX_STATUS_UNKNOWN,
               latency_ms := .fin true (1 * 2 ^ 1074), response_code := 0,
               last_checked := 0 } ∧
      c2.wf :=
  ⟨by decide, by decide, by decide,
    server_category_add_appends.1 emptyCategory "http://example.com" (by decide) (by decide)
      (by decide)⟩

/-- C23: for every list of n <= MAX_SERVERS_PER_CATEGORY valid URLs added one after the
other to a category fresh from server_category_init, every add returns BDIX_SUCCESS,
count is n, capacity >= n, and for every i < n server_category_get(category, i) returns
&servers[i], which holds the i-th URL (as does urls[i]), while for every i >= n it
returns NULL. -/
theorem server_category_add_keeps_entries (t : ServerCategoryType) (nm : String)
    (l : List String) (hn : l.length ≤ MAX_SERVERS_PER_CATEGORY)
    (hv : ∀ u ∈ l, is_valid_url (some u) = true) :
    add_codes (initCategory t nm) (l.map some) = List.replicate l.length BDIX_SUCCESS ∧
    ∃ c, add_each (initCategory t nm) (l.map some) = .ok c ∧
      c.count = l.length ∧ c.capacity ≥ l.length ∧
      (∀ i, i < l.length →
        server_category_get (some c) i = some i ∧
        c.servers[i]? = l[i]?.map freshServer ∧
        c.urls[i]? = l[i]?.map some) ∧
      (∀ i, l.length ≤ i → server_category_get (some c) i = none) := by
  refine ⟨add_codes_valid l _ (initCategory_wf t nm) hv (by simpa [initCategory] using hn), ?_⟩
  obtain ⟨c, h1, h2, h3, h4, h5, _, _⟩ := add_each_from_init t nm (l.map some)
  rw [accepted_urls_valid l hv, List.take_of_length_le hn] at h3 h4 h5
  refine ⟨c, h1, h5, ?_, ?_, ?_⟩
  · have := h2.2.2.1
    omega
  · intro i hi
    obtain ⟨s1, s2⟩ := slot_of_lists c i (by omega)
    refine ⟨?_, ?_, ?_⟩
    · simp [server_category_get, h5, hi]
    · rw [s2, h4, List.getElem?_map]
    · rw [s1, h3, List.getElem?_map]
  · intro i hi
    simp [server_category_get, h5, hi]

/-- Witness of `server_category_add_keeps_entries`: the 100 adds of
`test_server_category_resize`; count is 100 and entry 99 holds the 100th URL. -/
theorem server_category_add_keeps_entries_witness :
    resizeTestUrls.length ≤ MAX_SERVERS_PER_CATEGORY ∧
    (∀ u ∈ resizeTestUrls, is_valid_url (some u) = true) ∧
    ∃ c, add_each (initCategory .CATEGORY_OTHERS "Resize Test") (resizeTestUrls.map some)
        = .ok c ∧
      c.count = 100 ∧ c.capacity ≥ 100 ∧ server_category_get (some c) 99 = some 99 ∧
      c.servers[99]? = some (freshServer "http://server99.com") ∧
      server_category_get (some c) 100 = none := by
  have hl : resizeTestUrls.length = 100 := by decide
  have h99 : resizeTestUrls[99]? = some "http://server99.com" := by decide
  have hn : resizeTestUrls.length ≤ MAX_SERVERS_PER_CATEGORY := by decide
  have hv : ∀ u ∈ resizeTestUrls, is_valid_url (some u) = true := by decide
  obtain ⟨_, c, h1, h2, h3, h4, h5⟩ :=
    server_category_add_keeps_entries .CATEGORY_OTHERS "Resize Test" resizeTestUrls hn hv
  rw [hl] at h2 h3 h4 h5
  obtain ⟨g1, g2, _⟩ := h4 99 (by omega)
  rw [h99] at g2
  exact ⟨hn, hv, c, h1, h2, h3, g1, g2, h5 100 (by omega)⟩

/-- C26: is_valid_url is true exactly for the strings of length 1 to
MAX_URL_LENGTH - 1 = 511 that start with "http://" or "https://" (and false for NULL);
for every category and every URL that is not valid, server_category_add returns
BDIX_ERROR_INVALID_INPUT and the category, with its count, capacity and both arrays, is
unchanged. -/
theorem server_category_add_rejects_invalid :
    (∀ u : String, is_valid_url (some u) = true ↔
      1 ≤ strlen u ∧ strlen u ≤ MAX_URL_LENGTH - 1 ∧
      ("http://".data <+: u.data ∨ "https://".data <+: u.data)) ∧
    is_valid_url none = false ∧
    (∀ (cat : ServerCategory) (u : Option String), is_valid_url u = false →
      server_category_add (some cat) u = .ok (BDIX_ERROR_INVALID_INPUT, some cat)) :=
  ⟨is_valid_url_iff, rfl, server_category_add_invalid⟩

/-- Witness of `server_category_add_rejects_invalid`: a URL with another scheme on a
category holding one server. -/
theorem server_category_add_rejects_invalid_witness :
    is_valid_url (some "ftp://10.0.0.1") = false ∧
    server_category_add (some oneServerCategory) (some "ftp://10.0.0.1")
      = .ok (BDIX_ERROR_INVALID_INPUT, some oneServerCategory) :=
  ⟨by decide,
    server_category_add_rejects_invalid.2.2 oneServerCategory (some "ftp://10.0.0.1")
      (by decide)⟩

/-- C27: for every category with count >= MAX_SERVERS_PER_CATEGORY (2000) and every valid
URL, server_category_add returns BDIX_ERROR and the category is unchanged; and after every
sequence of server_category_add calls (with any arguments) on a category fresh from
server_category_init, count <= 2000. -/
theorem server_category_add_limit :
    (∀ (cat : ServerCategory) (u : String), cat.count ≥ MAX_SERVERS_PER_CATEGORY →
      is_valid_url (some u) = true →
      server_category_add (some cat) (some u) = .ok (BDIX_ERROR, some cat)) ∧
    (∀ (t : ServerCategoryType) (nm : String) (us : List (Option String)),
      ∃ c, add_each (initCategory t nm) us = .ok c ∧ c.count ≤ MAX_SERVERS_PER_CATEGORY) ∧
    MAX_SERVERS_PER_CATEGORY = 2000 := by
  refine ⟨fun cat u hc hv => server_category_add_full cat u hv hc, ?_, rfl⟩
  intro t nm us
  obtain ⟨c, h1, _, _, _, _, h6, _⟩ := add_each_from_init t nm us
  exact ⟨c, h1, h6⟩

/-- Witness of `server_category_add_limit`: a category holding 2000 servers. -/
theorem server_category_add_limit_witness :
    fullCategory.count ≥ MAX_SERVERS_PER_CATEGORY ∧
    is_valid_url (some "http://10.0.0.2") = true ∧
    server_category_add (some fullCategory) (some "http://10.0.0.2")
      = .ok (BDIX_ERROR, some fullCategory) :=
  ⟨by decide, by decide,
    server_category_add_limit.1 fullCategory "http://10.0.0.2" (by decide) (by decide)⟩

/-- C28: after every sequence of server_category_add calls (with any arguments) on a
category fresh from server_category_init (count 0, capacity 32), no call has written
outside the arrays, count <= capacity, capacity is 32 times a power of two, both arrays
have capacity slots, and the next call writes inside the arrays as well. The doubling
needs capacity > 0: on a category zeroed by server_category_free (capacity 0) the first
add of a valid URL doubles 0 to 0 and writes slot 0 of arrays without slots. -/
theorem category_capacity_invariant (t : ServerCategoryType) (nm : String)
    (us : List (Option String)) :
    (initCategory t nm).count = 0 ∧ (initCategory t nm).capacity = 32 ∧
    (∃ c, add_each (initCategory t nm) us = .ok c ∧
      c.count ≤ c.capacity ∧ (∃ k, c.capacity = 32 * 2 ^ k) ∧
      c.urls.length = c.capacity ∧ c.servers.length = c.capacity ∧
      ∀ u, ∃ r, server_category_add (some c) u = .ok r) ∧
    server_category_add (some zeroedCategory) (some "http://10.0.0.1")
      = .error .out_of_bounds := by
  refine ⟨rfl, rfl, ?_, rfl⟩
  obtain ⟨c, h1, h2, _, _, _, _, h7⟩ := add_each_from_init t nm us
  exact ⟨c, h1, h2.2.2.1, h7, h2.1, h2.2.1, server_category_add_no_fault c h2⟩

/-- C29: after every sequence of server_category_add calls (with any arguments) on a
category fresh from server_category_init, for every i < count the string urls[i] is a
valid URL, shorter than MAX_URL_LENGTH, and servers[i].url is the same string; the copy
by safe_strncpy into the 512-byte field keeps at most 511 characters, which is all of
such a string. -/
theorem category_arrays_agree (t : ServerCategoryType) (nm : String)
    (us : List (Option String)) :
    (∃ c, add_each (initCategory t nm) us = .ok c ∧
      ∀ i, i < c.count →
        ∃ (s : String) (sv : Server), c.urls[i]? = some (some s) ∧ c.servers[i]? = some sv ∧
          sv.url = s ∧ strlen s < MAX_URL_LENGTH) ∧
    (∀ dest u : String,
      (safe_strncpy dest (some u) MAX_URL_LENGTH).data = u.data.take (MAX_URL_LENGTH - 1) ∧
      (strlen u < MAX_URL_LENGTH → safe_strncpy dest (some u) MAX_URL_LENGTH = u)) := by
  constructor
  · obtain ⟨c, h1, _, h3, h4, h5, _, _⟩ := add_each_from_init t nm us
    refine ⟨c, h1, ?_⟩
    intro i hi
    obtain ⟨s1, s2⟩ := slot_of_lists c i hi
    rw [h5] at hi
    have hs : ((accepted_urls us).take MAX_SERVERS_PER_CATEGORY)[i]? =
        some (((accepted_urls us).take MAX_SERVERS_PER_CATEGORY)[i]) :=
      List.getElem?_eq_getElem hi
    have hm : ((accepted_urls us).take MAX_SERVERS_PER_CATEGORY)[i] ∈ accepted_urls us :=
      List.mem_of_mem_take (List.getElem_mem hi)
    have hv := (is_valid_url_iff _).1 (accepted_urls_all_valid us _ hm)
    refine ⟨((accepted_urls us).take MAX_SERVERS_PER_CATEGORY)[i],
      freshServer (((accepted_urls us).take MAX_SERVERS_PER_CATEGORY)[i]), ?_, ?_, rfl, ?_⟩
    · rw [s1, h3, List.getElem?_map, hs]
      rfl
    · rw [s2, h4, List.getElem?_map, hs]
      rfl
    · have : MAX_URL_LENGTH = 512 := rfl
      omega
  · intro dest u
    refine ⟨by simp [safe_strncpy, MAX_URL_LENGTH], ?_⟩
    intro h
    have hm : MAX_URL_LENGTH = 512 := rfl
    have : u.data.take 511 = u.data :=
      List.take_of_length_le (by simp only [strlen, String.length] at h; omega)
    simp [safe_strncpy, MAX_URL_LENGTH, this]

/-- Witness of `category_arrays_agree`: the two adds of `test_server_category_add` with a
rejected argument between them; the copy of the first URL is the URL. -/
theorem category_arrays_agree_witness :
    strlen "http://example.com" < MAX_URL_LENGTH ∧
    safe_strncpy "" (some "http://example.com") MAX_URL_LENGTH = "http://example.com" ∧
    ∃ c, add_each (initCategory .CATEGORY_TV "TV Test")
        [some "http://example.com", some "example.com", some "http://test.com"] = .ok c ∧
      ∀ i, i < c.count →
        ∃ (s : String) (sv : Server), c.urls[i]? = some (some s) ∧ c.servers[i]? = some sv ∧
          sv.url = s ∧ strlen s < MAX_URL_LENGTH :=
  ⟨by decide,
    ((category_arrays_agree .CATEGORY_TV "TV Test" []).2 "" "http://example.com").2
      (by decide),
    (category_arrays_agree .CATEGORY_TV "TV Test"
      [some "http://example.com", some "example.com", some "http://test.com"]).1⟩

/-! ## Loading the configuration -/

theorem is_valid_url_empty (s : String) (h : strlen s = 0) : is_valid_url (some s) = false := by
  simp [is_valid_url, h]

/-- The loop of `parse_server_array` is a sequence of `server_category_add` calls, one
per element that is a non-empty string; the other elements change nothing, like a call
with an argument that is not a valid URL. -/
theorem parse_server_loop_eq (l : List Json) :
    ∀ cat : ServerCategory,
      parse_server_loop l cat = add_each cat (l.map (fun v => json_string_value (some v))) := by
  induction l with
  | nil => intro cat; rfl
  | cons v l ih =>
    intro cat
    have hskip : add_each cat (none :: l.map (fun v => json_string_value (some v)))
        = add_each cat (l.map (fun v => json_string_value (some v))) := by
      simp [add_each, server_category_add]
    cases v with
    | string s =>
      by_cases h0 : strlen s = 0
      · simp only [parse_server_loop, json_is_string, json_string_value, h0, if_true,
          List.map_cons, add_each, server_category_add_invalid cat (some s)
            (is_valid_url_empty s h0), Option.getD_some, Bool.true_eq_false, if_false]
        exact ih cat
      · simp only [parse_server_loop, json_is_string, json_string_value, h0, if_false,
          List.map_cons, add_each, Bool.true_eq_false]
        cases server_category_add (some cat) (some s) with
        | error e => rfl
        | ok r => exact ih _
    | null => simpa [parse_server_loop, json_is_string, json_string_value] using
        (ih cat).trans hskip.symm
    | boolean b => simpa [parse_server_loop, json_is_string, json_string_value] using
        (ih cat).trans hskip.symm
    | integer n => simpa [parse_server_loop, json_is_string, json_string_value] using
        (ih cat).trans hskip.symm
    | real d => simpa [parse_server_loop, json_is_string, json_string_value] using
        (ih cat).trans hskip.symm
    | array a => simpa [parse_server_loop, json_is_string, json_string_value] using
        (ih cat).trans hskip.symm
    | object o => simpa [parse_server_loop, json_is_string, json_string_value] using
        (ih cat).trans hskip.symm

theorem accepted_urls_json (l : List Json) :
    accepted_urls (l.map (fun v => json_string_value (some v))) = valid_urls l := by
  induction l with
  | nil => rfl
  | cons v l ih =>
    cases v with
    | string s =>
      have e : (Json.string s :: l).map (fun v => json_string_value (some v))
          = some s :: l.map (fun v => json_string_value (some v)) := rfl
      cases hv : is_valid_url (some s) with
      | false =>
        rw [e, accepted_urls_cons_invalid _ _ hv, ih]
        simp [valid_urls, List.filterMap_cons, hv]
      | true =>
        rw [e, accepted_urls_cons_valid _ _ hv, ih]
        simp [valid_urls, List.filterMap_cons, hv]
    | null => simpa [valid_urls, accepted_urls, json_string_value, is_valid_url] using ih
    | boolean b => simpa [valid_urls, accepted_urls, json_string_value, is_valid_url] using ih
    | integer n => simpa [valid_urls, accepted_urls, json_string_value, is_valid_url] using ih
    | real d => simpa [valid_urls, accepted_urls, json_string_value, is_valid_url] using ih
    | array a => simpa [valid_urls, accepted_urls, json_string_value, is_valid_url] using ih
    | object o => simpa [valid_urls, accepted_urls, json_string_value, is_valid_url] using ih

theorem load_key_eq (root : Json) (key : String) (cat : ServerCategory) :
    load_key root key cat = add_each cat
      ((json_array_elements (json_object_get (some root) key)).map
        (fun v => json_string_value (some v))) := by
  unfold load_key
  cases hg : json_object_get (some root) key with
  | none => rfl
  | some a =>
    cases a with
    | array l =>
      simp only [parse_server_array, json_is_array, json_array_elements, Bool.true_eq_false,
        if_false, parse_server_loop_eq]
      cases add_each cat (l.map (fun v => json_string_value (some v))) with
      | error e => rfl
      | ok c => rfl
    | null => rfl
    | boolean b => rfl
    | integer n => rfl
    | real d => rfl
    | string s => rfl
    | object o => rfl

/-- One block of `config_load_from_string` on a well-formed category. -/
theorem load_key_spec (root : Json) (key : String) (cat : ServerCategory) (hw : cat.wf) :
    ∃ c2, load_key root key cat = .ok c2 ∧ Appended cat c2 (config_urls root key) := by
  obtain ⟨c2, h1, h2, h3, h4, h5, h6, h7, _⟩ := add_each_spec
    ((json_array_elements (json_object_get (some root) key)).map
      (fun v => json_string_value (some v))) cat hw
  rw [accepted_urls_json] at h5 h6 h7
  exact ⟨c2, by rw [load_key_eq, h1], h5, h6, h7, h3, h4, h2⟩

/-- A load of a JSON object into data with well-formed categories. -/
theorem config_load_spec (loads : String → Option Json) (str : String) (d : ServerData)
    (o : List (String × Json)) (hl : loads str = some (.object o))
    (h1 : d.ftp.wf) (h2 : d.tv.wf) (h3 : d.others.wf) :
    ∃ d2, config_load_from_string loads (some str) (some d) = .ok (BDIX_SUCCESS, some d2) ∧
      Appended d.ftp d2.ftp (config_urls (.object o) "ftp") ∧
      Appended d.tv d2.tv (config_urls (.object o) "tv") ∧
      Appended d.others d2.others (config_urls (.object o) "others") ∧
      d2.total_servers =
        ((d2.ftp.count + d2.tv.count) % SIZE_MOD + d2.others.count) % SIZE_MOD := by
  obtain ⟨c1, a1, b1⟩ := load_key_spec (.object o) "ftp" d.ftp h1
  obtain ⟨c2, a2, b2⟩ := load_key_spec (.object o) "tv" d.tv h2
  obtain ⟨c3, a3, b3⟩ := load_key_spec (.object o) "others" d.others h3
  refine ⟨{ ftp := c1, tv := c2, others := c3,
            total_servers := ((c1.count + c2.count) % SIZE_MOD + c3.count) % SIZE_MOD },
    ?_, b1, b2, b3, rfl⟩
  simp only [config_load_from_string, hl, json_is_object, Bool.true_eq_false, if_false, a1,
    a2, a3, server_data_count]

theorem valid_urls_replicate (n : Nat) (u : String) (hv : is_valid_url (some u) = true) :
    valid_urls (List.replicate n (.string u)) = List.replicate n u := by
  induction n with
  | zero => rfl
  | succ n ih =>
    rw [List.replicate_succ, List.replicate_succ, ← ih]
    simp [valid_urls, List.filterMap_cons, hv]

/-- C24, counterexample: data fresh from server_data_init and a configuration whose "ftp"
array holds 2001 valid URL strings: the load returns BDIX_SUCCESS with ftp.count = 2000
and total_servers = 2000, the last URL is not stored. -/
theorem config_load_drops_urls_beyond_limit :
    (server_data_init (some initData)).2 = some initData ∧
    (config_urls overfullConfig "ftp").length = 2001 ∧
    ∃ d2, config_load_from_string loadsOverfull (some overfullText) (some initData)
        = .ok (BDIX_SUCCESS, some d2) ∧
      d2.ftp.count = 2000 ∧ d2.total_servers = 2000 := by
  have hv : is_valid_url (some "http://10.0.0.1") = true := by decide
  have hu : config_urls overfullConfig "ftp" = List.replicate 2001 "http://10.0.0.1" := by
    have : json_object_get (some overfullConfig) "ftp"
        = some (.array (List.replicate 2001 (.string "http://10.0.0.1"))) := rfl
    rw [config_urls, this, json_array_elements, valid_urls_replicate _ _ hv]
  have ht : config_urls overfullConfig "tv" = [] := rfl
  have ho : config_urls overfullConfig "others" = [] := rfl
  have hl : loadsOverfull overfullText = some overfullConfig := by simp [loadsOverfull]
  obtain ⟨d2, e, a, b, c, tot⟩ := config_load_spec loadsOverfull overfullText initData _ hl
    (initCategory_wf _ _) (initCategory_wf _ _) (initCategory_wf _ _)
  have hcu : ∀ k, config_urls
      (.object [("ftp", .array (List.replicate 2001 (.string "http://10.0.0.1")))]) k
      = config_urls overfullConfig k := fun _ => rfl
  have e1 : d2.ftp.count = 2000 := by
    have := a.2.2.1
    rw [hcu, hu, List.length_replicate] at this
    exact this.trans (by decide)
  have e2 : d2.tv.count = 0 := by
    have := b.2.2.1
    rw [hcu, ht] at this
    exact this.trans (by decide)
  have e3 : d2.others.count = 0 := by
    have := c.2.2.1
    rw [hcu, ho] at this
    exact this.trans (by decide)
  refine ⟨rfl, by rw [hu, List.length_replicate], d2, e, e1, ?_⟩
  rw [tot, e1, e2, e3]
  decide

theorem appended_count_le (old new : ServerCategory) (l : List String)
    (h : Appended old new l) (hc : old.count ≤ MAX_SERVERS_PER_CATEGORY) :
    new.count ≤ MAX_SERVERS_PER_CATEGORY := by
  have := h.2.2.1
  omega

/-- C24, amended: when json_loads returns NULL, or a value that is not an object,
config_load_from_string returns BDIX_ERROR_JSON_PARSE (not BDIX_SUCCESS) and the data are
unchanged. When it returns an object and the three categories are well formed with at most
MAX_SERVERS_PER_CATEGORY entries, the load returns BDIX_SUCCESS and each category
(ftp, tv, others) holds its previous URLs followed, in array order, by those elements of
the array under its key that are strings and valid URLs, as far as the limit of
MAX_SERVERS_PER_CATEGORY = 2000 entries per category allows: valid URLs arriving when
count is 2000 are dropped; non-string, empty and invalid entries are skipped; and
total_servers = ftp.count + tv.count + others.count. -/
theorem config_load_appends_up_to_limit (loads : String → Option Json) (str : String)
    (d : ServerData) :
    (loads str = none →
      config_load_from_string loads (some str) (some d)
        = .ok (BDIX_ERROR_JSON_PARSE, some d)) ∧
    (∀ r, loads str = some r → json_is_object (some r) = false →
      config_load_from_string loads (some str) (some d)
        = .ok (BDIX_ERROR_JSON_PARSE, some d)) ∧
    BDIX_ERROR_JSON_PARSE ≠ BDIX_SUCCESS ∧
    (∀ o, loads str = some (.object o) → d.ftp.wf → d.tv.wf → d.others.wf →
      d.ftp.count ≤ MAX_SERVERS_PER_CATEGORY → d.tv.count ≤ MAX_SERVERS_PER_CATEGORY →
      d.others.count ≤ MAX_SERVERS_PER_CATEGORY →
      ∃ d2, config_load_from_string loads (some str) (some d)
          = .ok (BDIX_SUCCESS, some d2) ∧
        Appended d.ftp d2.ftp (config_urls (.object o) "ftp") ∧
        Appended d.tv d2.tv (config_urls (.object o) "tv") ∧
        Appended d.others d2.others (config_urls (.object o) "others") ∧
        d2.total_servers = d2.ftp.count + d2.tv.count + d2.others.count) := by
  refine ⟨?_, ?_, by decide, ?_⟩
  · intro h
    simp only [config_load_from_string, h]
  · intro r h hr
    simp only [config_load_from_string, h, hr, if_true]
  · intro o hl h1 h2 h3 c1 c2 c3
    obtain ⟨d2, e, a, b, c, tot⟩ := config_load_spec loads str d o hl h1 h2 h3
    refine ⟨d2, e, a, b, c, ?_⟩
    have k1 := appended_count_le _ _ _ a c1
    have k2 := appended_count_le _ _ _ b c2
    have k3 := appended_count_le _ _ _ c c3
    have hM : MAX_SERVERS_PER_CATEGORY = 2000 := rfl
    have hS : SIZE_MOD = 2 ^ 64 := rfl
    rw [tot, hS]
    rw [hM] at k1 k2 k3
    omega

/-- Witness of `config_load_appends_up_to_limit`: the load of
`test_config_load_string` into fresh data gives 2 FTP servers, 1 TV server, no others and
total_servers 3. -/
theorem config_load_appends_up_to_limit_witness :
    initData.ftp.wf ∧ initData.tv.wf ∧ initData.others.wf ∧
    loadsTest testConfigText = some testConfig ∧
    (∃ d2, config_load_from_string loadsTest (some testConfigText) (some initData)
        = .ok (BDIX_SUCCESS, some d2) ∧
      Appended initData.ftp d2.ftp (config_urls testConfig "ftp") ∧
      Appended initData.tv d2.tv (config_urls testConfig "tv") ∧
      Appended initData.others d2.others (config_urls testConfig "others") ∧
      d2.total_servers = d2.ftp.count + d2.tv.count + d2.others.count) ∧
    config_urls testConfig "ftp" = ["http://ftp1.com", "http://ftp2.com"] ∧
    config_urls testConfig "tv" = ["http://tv1.com"] ∧
    config_urls testConfig "others" = [] :=
  ⟨by decide, by decide, by decide, rfl,
    (config_load_appends_up_to_limit loadsTest testConfigText initData).2.2.2 _ rfl
      (by decide) (by decide) (by decide) (by decide) (by decide) (by decide),
    by decide, by decide, by decide⟩

/-! ## The pending counter -/

theorem worker_thread_queue (i : Nat) (p p2 : ThreadPool) (pc pc2 : WorkerPc) (ev : Event)
    (hw : worker_thread i p pc = some (p2, pc2, ev)) :
    (p2.work_queue = p.work_queue ∧ p2.pending_count = p.pending_count) ∨
    (∃ w, p.work_queue = w :: p2.work_queue ∧
      p2.pending_count = (p.pending_count + SIZE_MOD - 1) % SIZE_MOD) := by
  cases pc with
  | lock =>
    simp only [worker_thread] at hw
    split_ifs at hw
    simp only [Option.some.injEq, Prod.mk.injEq] at hw
    obtain ⟨rfl, _, _⟩ := hw
    exact Or.inl ⟨rfl, rfl⟩
  | waitLoop =>
    simp only [worker_thread] at hw
    split_ifs at hw
    all_goals
      simp only [Option.some.injEq, Prod.mk.injEq] at hw
      obtain ⟨rfl, _, _⟩ := hw
      exact Or.inl ⟨rfl, rfl⟩
  | condWait =>
    simp only [worker_thread, Option.some.injEq, Prod.mk.injEq] at hw
    obtain ⟨rfl, _, _⟩ := hw
    exact Or.inl ⟨rfl, rfl⟩
  | blocked => simp [worker_thread] at hw
  | woken =>
    simp only [worker_thread] at hw
    split_ifs at hw
    simp only [Option.some.injEq, Prod.mk.injEq] at hw
    obtain ⟨rfl, _, _⟩ := hw
    exact Or.inl ⟨rfl, rfl⟩
  | checkShutdown =>
    simp only [worker_thread] at hw
    split_ifs at hw
    all_goals
      simp only [Option.some.injEq, Prod.mk.injEq] at hw
      obtain ⟨rfl, _, _⟩ := hw
      exact Or.inl ⟨rfl, rfl⟩
  | dequeue =>
    simp only [worker_thread] at hw
    cases hq : p.work_queue with
    | nil =>
      simp only [hq, Option.some.injEq, Prod.mk.injEq] at hw
      obtain ⟨rfl, _, _⟩ := hw
      exact Or.inl ⟨hq, rfl⟩
    | cons w rest =>
      simp only [hq, Option.some.injEq, Prod.mk.injEq] at hw
      obtain ⟨rfl, _, _⟩ := hw
      exact Or.inr ⟨w, rfl, rfl⟩
  | unlock work =>
    cases work with
    | none =>
      simp only [worker_thread, Option.some.injEq, Prod.mk.injEq] at hw
      obtain ⟨rfl, _, _⟩ := hw
      exact Or.inl ⟨rfl, rfl⟩
    | some w =>
      simp only [worker_thread, Option.some.injEq, Prod.mk.injEq] at hw
      obtain ⟨rfl, _, _⟩ := hw
      exact Or.inl ⟨rfl, rfl⟩
  | incWorking w =>
    simp only [worker_thread, Option.some.injEq, Prod.mk.injEq] at hw
    obtain ⟨rfl, _, _⟩ := hw
    exact Or.inl ⟨rfl, rfl⟩
  | run w =>
    simp only [worker_thread, Option.some.injEq, Prod.mk.injEq] at hw
    obtain ⟨rfl, _, _⟩ := hw
    exact Or.inl ⟨rfl, rfl⟩
  | decWorking =>
    simp only [worker_thread, Option.some.injEq, Prod.mk.injEq] at hw
    obtain ⟨rfl, _, _⟩ := hw
    exact Or.inl ⟨rfl, rfl⟩
  | doneLock =>
    simp only [worker_thread] at hw
    split_ifs at hw
    simp only [Option.some.injEq, Prod.mk.injEq] at hw
    obtain ⟨rfl, _, _⟩ := hw
    exact Or.inl ⟨rfl, rfl⟩
  | doneSignal =>
    simp only [worker_thread, Option.some.injEq, Prod.mk.injEq] at hw
    obtain ⟨rfl, _, _⟩ := hw
    exact Or.inl ⟨rfl, rfl⟩
  | doneUnlock =>
    simp only [worker_thread, Option.some.injEq, Prod.mk.injEq] at hw
    obtain ⟨rfl, _, _⟩ := hw
    exact Or.inl ⟨rfl, rfl⟩
  | exited => simp [worker_thread] at hw

theorem client_step_queue (s s2 : Sys) (t : Nat) (hc : client_step s t = some s2) :
    (s2.pool.work_queue = s.pool.work_queue ∧ s2.pool.pending_count = s.pool.pending_count) ∨
    (∃ w, s2.pool.work_queue = s.pool.work_queue ++ [w] ∧
      s2.pool.pending_count = (s.pool.pending_count + 1) % SIZE_MOD) := by
  cases hcl : s.client <;> simp only [client_step, hcl, add_work_check] at hc
  all_goals (try split_ifs at hc with hb)
  all_goals (try simp only [Option.some.injEq] at hc)
  all_goals (try subst hc)
  all_goals (try exact absurd hc (by simp))
  all_goals first
    | exact Or.inl ⟨rfl, rfl⟩
    | exact Or.inr ⟨_, rfl, rfl⟩

/-- What one step of the system does to the queue and to `pending_count`: nothing, or an
enqueue with an increment, or a dequeue of the head with a decrement. -/
theorem step_queue (s s2 : Sys) (l : Label) (hs : Sys.step s l = some s2) :
    (s2.pool.work_queue = s.pool.work_queue ∧ s2.pool.pending_count = s.pool.pending_count) ∨
    (∃ w, s2.pool.work_queue = s.pool.work_queue ++ [w] ∧
      s2.pool.pending_count = (s.pool.pending_count + 1) % SIZE_MOD) ∨
    (∃ w, s.pool.work_queue = w :: s2.pool.work_queue ∧
      s2.pool.pending_count = (s.pool.pending_count + SIZE_MOD - 1) % SIZE_MOD) := by
  cases l with
  | worker i =>
    simp only [Sys.step] at hs
    cases hi : s.workers[i]? with
    | none => simp [hi] at hs
    | some pc =>
      simp only [hi] at hs
      cases hw : worker_thread i s.pool pc with
      | none => simp [hw] at hs
      | some r =>
        obtain ⟨p, pc2, ev⟩ := r
        simp only [hw, Option.some.injEq] at hs
        subst hs
        rw [Sys.apply_pool]
        rcases worker_thread_queue i s.pool p pc pc2 ev hw with h | h
        · exact Or.inl h
        · exact Or.inr (Or.inr h)
  | wake i =>
    simp only [Sys.step] at hs
    split_ifs at hs
    simp only [Option.some.injEq] at hs
    subst hs
    exact Or.inl ⟨rfl, rfl⟩
  | wakeClient =>
    simp only [Sys.step] at hs
    split_ifs at hs
    simp only [Option.some.injEq] at hs
    subst hs
    exact Or.inl ⟨rfl, rfl⟩
  | call_add_work f a =>
    simp only [Sys.step] at hs
    split_ifs at hs
    simp only [Option.some.injEq] at hs
    subst hs
    exact Or.inl ⟨rfl, rfl⟩
  | call_wait =>
    simp only [Sys.step] at hs
    split_ifs at hs
    simp only [Option.some.injEq] at hs
    subst hs
    exact Or.inl ⟨rfl, rfl⟩
  | call_destroy =>
    simp only [Sys.step] at hs
    split_ifs at hs
    simp only [Option.some.injEq] at hs
    subst hs
    exact Or.inl ⟨rfl, rfl⟩
  | client t =>
    rcases client_step_queue s s2 t hs with h | h
    · exact Or.inl h
    · exact Or.inr (Or.inl h)

theorem step_pending (s s2 : Sys) (l : Label) (hs : Sys.step s l = some s2)
    (h : s.pool.pending_count = s.pool.work_queue.length % SIZE_MOD) :
    s2.pool.pending_count = s2.pool.work_queue.length % SIZE_MOD := by
  have hS : SIZE_MOD = 18446744073709551616 := by decide
  rcases step_queue s s2 l hs with ⟨h1, h2⟩ | ⟨w, h1, h2⟩ | ⟨w, h1, h2⟩
  · rw [h1, h2, h]
  · rw [h1, h2, h, List.length_append, List.length_singleton, hS]
    omega
  · rw [h2, h, h1, List.length_cons, hS]
    omega

theorem run_pending (tr : List Label) :
    ∀ s s2 : Sys, Sys.run s tr = some s2 →
      s.pool.pending_count = s.pool.work_queue.length % SIZE_MOD →
      s2.pool.pending_count = s2.pool.work_queue.length % SIZE_MOD := by
  induction tr with
  | nil =>
    intro s s2 hr h
    simp only [Sys.run, Option.some.injEq] at hr
    subst hr
    exact h
  | cons l ls ih =>
    intro s s2 hr h
    simp only [Sys.run] at hr
    cases hs : Sys.step s l with
    | none => simp [hs] at hr
    | some s1 =>
      simp only [hs] at hr
      exact ih s1 s2 hr (step_pending s s1 l hs h)

/-- C25: in every state reachable from a created pool (the enqueue of lines 171-178 and
the dequeue of lines 40-47 are single steps, taken with the queue mutex held, so these are
the states that can be observed with the mutex free, and more), pending_count is the
number of work items in the queue (modulo 2^64, and exactly so for a queue of fewer than
2^64 nodes). Every step leaves the
queue and the counter alone, or appends one work item and adds 1 (the enqueue of
thread_pool_add_work), or removes the head and subtracts 1 (the dequeue of
worker_thread), and such a subtraction finds pending_count >= 1: it never wraps below
zero. -/
theorem pending_count_is_queue_length (env : PthreadEnv) (n k : Nat) (p : ThreadPool)
    (tr : List Label) (s : Sys)
    (hcr : thread_pool_create env n = { pool := some p, started := k })
    (hrun : Sys.run (Sys.init p) tr = some s) :
    s.pool.pending_count = s.pool.work_queue.length % SIZE_MOD ∧
    (s.pool.work_queue.length < 2 ^ 64 →
      s.pool.pending_count = s.pool.work_queue.length) ∧
    (∀ (l : Label) (s2 : Sys), Sys.step s l = some s2 →
      (s2.pool.work_queue = s.pool.work_queue ∧
        s2.pool.pending_count = s.pool.pending_count) ∨
      (∃ w, s2.pool.work_queue = s.pool.work_queue ++ [w] ∧
        s2.pool.pending_count = (s.pool.pending_count + 1) % SIZE_MOD) ∨
      (∃ w, s.pool.work_queue = w :: s2.pool.work_queue ∧
        (s.pool.work_queue.length < 2 ^ 64 →
          1 ≤ s.pool.pending_count ∧
          s2.pool.pending_count = s.pool.pending_count - 1))) := by
  obtain ⟨_, _, _, rfl⟩ := thread_pool_create_some env n k p hcr
  have hS : SIZE_MOD = 18446744073709551616 := by decide
  have h0 := run_pending tr _ s hrun (by simp [Sys.init])
  refine ⟨h0, ?_, ?_⟩
  · intro hl
    rw [h0, hS]
    omega
  · intro l s2 hs
    rcases step_queue s s2 l hs with h | h | ⟨w, h1, h2⟩
    · exact Or.inl h
    · exact Or.inr (Or.inl h)
    · refine Or.inr (Or.inr ⟨w, h1, ?_⟩)
      intro hl
      rw [h2, h0, h1, List.length_cons, hS]
      rw [h1, List.length_cons] at hl
      omega

/-- Witness of `pending_count_is_queue_length`: after three submissions and one dequeue,
with the mutex free, two work items are queued and pending_count is 2. -/
theorem pending_count_is_queue_length_witness :
    thread_pool_create pthreadOk 1 = { pool := some pool1, started := 1 } ∧
    Sys.run (Sys.init pool1) threeSubmittedUnlocked = some oneDequeuedUnlocked ∧
    oneDequeuedUnlocked.pool.queue_mutex = none ∧
    oneDequeuedUnlocked.pool.work_queue.length = 2 ∧
    oneDequeuedUnlocked.pool.pending_count
      = oneDequeuedUnlocked.pool.work_queue.length % SIZE_MOD :=
  ⟨by decide, by decide, rfl, rfl,
    (pending_count_is_queue_length pthreadOk 1 1 pool1 threeSubmittedUnlocked
      oneDequeuedUnlocked (by decide) (by decide)).1⟩

/-! ## Every submitted task is run once -/

theorem check_calls_length (n : Nat) : (check_calls n).length = n + 2 := by
  simp [check_calls]

theorem check_calls_get (n k : Nat) :
    (check_calls n)[k]? =
      if k < n then some (.call_add_work CHECK_WORKER k)
      else if k = n then some .call_wait
      else if k = n + 1 then some .call_destroy
      else none := by
  unfold check_calls
  by_cases h1 : k < n
  · rw [List.getElem?_append_left (by simpa using h1)]
    simp [h1, List.getElem?_range]
  · rw [List.getElem?_append_right (by simpa using h1)]
    simp only [List.length_map, List.length_range, h1, if_false]
    by_cases h2 : k = n
    · subst h2; simp
    · by_cases h3 : k = n + 1
      · subst h3; simp
      · simp only [h2, h3, if_false]
        have : 2 ≤ k - n := by omega
        rw [List.getElem?_eq_none]
        simpa using this

theorem check_tasks_take_succ (n k : Nat) (h : k < n) :
    (check_tasks n).take (k + 1)
      = (check_tasks n).take k ++ [{ function := CHECK_WORKER, arg := k }] := by
  have hl : k < (check_tasks n).length := by simpa [check_tasks] using h
  rw [List.take_succ, List.getElem?_eq_getElem hl]
  simp [check_tasks]

theorem check_tasks_take_ge (n k : Nat) (h : n ≤ k) :
    (check_tasks n).take k = check_tasks n :=
  List.take_of_length_le (by simpa [check_tasks] using h)

theorem check_tasks_function (n : Nat) (w : WorkItem) (h : w ∈ check_tasks n) :
    w.function = CHECK_WORKER := by
  simp only [check_tasks, List.mem_map, List.mem_range] at h
  obtain ⟨i, _, rfl⟩ := h
  rfl

theorem Sys.apply_client (s : Sys) (ev : Event) :
    (Sys.apply s ev).client.phase = s.client.phase ∧
    (Sys.apply s ev).client.checking = s.client.checking := by
  cases ev <;> simp only [Sys.apply, and_self]
  split_ifs with h
  · simp [h, ClientPc.phase, ClientPc.checking]
  · simp

/-- A step of a worker, or a wake-up, leaves the client where it is, the flag as it is and
an empty queue empty. -/
theorem step_other (s s2 : Sys) (l : Label) (hs : Sys.step s l = some s2)
    (hl : (∃ i, l = .worker i) ∨ (∃ i, l = .wake i) ∨ l = .wakeClient) :
    s2.client.phase = s.client.phase ∧ s2.client.checking = s.client.checking ∧
    s2.pool.shutdown = s.pool.shutdown ∧ s.accepts l = [] ∧
    (s.pool.work_queue = [] → s2.pool.work_queue = []) := by
  rcases hl with ⟨i, rfl⟩ | ⟨i, rfl⟩ | rfl
  · simp only [Sys.step] at hs
    cases hi : s.workers[i]? with
    | none => simp [hi] at hs
    | some pc =>
      simp only [hi] at hs
      cases hw : worker_thread i s.pool pc with
      | none => simp [hw] at hs
      | some r =>
        obtain ⟨p, pc2, ev⟩ := r
        simp only [hw, Option.some.injEq] at hs
        subst hs
        obtain ⟨_, f2, _⟩ := worker_thread_spec i s.pool p pc pc2 ev hw
        obtain ⟨c1, c2⟩ := Sys.apply_client { s with pool := p, workers := s.workers.set i pc2 } ev
        refine ⟨c1, c2, by rw [Sys.apply_pool]; exact f2, rfl, ?_⟩
        intro hq
        rw [Sys.apply_pool]
        rcases worker_thread_queue i s.pool p pc pc2 ev hw with ⟨q, _⟩ | ⟨w, q, _⟩
        · exact q.trans hq
        · rw [hq] at q
          cases q
  · simp only [Sys.step] at hs
    split_ifs at hs
    simp only [Option.some.injEq] at hs
    subst hs
    exact ⟨rfl, rfl, rfl, rfl, fun h => h⟩
  · simp only [Sys.step] at hs
    split_ifs at hs with hb
    simp only [Option.some.injEq] at hs
    subst hs
    exact ⟨by simp [hb, ClientPc.phase], by simp [hb, ClientPc.checking], rfl, rfl,
      fun h => h⟩

/-- What a step of the client inside an API function does. -/
theorem client_step_prog (s s2 : Sys) (t : Nat) (hc : client_step s t = some s2)
    (hchk : ∀ f a, s.client = .addCheck f a → f ≠ 0 ∧ s.pool.shutdown = false) :
    (s.client.phase = 1 → s2.client.phase ≤ 1) ∧
    (s.client.phase = 2 →
      s2.client.phase = 2 ∨ (s2.client.phase = 3 ∧ s.pool.pending_count = 0)) ∧
    (s.client.phase = 3 → s2.client.phase = 0) ∧
    (s.client.phase = 4 → s2.client.phase = 4) ∧
    s.client.phase ≠ 0 ∧
    (s.client.phase ≠ 4 → s2.pool.shutdown = s.pool.shutdown) ∧
    (s.client.phase ≠ 1 → s2.pool.work_queue = s.pool.work_queue) ∧
    s.accepts (.client t) ++ s2.client.checking = s.client.checking := by
  cases hcl : s.client with
  | addCheck f a =>
    obtain ⟨hf, hsd⟩ := hchk f a hcl
    simp only [client_step, hcl, add_work_check, hf, if_false, hsd, Bool.false_eq_true,
      Option.some.injEq] at hc
    subst hc
    simp [ClientPc.phase, ClientPc.checking, Sys.accepts, hcl, add_work_check, hf, hsd]
  | waitLoop =>
    simp only [client_step, hcl] at hc
    split_ifs at hc with hb
    · simp only [Option.some.injEq] at hc
      subst hc
      simp [ClientPc.phase, ClientPc.checking, Sys.accepts, hcl]
    · simp only [Option.some.injEq] at hc
      subst hc
      have hp : s.pool.pending_count = 0 := by
        simp only [thread_pool_wait_cond, Bool.or_eq_true, decide_eq_true_eq, not_or,
          not_lt, Nat.le_zero] at hb
        exact hb.1
      simp [ClientPc.phase, ClientPc.checking, Sys.accepts, hcl, hp]
  | _ =>
    simp only [client_step, hcl] at hc
    all_goals (try split_ifs at hc)
    all_goals (try simp only [Option.some.injEq] at hc)
    all_goals (try subst hc)
    all_goals (try exact absurd hc (by simp))
    all_goals simp [ClientPc.phase, ClientPc.checking, Sys.accepts, hcl, enqueue]

theorem prog_queue_length {n k : Nat} {s : Sys} (h : Prog n s k) :
    s.pool.work_queue.length ≤ n := by
  have e := congrArg List.length h.items
  simp only [List.length_append, List.length_take, check_tasks, List.length_map,
    List.length_range] at e
  omega

/-- One step of the pool during a run of `checker_check_category` keeps the invariant;
a call must be the next call of the program. -/
theorem prog_step (n : Nat) (hn : n < 2 ^ 64) {s s2 : Sys} {k : Nat} (h : Prog n s k)
    (l : Label) (hs : Sys.step s l = some s2)
    (hc : l.isCall = true → (check_calls n)[k]? = some l) :
    Prog n s2 (if l.isCall = true then k + 1 else k) := by
  have hpend := step_pending s s2 l hs h.pending
  have hacc := step_accepts s s2 l hs
  have hle := h.le
  have hother : ∀ l2 : Label, l2 = l →
      ((∃ i, l2 = .worker i) ∨ (∃ i, l2 = .wake i) ∨ l2 = .wakeClient) →
      Prog n s2 (if l.isCall = true then k + 1 else k) := by
    intro l2 e hl
    subst e
    obtain ⟨f1, f2, f3, f4, f5⟩ := step_other s s2 l2 hs hl
    have hcall : l2.isCall = false := by
      rcases hl with ⟨i, rfl⟩ | ⟨i, rfl⟩ | rfl <;> rfl
    simp only [hcall, Bool.false_eq_true, if_false]
    refine ⟨hle, hpend, ?_, ?_, ?_, ?_⟩
    · rw [hacc, f4, f2, List.append_nil]
      exact h.items
    · intro hk
      rw [f1, f3]
      exact h.adding hk
    · intro hk
      obtain ⟨a1, a2, a3⟩ := h.waiting hk
      rw [f1, f3]
      exact ⟨a1, a2, fun hp => f5 (a3 hp)⟩
    · intro hk
      obtain ⟨a1, a2⟩ := h.destroying hk
      rw [f1]
      exact ⟨a1, f5 a2⟩
  cases l with
  | worker i => exact hother _ rfl (Or.inl ⟨i, rfl⟩)
  | wake i => exact hother _ rfl (Or.inr (Or.inl ⟨i, rfl⟩))
  | wakeClient => exact hother _ rfl (Or.inr (Or.inr rfl))
  | call_add_work f a =>
    have hg := hc rfl
    rw [check_calls_get] at hg
    have h1 : k < n := by
      by_contra h1
      simp only [h1, if_false] at hg
      split_ifs at hg <;> cases hg
    simp only [h1, if_true, Option.some.injEq, Label.call_add_work.injEq] at hg
    obtain ⟨rfl, rfl⟩ := hg
    simp only [Sys.step] at hs
    split_ifs at hs with hb
    simp only [Option.some.injEq] at hs
    subst hs
    have hit := h.items
    simp only [hb, ClientPc.item, ClientPc.checking, Option.toList, List.append_nil] at hit
    simp only [Label.isCall, if_true]
    refine ⟨by omega, hpend, ?_, ?_, ?_, ?_⟩
    · simp only [ClientPc.item, ClientPc.checking, Option.toList, List.append_nil]
      rw [check_tasks_take_succ n k h1, hit]
    · intro _
      exact ⟨by simp [ClientPc.phase], (h.adding (by omega)).2⟩
    · intro hk; omega
    · intro hk; omega
  | call_wait =>
    have hg := hc rfl
    rw [check_calls_get] at hg
    split_ifs at hg with h1 h2 h3
    · cases hg
    · simp only [Sys.step] at hs
      split_ifs at hs with hb
      simp only [Option.some.injEq] at hs
      subst hs
      have hit := h.items
      simp only [hb, ClientPc.item, ClientPc.checking, Option.toList, List.append_nil] at hit
      simp only [Label.isCall, if_true]
      refine ⟨by omega, hpend, ?_, ?_, ?_, ?_⟩
      · simp only [ClientPc.item, ClientPc.checking, Option.toList, List.append_nil]
        rw [check_tasks_take_ge n (k + 1) (by omega), hit, check_tasks_take_ge n k (by omega)]
      · intro hk; omega
      · intro _
        exact ⟨Or.inr (Or.inl (by simp [ClientPc.phase])), (h.adding (by omega)).2,
          fun hp => absurd (by simp [ClientPc.phase]) hp⟩
      · intro hk; omega
    · cases hg
  | call_destroy =>
    have hg := hc rfl
    rw [check_calls_get] at hg
    split_ifs at hg with h1 h2 h3
    · cases hg
    · cases hg
    · simp only [Sys.step] at hs
      split_ifs at hs with hb
      simp only [Option.some.injEq] at hs
      subst hs
      have hit := h.items
      simp only [hb, ClientPc.item, ClientPc.checking, Option.toList, List.append_nil] at hit
      obtain ⟨_, _, a3⟩ := h.waiting h3
      have hq : s.pool.work_queue = [] := a3 (by simp [hb, ClientPc.phase])
      simp only [Label.isCall, if_true]
      refine ⟨by omega, hpend, ?_, ?_, ?_, ?_⟩
      · simp only [ClientPc.item, ClientPc.checking, Option.toList, List.append_nil]
        rw [check_tasks_take_ge n _ (by omega), hit, check_tasks_take_ge n _ (by omega)]
      · intro hk; omega
      · intro hk; omega
      · intro _
        exact ⟨by simp [ClientPc.phase], hq⟩
  | client t =>
    have hcs : client_step s t = some s2 := hs
    have hchk : ∀ f a, s.client = .addCheck f a → f ≠ 0 ∧ s.pool.shutdown = false := by
      intro f a hcl
      have hit := h.items
      simp only [hcl, ClientPc.item, ClientPc.checking, Option.toList, List.append_nil] at hit
      have hm : ({ function := f, arg := a } : WorkItem) ∈ (check_tasks n).take k := by
        rw [← hit]
        simp
      have hf := check_tasks_function n _ (List.mem_of_mem_take hm)
      have hk : k ≤ n := by
        by_contra hk
        have : k = n + 1 ∨ k = n + 2 := by omega
        rcases this with e | e
        · have := (h.waiting e).1
          simp [hcl, ClientPc.phase] at this
        · have := (h.destroying e).1
          simp [hcl, ClientPc.phase] at this
      refine ⟨?_, (h.adding hk).2⟩
      simp only at hf
      rw [hf]
      decide
    obtain ⟨p1, p2, p3, p4, p0, psd, pq, pit⟩ := client_step_prog s s2 t hcs hchk
    simp only [Label.isCall, Bool.false_eq_true, if_false]
    refine ⟨hle, hpend, ?_, ?_, ?_, ?_⟩
    · rw [hacc, List.append_assoc, pit]
      exact h.items
    · intro hk
      obtain ⟨a1, a2⟩ := h.adding hk
      have e1 : s.client.phase = 1 := by omega
      exact ⟨p1 e1, by rw [psd (by omega)]; exact a2⟩
    · intro hk
      obtain ⟨a1, a2, a3⟩ := h.waiting hk
      have hsd : s2.pool.shutdown = false := by
        rw [psd (by omega)]; exact a2
      rcases a1 with a1 | a1 | a1
      · exact absurd a1 p0
      · rcases p2 a1 with b | ⟨b, hz⟩
        · exact ⟨Or.inr (Or.inl b), hsd, fun hp => absurd b hp⟩
        · refine ⟨Or.inr (Or.inr b), hsd, fun _ => ?_⟩
          rw [pq (by omega)]
          have hlen := prog_queue_length h
          have hp := h.pending
          rw [hz] at hp
          have hS : SIZE_MOD = 18446744073709551616 := by decide
          rw [hS] at hp
          have : s.pool.work_queue.length = 0 := by omega
          exact List.length_eq_zero.1 this
      · refine ⟨Or.inl (p3 a1), hsd, fun _ => ?_⟩
        rw [pq (by omega)]
        exact a3 (by omega)
    · intro hk
      obtain ⟨a1, a2⟩ := h.destroying hk
      exact ⟨p4 a1, by rw [pq (by omega)]; exact a2⟩

/-- The invariant holds at the end of a schedule whose calls are the remaining calls of
the program. -/
theorem prog_run (n : Nat) (hn : n < 2 ^ 64) (tr : List Label) :
    ∀ (s s2 : Sys) (k : Nat), Prog n s k → Sys.run s tr = some s2 →
      tr.filter Label.isCall = (check_calls n).drop k → Prog n s2 (n + 2) := by
  induction tr with
  | nil =>
    intro s s2 k h hr hf
    simp only [Sys.run, Option.some.injEq] at hr
    subst hr
    simp only [List.filter_nil] at hf
    have hk : (check_calls n).length ≤ k := List.drop_eq_nil_iff.1 hf.symm
    rw [check_calls_length] at hk
    have hle := h.le
    have e : k = n + 2 := by omega
    rw [← e]
    exact h
  | cons l ls ih =>
    intro s s2 k h hr hf
    simp only [Sys.run] at hr
    cases hstep : Sys.step s l with
    | none => simp [hstep] at hr
    | some s1 =>
      simp only [hstep] at hr
      by_cases hcall : l.isCall = true
      · simp only [List.filter_cons, hcall, if_true] at hf
        have hk : k < (check_calls n).length := by
          by_contra hk
          rw [List.drop_eq_nil_of_le (by omega)] at hf
          cases hf
        rw [List.drop_eq_getElem_cons hk] at hf
        simp only [List.cons.injEq] at hf
        obtain ⟨hl, hrest⟩ := hf
        have hg : (check_calls n)[k]? = some l := by
          rw [List.getElem?_eq_getElem hk, hl]
        have h1 := prog_step n hn h l hstep (fun _ => hg)
        simp only [hcall, if_true] at h1
        exact ih s1 s2 (k + 1) h1 hr hrest
      · have hcall2 : l.isCall = false := by simpa using hcall
        simp only [List.filter_cons, hcall2, Bool.false_eq_true, if_false] at hf
        have h1 := prog_step n hn h l hstep (fun hc => absurd hc hcall)
        simp only [hcall2, Bool.false_eq_true, if_false] at h1
        exact ih s1 s2 k h1 hr hf

theorem prog_init (n m : Nat) :
    Prog n (Sys.init
      { thread_count := m, work_queue := [], queue_mutex := none, working_count := 0,
        pending_count := 0, shutdown := false }) 0 :=
  ⟨Nat.zero_le _, by simp [Sys.init], by simp [Sys.init, ClientPc.item, ClientPc.checking],
    fun _ => by simp [Sys.init, ClientPc.phase], fun h => by omega, fun h => by omega⟩

/-- Every submitted task is run exactly once: along any schedule of the pool on which the
client makes the calls of `checker_check_category` for `n` servers and
`thread_pool_destroy` returns, the tasks run by the workers are the `n` tasks submitted,
each once, in some order. -/
theorem pool_order_perm (env : PthreadEnv) (m : Nat) (pool : ThreadPool) (n : Nat)
    (tr : List Label) (order : List Nat) (hn : n < 2 ^ 64)
    (hp : (thread_pool_create env m).pool = some pool)
    (hr : pool_order pool n tr = some order) :
    order.Perm (List.range n) := by
  have hcr : thread_pool_create env m = { pool := some pool, started := m } := by
    unfold thread_pool_create at hp ⊢
    split_ifs at hp ⊢ with h1 h2 h3 h4
    all_goals first
      | (simp at hp; done)
      | (cases hf : (List.range m).find? (fun i => env.create_ok i = false) with
         | some i => rw [hf] at hp; simp at hp
         | none => rw [hf] at hp; simp only [Option.some.injEq] at hp; rw [← hp])
  obtain ⟨_, _, _, hpool⟩ := thread_pool_create_some env m m pool hcr
  have hinv0 := Inv.init env m m pool hcr
  unfold pool_order at hr
  split_ifs at hr with hcalls
  cases hrun : Sys.run (Sys.init pool) tr with
  | none => simp [hrun] at hr
  | some s =>
    simp only [hrun] at hr
    split_ifs at hr with hd
    simp only [Option.some.injEq] at hr
    subst hr
    have hinv := Inv.run hinv0 tr s hrun
    have hprog : Prog n s (n + 2) := by
      have h0 : Prog n (Sys.init pool) 0 := by
        rw [hpool]
        exact prog_init n m
      exact prog_run n hn tr (Sys.init pool) s 0 h0 hrun (by simpa using hcalls)
    have hq := (hprog.destroying rfl).2
    have hitems := hprog.items
    simp only [hq, hd, ClientPc.item, ClientPc.checking, Option.toList, List.append_nil,
      check_tasks_take_ge n (n + 2) (by omega)] at hitems
    have hall : ∀ pc ∈ s.workers, pc = .exited := by
      intro pc hpc
      obtain ⟨j, hj, rfl⟩ := List.getElem_of_mem hpc
      have := hinv.joined j (by
        simp only [hd, ClientPc.joined]
        rw [← hinv.len]
        exact hj)
      rw [List.getElem?_eq_getElem hj] at this
      exact Option.some.inj this
    have hun := unfinishedItems_of_all_exited s.workers hall
    have hh := hinv.hist
    rw [hun, List.append_nil, hitems] at hh
    have hm : (check_tasks n).map (fun w => w.arg) = List.range n := by
      unfold check_tasks
      rw [List.map_map]
      exact List.map_id _
    rw [← hm]
    exact hh.map (fun w => w.arg)

/-! ## The sequential schedule is a complete run -/

theorem run_append (a : List Label) : ∀ (s : Sys) (b : List Label),
    Sys.run s (a ++ b) = (Sys.run s a).bind (fun s2 => Sys.run s2 b) := by
  induction a with
  | nil => intro s b; rfl
  | cons l ls ih =>
    intro s b
    simp only [List.cons_append, Sys.run]
    cases Sys.step s l with
    | none => rfl
    | some s1 => exact ih s1 b

theorem run_addSteps (m : Nat) (q deq ex : List WorkItem) (ret : List Returned) (i : Nat)
    (hq : q.length + 1 < 2 ^ 64) :
    Sys.run (idleSys (m + 1) q deq ex ret) (addSteps i)
      = some (idleSys (m + 1) (q ++ [{ function := CHECK_WORKER, arg := i }]) deq ex
          (ret ++ [.add_work BDIX_SUCCESS])) := by
  have hS : SIZE_MOD = 2 ^ 64 := rfl
  have hmod : (q.length + 1) % SIZE_MOD = q.length + 1 := by
    rw [hS]
    exact Nat.mod_eq_of_lt hq
  simp [idleSys, addSteps, Sys.run, Sys.step, client_step, add_work_check, enqueue,
    CHECK_WORKER, List.replicate_succ, hmod]

theorem run_taskSteps (m : Nat) (w : WorkItem) (q deq ex : List WorkItem)
    (ret : List Returned) (hw : w.function ≠ 0) (hq : q.length + 1 < 2 ^ 64) :
    Sys.run (idleSys (m + 1) (w :: q) deq ex ret) taskSteps
      = some (idleSys (m + 1) q (deq ++ [w]) (ex ++ [w]) ret) := by
  have hS : SIZE_MOD = 2 ^ 64 := rfl
  have h1 : (q.length + 1 + SIZE_MOD - 1) % SIZE_MOD = q.length := by
    rw [hS]
    have : q.length + 1 + 2 ^ 64 - 1 = q.length + 2 ^ 64 := by omega
    rw [this, Nat.add_mod_right]
    exact Nat.mod_eq_of_lt (by omega)
  have h2 : (1 % SIZE_MOD + SIZE_MOD - 1) % SIZE_MOD = 0 := by decide
  have h3 : q.length % SIZE_MOD = q.length := by
    rw [hS]
    exact Nat.mod_eq_of_lt (by omega)
  simp [idleSys, taskSteps, Sys.run, Sys.step, worker_thread, Sys.apply,
    List.replicate_succ, hw, h1, h2, h3]

theorem check_tasks_succ (n : Nat) :
    check_tasks (n + 1) = check_tasks n ++ [{ function := CHECK_WORKER, arg := n }] := by
  simp [check_tasks, List.range_succ]

theorem run_submitSteps (m : Nat) (n : Nat) (hn : n < 2 ^ 64) :
    ∃ ret, Sys.run (idleSys (m + 1) [] [] [] []) (submitSteps n)
      = some (idleSys (m + 1) (check_tasks n) [] [] ret) := by
  induction n with
  | zero => exact ⟨[], rfl⟩
  | succ n ih =>
    obtain ⟨ret, h⟩ := ih (by omega)
    refine ⟨ret ++ [.add_work BDIX_SUCCESS], ?_⟩
    have hl : (check_tasks n).length + 1 < 2 ^ 64 := by
      simp only [check_tasks, List.length_map, List.length_range]
      omega
    rw [submitSteps, run_append, h, Option.some_bind, run_addSteps m _ _ _ _ n hl,
      check_tasks_succ]

theorem run_workSteps (m : Nat) (q : List WorkItem) :
    ∀ (deq ex : List WorkItem) (ret : List Returned), (∀ w ∈ q, w.function ≠ 0) →
      q.length < 2 ^ 64 →
      Sys.run (idleSys (m + 1) q deq ex ret) (workSteps q.length)
        = some (idleSys (m + 1) [] (deq ++ q) (ex ++ q) ret) := by
  induction q with
  | nil =>
    intro deq ex ret _ _
    simp [workSteps, Sys.run]
  | cons w q ih =>
    intro deq ex ret hf hl
    have hl2 : q.length + 1 < 2 ^ 64 := by simpa using hl
    rw [List.length_cons, workSteps, run_append,
      run_taskSteps m w q deq ex ret (hf w (List.mem_cons_self w q)) hl2, Option.some_bind,
      ih (deq ++ [w]) (ex ++ [w]) ret (fun x hx => hf x (List.mem_cons_of_mem w hx))
        (by omega)]
    simp

theorem run_waitSteps (m : Nat) (deq ex : List WorkItem) (ret : List Returned) :
    Sys.run (idleSys (m + 1) [] deq ex ret) [.call_wait, .client 0, .client 0, .client 0]
      = some (idleSys (m + 1) [] deq ex (ret ++ [.wait BDIX_SUCCESS])) := by
  simp [idleSys, Sys.run, Sys.step, client_step, thread_pool_wait_cond]

theorem wakeAll_replicate_lock (m : Nat) :
    wakeAll (List.replicate m WorkerPc.lock) = List.replicate m WorkerPc.lock := by
  simp [wakeAll]

theorem run_destroySteps (m : Nat) (deq ex : List WorkItem) (ret : List Returned) :
    Sys.run (idleSys m [] deq ex ret)
        [.call_destroy, .client 0, .client 0, .client 0, .client 0]
      = some (leavingSys m 0 deq ex ret (.destroyJoin 0)) := by
  simp [idleSys, leavingSys, Sys.run, Sys.step, client_step, wakeAll_replicate_lock]

theorem replicate_append_get (g : Nat) (a b : WorkerPc) (rest : List WorkerPc) :
    (List.replicate g a ++ b :: rest)[g]? = some b := by
  induction g with
  | zero => simp
  | succ g ih => simpa [List.replicate_succ] using ih

theorem replicate_append_set (g : Nat) (a b c : WorkerPc) (rest : List WorkerPc) :
    (List.replicate g a ++ b :: rest).set g c = List.replicate g a ++ c :: rest := by
  induction g with
  | zero => rfl
  | succ g ih => simp [List.replicate_succ, ih]

theorem run_exit_one (m g : Nat) (hg : g < m) (deq ex : List WorkItem)
    (ret : List Returned) (c : ClientPc) :
    Sys.run (leavingSys m g deq ex ret c) [.worker g, .worker g, .worker g]
      = some (leavingSys m (g + 1) deq ex ret c) := by
  have hm : m - g = (m - (g + 1)) + 1 := by omega
  have hr : List.replicate (g + 1) WorkerPc.exited
      = List.replicate g WorkerPc.exited ++ [WorkerPc.exited] := List.replicate_succ' g _
  simp only [leavingSys, hm, hr, List.replicate_succ, List.append_assoc,
    List.singleton_append]
  simp only [Sys.run, Sys.step, replicate_append_get, worker_thread, Sys.apply,
    replicate_append_set, if_true, and_true, List.nil_eq, reduceCtorEq, and_false, if_false]

theorem run_exitSteps (m : Nat) (deq ex : List WorkItem) (ret : List Returned)
    (c : ClientPc) (k : Nat) (hk : k ≤ m) :
    Sys.run (leavingSys m 0 deq ex ret c) (exitSteps k)
      = some (leavingSys m k deq ex ret c) := by
  induction k with
  | zero => rfl
  | succ k ih =>
    rw [exitSteps, run_append, ih (by omega), Option.some_bind,
      run_exit_one m k (by omega)]

theorem run_joinSteps (m : Nat) (deq ex : List WorkItem) (ret : List Returned) (d : Nat) :
    ∀ i, i + d = m →
      Sys.run (leavingSys m m deq ex ret (.destroyJoin i)) (clientSteps d)
        = some (leavingSys m m deq ex ret (.destroyJoin m)) := by
  induction d with
  | zero =>
    intro i hi
    have : i = m := by omega
    subst this
    rfl
  | succ d ih =>
    intro i hi
    have him : i < m := by omega
    have hstep : Sys.step (leavingSys m m deq ex ret (.destroyJoin i)) (.client 0)
        = some (leavingSys m m deq ex ret (.destroyJoin (i + 1))) := by
      have hw : (List.replicate m WorkerPc.exited)[i]? = some .exited := by
        simp [List.getElem?_replicate, him]
      simp [leavingSys, Sys.step, client_step, him, hw]
    simp only [clientSteps, List.replicate_succ, Sys.run, hstep]
    exact ih (i + 1) (by omega)

theorem run_drainSteps (m : Nat) (deq ex : List WorkItem) (ret : List Returned) :
    Sys.run (leavingSys m m deq ex ret (.destroyJoin m)) (clientSteps 4)
      = some (leavingSys m m deq ex (ret ++ [.destroy]) .destroyed) := by
  simp [leavingSys, clientSteps, Sys.run, Sys.step, client_step, List.replicate_succ]

theorem filter_submitSteps (n : Nat) :
    (submitSteps n).filter Label.isCall
      = (List.range n).map (fun i => Label.call_add_work CHECK_WORKER i) := by
  induction n with
  | zero => rfl
  | succ n ih =>
    rw [submitSteps, List.filter_append, ih, List.range_succ, List.map_append]
    rfl

theorem filter_workSteps (n : Nat) : (workSteps n).filter Label.isCall = [] := by
  induction n with
  | zero => rfl
  | succ n ih =>
    rw [workSteps, List.filter_append, ih]
    rfl

theorem filter_exitSteps (m : Nat) : (exitSteps m).filter Label.isCall = [] := by
  induction m with
  | zero => rfl
  | succ m ih =>
    rw [exitSteps, List.filter_append, ih]
    rfl

theorem filter_clientSteps (k : Nat) : (clientSteps k).filter Label.isCall = [] := by
  induction k with
  | zero => rfl
  | succ k ih =>
    rw [clientSteps, List.replicate_succ, List.filter_cons]
    exact ih

theorem filter_sequentialSchedule (m n : Nat) :
    (sequentialSchedule m n).filter Label.isCall = check_calls n := by
  simp only [sequentialSchedule, List.filter_append, filter_submitSteps, filter_workSteps,
    filter_exitSteps, filter_clientSteps, check_calls, List.append_nil]
  rw [List.append_assoc]
  rfl

/-- The sequential schedule is a complete run of `checker_check_category` on a pool of
`m ≥ 1` workers for `n` servers, and on it the tasks run in the order `0, 1, .., n-1`. -/
theorem sequentialSchedule_complete (m n : Nat) (hm : 1 ≤ m) (hn : n < 2 ^ 64) :
    pool_order { thread_count := m, work_queue := [], queue_mutex := none,
                 working_count := 0, pending_count := 0, shutdown := false } n
      (sequentialSchedule m n) = some (List.range n) := by
  obtain ⟨k, rfl⟩ : ∃ k, m = k + 1 := ⟨m - 1, by omega⟩
  have hlen : (check_tasks n).length = n := by simp [check_tasks]
  obtain ⟨ret, h1⟩ := run_submitSteps k n hn
  have h2 := run_workSteps k (check_tasks n) [] [] ret
    (fun w hw => by rw [check_tasks_function n w hw]; decide) (by omega)
  rw [hlen, List.nil_append] at h2
  have h3 := run_waitSteps k (check_tasks n) (check_tasks n) ret
  have h4 := run_destroySteps (k + 1) (check_tasks n) (check_tasks n)
    (ret ++ [.wait BDIX_SUCCESS])
  have h5 := run_exitSteps (k + 1) (check_tasks n) (check_tasks n)
    (ret ++ [.wait BDIX_SUCCESS]) (.destroyJoin 0) (k + 1) (Nat.le_refl _)
  have h6 := run_joinSteps (k + 1) (check_tasks n) (check_tasks n)
    (ret ++ [.wait BDIX_SUCCESS]) (k + 1) 0 (by omega)
  have h7 := run_drainSteps (k + 1) (check_tasks n) (check_tasks n)
    (ret ++ [.wait BDIX_SUCCESS])
  have hc : clientSteps (k + 1 + 4) = clientSteps (k + 1) ++ clientSteps 4 := by
    simp only [clientSteps, List.replicate_add]
  have hrun : Sys.run (idleSys (k + 1) [] [] [] []) (sequentialSchedule (k + 1) n)
      = some (leavingSys (k + 1) (k + 1) (check_tasks n) (check_tasks n)
          (ret ++ [.wait BDIX_SUCCESS] ++ [.destroy]) .destroyed) := by
    simp only [sequentialSchedule, hc, run_append, h1, h2, h3, h4, h5, h6, h7,
      Option.some_bind]
  have hm2 : (check_tasks n).map (fun w => w.arg) = List.range n := by
    unfold check_tasks
    rw [List.map_map]
    exact List.map_id _
  unfold pool_order
  rw [if_pos (filter_sequentialSchedule (k + 1) n)]
  have hinit : ∀ p : ThreadPool,
      p = { thread_count := k + 1, work_queue := [], queue_mutex := none,
            working_count := 0, pending_count := 0, shutdown := false } →
      Sys.init p = idleSys (k + 1) [] [] [] [] := fun p hp => by rw [hp]; rfl
  rw [hinit _ rfl, hrun]
  simp only [leavingSys, if_true, hm2]

/-- A complete run exists for every pool that `thread_pool_create` returns and every
number of servers below `2^64`. -/
theorem pool_order_exists (env : PthreadEnv) (m : Nat) (pool : ThreadPool) (n : Nat)
    (hn : n < 2 ^ 64) (hp : (thread_pool_create env m).pool = some pool) :
    pool_order pool n (sequentialSchedule m n) = some (List.range n) := by
  have hcr : thread_pool_create env m = { pool := some pool, started := m } := by
    unfold thread_pool_create at hp ⊢
    split_ifs at hp ⊢ with h1 h2 h3 h4
    all_goals first
      | (simp at hp; done)
      | (cases hf : (List.range m).find? (fun i => env.create_ok i = false) with
         | some i => rw [hf] at hp; simp at hp
         | none => rw [hf] at hp; simp only [Option.some.injEq] at hp; rw [← hp])
  obtain ⟨h1, _, _, hpool⟩ := thread_pool_create_some env m m pool hcr
  rw [hpool]
  exact sequentialSchedule_complete m n h1 hn

/-! ## Checks: one task per server -/

theorem check_worker_task (pr : Probe) (cat : ServerCategory) (cfg : CheckerConfig)
    (stats : Option CheckerStats) (i : Nat) (st : CheckState) (sv : Server)
    (hs : st.servers[i]? = some sv) :
    (check_worker pr (some (make_work cat cfg stats i)) st).servers
        = st.servers.set i (checked_server pr cfg sv) ∧
    (check_worker pr (some (make_work cat cfg stats i)) st).reports
        = st.reports ++ [{ server := checked_server pr cfg sv, category := cat.name,
                           current := (i + 1) % SIZE_MOD, total := cat.count,
                           show_only_ok := !cfg.verbose }] := by
  simp [check_worker, make_work, hs, checked_server]

/-- The tasks of a category run once each, in any order: every server named in `order`
is replaced by its checked version and one report per task is appended. -/
theorem run_tasks_spec (probe : Nat → Probe) (cat : ServerCategory) (cfg : CheckerConfig)
    (stats : Option CheckerStats) (order : List Nat) :
    ∀ st : CheckState, order.Nodup → (∀ i ∈ order, i < cat.count) →
      cat.count ≤ st.servers.length →
      (run_tasks probe ((List.range cat.count).map (make_work cat cfg stats)) order
          st).servers.length = st.servers.length ∧
      (∀ j, (run_tasks probe ((List.range cat.count).map (make_work cat cfg stats)) order
          st).servers[j]? =
        if j ∈ order then st.servers[j]?.map (checked_server (probe j) cfg)
        else st.servers[j]?) ∧
      (run_tasks probe ((List.range cat.count).map (make_work cat cfg stats)) order
          st).reports =
        st.reports ++ order.map (fun i =>
          { server := checked_server (probe i) cfg (st.servers.getD i zeroServer)
            category := cat.name, current := (i + 1) % SIZE_MOD, total := cat.count
            show_only_ok := !cfg.verbose }) := by
  induction order with
  | nil => intro st _ _ _; simp [run_tasks]
  | cons i rest ih =>
    intro st hnd hlt hlen
    have hi : i < cat.count := hlt i (List.mem_cons_self i rest)
    have hil : i < st.servers.length := by omega
    have hs : st.servers[i]? = some st.servers[i] := List.getElem?_eq_getElem hil
    have ht : ((List.range cat.count).map (make_work cat cfg stats))[i]?
        = some (make_work cat cfg stats i) := by
      simp [List.getElem?_map, List.getElem?_range hi]
    obtain ⟨w1, w2⟩ := check_worker_task (probe i) cat cfg stats i st _ hs
    rw [List.nodup_cons] at hnd
    obtain ⟨hni, hnd2⟩ := hnd
    have hstep : run_tasks probe ((List.range cat.count).map (make_work cat cfg stats))
        (i :: rest) st =
        run_tasks probe ((List.range cat.count).map (make_work cat cfg stats)) rest
          (check_worker (probe i) (some (make_work cat cfg stats i)) st) := by
      simp only [run_tasks, List.foldl_cons, ht]
    obtain ⟨a1, a2, a3⟩ := ih (check_worker (probe i) (some (make_work cat cfg stats i)) st)
      hnd2 (fun j hj => hlt j (List.mem_cons_of_mem i hj))
      (by rw [w1, List.length_set]; exact hlen)
    rw [hstep]
    refine ⟨?_, ?_, ?_⟩
    · rw [a1, w1, List.length_set]
    · intro j
      rw [a2 j, w1]
      by_cases hj : j = i
      · subst hj
        simp [hni, hs, hil]
      · have hji : i ≠ j := fun h => hj h.symm
        simp only [List.mem_cons, hj, false_or]
        rw [List.getElem?_set_ne hji]
    · rw [a3, w2, List.map_cons, List.append_assoc, List.singleton_append]
      have hd : st.servers.getD i zeroServer = st.servers[i] := by
        simp [List.getD_eq_getElem?_getD, hs]
      rw [hd]
      congr 2
      apply List.map_congr_left
      intro j hj
      have hji : i ≠ j := fun h => hni (h ▸ hj)
      have : (check_worker (probe i) (some (make_work cat cfg stats i)) st).servers.getD j
          zeroServer = st.servers.getD j zeroServer := by
        rw [w1, List.getD_eq_getElem?_getD, List.getElem?_set_ne hji,
          ← List.getD_eq_getElem?_getD]
      rw [this]

/-- The server after its check, spelled out: untouched when the probe gets no handle,
otherwise with the four result fields stored by `server_update_status`. -/
theorem checked_server_eq (pr : Probe) (cfg : CheckerConfig) (sv : Server) :
    (pr.handle = false → checked_server pr cfg sv = sv) ∧
    (pr.handle = true → checked_server pr cfg sv =
      { sv with status := classify_status pr.res pr.response_code
                latency_ms := Double.sub pr.end_time pr.start_time
                response_code := pr.response_code
                last_checked := pr.now }) := by
  constructor
  · intro h
    simp [checked_server, checker_check_server, h]
  · intro h
    simp [checked_server, checker_check_server, server_update_status, h]

/-- What `checker_check_category` does on a category that is not empty when the pool is
created and the workers run each submitted task once. -/
theorem check_category_run (env : CheckEnv) (cat : ServerCategory) (cfg : CheckerConfig)
    (tc : Int) (stats : Option CheckerStats) (pool : ThreadPool) (h0 : cat.count > 0)
    (hlen : cat.count ≤ cat.servers.length) (hsz : cat.count < 2 ^ 64)
    (hc : (thread_pool_create (env.pthread cat.type) (size_t_of_int tc)).pool = some pool)
    (hperm : (env.order cat.type).Perm (List.range cat.count)) :
    ∃ c2, (checker_check_category env (some cat) (some cfg) tc stats).category = some c2 ∧
      (checker_check_category env (some cat) (some cfg) tc stats).submitted
        = (List.range cat.count).map (make_work cat cfg stats) ∧
      (checker_check_category env (some cat) (some cfg) tc stats).reports
        = (env.order cat.type).map (report_for env cat cfg) ∧
      c2.count = cat.count ∧
      ∀ i, i < cat.count →
        c2.servers[i]? = some (report_for env cat cfg i).server := by
  have h1 : cat.count ≠ 0 := by omega
  have hsd := (thread_pool_create_shutdown _ _ _ hc).1
  obtain ⟨_, s2⟩ := submit_work_ok ((List.range cat.count).map (make_work cat cfg stats))
    pool [] hsd
  rw [List.nil_append] at s2
  have hnd : (env.order cat.type).Nodup := hperm.nodup_iff.2 (List.nodup_range _)
  have hmem : ∀ i ∈ env.order cat.type, i < cat.count := fun i hi =>
    List.mem_range.1 (hperm.mem_iff.1 hi)
  obtain ⟨r1, r2, r3⟩ := run_tasks_spec (env.probe cat.type) cat cfg stats
    (env.order cat.type) { servers := cat.servers, stats := stats, reports := [] }
    hnd hmem hlen
  simp only [checker_check_category, h1, if_false, hc, s2]
  refine ⟨_, rfl, trivial, ?_, rfl, ?_⟩
  · rw [r3, List.nil_append]
    apply List.map_congr_left
    intro i hi
    have : (i + 1) % SIZE_MOD = i + 1 := by
      apply Nat.mod_eq_of_lt
      have := hmem i hi
      have hS : SIZE_MOD = 2 ^ 64 := rfl
      rw [hS]
      omega
    simp only [report_for, this]
  · intro i hi
    have him : i ∈ env.order cat.type := hperm.mem_iff.2 (List.mem_range.2 hi)
    have hil : i < cat.servers.length := by omega
    simp only
    rw [r2 i, if_pos him]
    simp [report_for, List.getD_eq_getElem?_getD, List.getElem?_eq_getElem hil]

/-- C21: for every category with count = n > 0 (n servers in the array, n < 2^64) for
which thread_pool_create returns a pool, checker_check_category returns BDIX_SUCCESS and
submits exactly n tasks, the i-th (0 <= i < n) referring to servers[i] with index i and
total n. Let the workers run the tasks in the order of any schedule of the pool on which
the client makes these n calls of thread_pool_add_work, then thread_pool_wait and
thread_pool_destroy, and thread_pool_destroy returns (such schedules exist: on one of them
the tasks run in the order 0, 1, .., n-1). Then that order is a permutation of
0..n-1 (every task is run exactly once), ui_print_check_result is called n times, each
position i + 1 (1 <= i + 1 <= n) occurs exactly once among the calls, positions are
distinct, and the call with position i + 1 carries total n, the name of the category and
servers[i] as its check left it: unchanged when the probe got no handle, otherwise with
the status for the transfer result and response code, the latency end - start, the
response code and the time of the check; the same server is in servers[i] afterwards. -/
theorem check_category_one_task_per_server (env : CheckEnv) (cat : ServerCategory)
    (cfg : CheckerConfig) (tc : Int) (stats : Option CheckerStats) (pool : ThreadPool)
    (tr : List Label) (h0 : cat.count > 0)
    (hlen : cat.count ≤ cat.servers.length) (hsz : cat.count < 2 ^ 64)
    (hp : (thread_pool_create (env.pthread cat.type) (size_t_of_int tc)).pool = some pool)
    (hrun : pool_order pool cat.count tr = some (env.order cat.type)) :
    (checker_check_category env (some cat) (some cfg) tc stats).ret = some BDIX_SUCCESS ∧
    (checker_check_category env (some cat) (some cfg) tc stats).submitted.length
      = cat.count ∧
    (∀ i, i < cat.count →
      ∃ w, (checker_check_category env (some cat) (some cfg) tc stats).submitted[i]?
          = some w ∧
        w.server = i ∧ w.index = i ∧ w.total = cat.count) ∧
    pool_order pool cat.count (sequentialSchedule (size_t_of_int tc) cat.count)
      = some (List.range cat.count) ∧
    (env.order cat.type).Perm (List.range cat.count) ∧
    (checker_check_category env (some cat) (some cfg) tc stats).reports.length
      = cat.count ∧
    (∀ i, i < cat.count →
      ((checker_check_category env (some cat) (some cfg) tc stats).reports.map
        (fun r => r.current)).count (i + 1) = 1) ∧
    ((checker_check_category env (some cat) (some cfg) tc stats).reports.map
      (fun r => r.current)).Perm ((List.range cat.count).map (fun i => i + 1)) ∧
    ((checker_check_category env (some cat) (some cfg) tc stats).reports.map
      (fun r => r.current)).Nodup ∧
    (∀ r ∈ (checker_check_category env (some cat) (some cfg) tc stats).reports,
      1 ≤ r.current ∧ r.current ≤ cat.count ∧ r.total = cat.count ∧
      r.category = cat.name ∧
      ((env.probe cat.type (r.current - 1)).handle = false →
        r.server = cat.servers.getD (r.current - 1) zeroServer) ∧
      ((env.probe cat.type (r.current - 1)).handle = true →
        r.server =
          { cat.servers.getD (r.current - 1) zeroServer with
            status := classify_status (env.probe cat.type (r.current - 1)).res
              (env.probe cat.type (r.current - 1)).response_code
            latency_ms := Double.sub (env.probe cat.type (r.current - 1)).end_time
              (env.probe cat.type (r.current - 1)).start_time
            response_code := (env.probe cat.type (r.current - 1)).response_code
            last_checked := (env.probe cat.type (r.current - 1)).now }) ∧
      ∃ c2, (checker_check_category env (some cat) (some cfg) tc stats).category = some c2 ∧
        c2.servers[r.current - 1]? = some r.server) := by
  have hperm : (env.order cat.type).Perm (List.range cat.count) :=
    pool_order_perm (env.pthread cat.type) (size_t_of_int tc) pool cat.count tr
      (env.order cat.type) hsz hp hrun
  obtain ⟨c2, e1, e2, e3, e4, e5⟩ :=
    check_category_run env cat cfg tc stats pool h0 hlen hsz hp hperm
  have hmem : ∀ i ∈ env.order cat.type, i < cat.count := fun i hi =>
    List.mem_range.1 (hperm.mem_iff.1 hi)
  have hcur : (List.map (fun r => r.current)
      (List.map (report_for env cat cfg) (env.order cat.type)))
      = (env.order cat.type).map (fun i => i + 1) := by
    rw [List.map_map]
    rfl
  have hpm : ((env.order cat.type).map (fun i => i + 1)).Perm
      ((List.range cat.count).map (fun i => i + 1)) := hperm.map _
  have hnd : ((env.order cat.type).map (fun i => i + 1)).Nodup :=
    hpm.nodup_iff.2 ((List.nodup_range _).map (fun a b h => Nat.succ_injective h))
  refine ⟨?_, ?_, ?_,
    pool_order_exists (env.pthread cat.type) (size_t_of_int tc) pool cat.count hsz hp,
    hperm, ?_, ?_, ?_, ?_, ?_⟩
  · rw [check_category_ret, if_neg (by omega), hp]
    rfl
  · rw [e2, List.length_map, List.length_range]
  · intro i hi
    refine ⟨make_work cat cfg stats i, ?_, rfl, rfl, rfl⟩
    rw [e2, List.getElem?_map, List.getElem?_range hi]
    rfl
  · rw [e3, List.length_map, hperm.length_eq, List.length_range]
  · intro i hi
    rw [e3, hcur]
    apply List.count_eq_one_of_mem hnd
    exact hpm.mem_iff.2 (List.mem_map.2 ⟨i, List.mem_range.2 hi, rfl⟩)
  · rw [e3, hcur]
    exact hpm
  · rw [e3, hcur]
    exact hnd
  · intro r hr
    rw [e3, List.mem_map] at hr
    obtain ⟨i, hi, rfl⟩ := hr
    have hlt := hmem i hi
    obtain ⟨k1, k2⟩ := checked_server_eq (env.probe cat.type i) cfg
      (cat.servers.getD i zeroServer)
    refine ⟨by simp [report_for], by simp only [report_for]; omega, rfl, rfl, ?_, ?_,
      c2, e1, ?_⟩
    · simpa [report_for] using k1
    · simpa [report_for] using k2
    · simpa [report_for] using e5 i hlt

/-- Witness of `check_category_one_task_per_server`: three servers and a pool of three
workers on the schedule `shuffledSchedule`, on which the tasks run in the order 2, 0, 1.
The positions reported are 3, 1, 2; the call with position 3 carries server 2 (404:
offline), that with position 1 server 0 (200: online) and that with position 2 server 1
(no handle: left as it was). -/
theorem check_category_one_task_per_server_witness :
    threeServerCategory.count > 0 ∧
    threeServerCategory.count ≤ threeServerCategory.servers.length ∧
    (thread_pool_create (envShuffled.pthread threeServerCategory.type)
      (size_t_of_int 3)).pool
      = some threeWorkerPool ∧
    pool_order threeWorkerPool threeServerCategory.count shuffledSchedule
      = some (envShuffled.order threeServerCategory.type) ∧
    (checker_check_category envShuffled (some threeServerCategory) (some defaultConfig) 3
      (some checker_stats_init)).submitted.length = threeServerCategory.count ∧
    (envShuffled.order threeServerCategory.type).Perm
      (List.range threeServerCategory.count) ∧
    ((checker_check_category envShuffled (some threeServerCategory) (some defaultConfig) 3
      (some checker_stats_init)).reports.map (fun r => r.current)).Perm
        ((List.range threeServerCategory.count).map (fun i => i + 1)) ∧
    (checker_check_category envShuffled (some threeServerCategory) (some defaultConfig) 3
      (some checker_stats_init)).reports.map
        (fun r => (r.current, r.server.url, r.server.status, r.server.response_code))
      = [(3, "http://10.0.0.3", .BDIX_STATUS_OFFLINE, 404),
         (1, "http://10.0.0.1", .BDIX_STATUS_ONLINE, 200),
         (2, "http://10.0.0.2", .BDIX_STATUS_UNKNOWN, 0)] :=
  have hp : (thread_pool_create (envShuffled.pthread threeServerCategory.type)
      (size_t_of_int 3)).pool
      = some threeWorkerPool := by decide
  have hrun : pool_order threeWorkerPool threeServerCategory.count shuffledSchedule
      = some (envShuffled.order threeServerCategory.type) := by decide
  have h := check_category_one_task_per_server envShuffled threeServerCategory
    defaultConfig 3 (some checker_stats_init) _ shuffledSchedule (by decide) (by decide)
    (by decide) hp hrun
  ⟨by decide, by decide, hp, hrun, h.2.1, h.2.2.2.2.1, h.2.2.2.2.2.2.2.1, by decide⟩

/-! ## The queue as a linked list -/

theorem chain_congr (h1 h2 : Nat → Option WorkNode) (l : List (Nat × WorkItem)) :
    ∀ p, (∀ a ∈ l.map (fun x => x.1), h1 a = h2 a) → chain h1 p l = chain h2 p l := by
  induction l with
  | nil => intro p _; rfl
  | cons x rest ih =>
    intro p h
    obtain ⟨a, w⟩ := x
    have ha : h1 a = h2 a := h a (by simp)
    simp only [chain, ha]
    cases h2 a with
    | none => rfl
    | some nd =>
      simp only
      rw [ih nd.next (fun b hb => h b (by simp at hb ⊢; exact Or.inr hb))]

theorem chain_cons (heap : Nat → Option WorkNode) (p : Option Nat) (a : Nat) (w : WorkItem)
    (rest : List (Nat × WorkItem)) :
    chain heap p ((a, w) :: rest) = true ↔
      p = some a ∧ ∃ nd, heap a = some nd ∧ nd.item = w ∧ chain heap nd.next rest = true := by
  simp only [chain, Bool.and_eq_true, decide_eq_true_eq]
  cases heap a with
  | none => simp
  | some nd => simp

theorem chain_nil (heap : Nat → Option WorkNode) (p : Option Nat) :
    chain heap p [] = true ↔ p = none := by
  simp [chain]

theorem chain_alloc (heap : Nat → Option WorkNode) (l : List (Nat × WorkItem)) :
    ∀ p, chain heap p l = true → ∀ a ∈ l.map (fun x => x.1), heap a ≠ none := by
  induction l with
  | nil => intro p _ a ha; simp at ha
  | cons x rest ih =>
    intro p h a ha
    obtain ⟨b, w⟩ := x
    obtain ⟨_, nd, h1, _, h2⟩ := (chain_cons heap p b w rest).1 h
    simp only [List.map_cons, List.mem_cons] at ha
    rcases ha with rfl | ha
    · rw [h1]; exact fun h => Option.noConfusion h
    · exact ih nd.next h2 a ha

theorem chain_head (heap : Nat → Option WorkNode) (p : Option Nat)
    (l : List (Nat × WorkItem)) (h : chain heap p l = true) : p = none ↔ l = [] := by
  cases l with
  | nil => simpa [chain] using h
  | cons x rest =>
    obtain ⟨a, w⟩ := x
    obtain ⟨h1, _⟩ := (chain_cons heap p a w rest).1 h
    simp [h1]

/-- The last node of the list has a NULL link. -/
theorem chain_last (heap : Nat → Option WorkNode) (t : Nat) (l : List (Nat × WorkItem)) :
    ∀ p, chain heap p l = true → (l.map (fun x => x.1)).getLast? = some t →
      ∃ nd, heap t = some nd ∧ nd.next = none := by
  induction l with
  | nil => intro p _ h; simp at h
  | cons x rest ih =>
    intro p h hl
    obtain ⟨a, w⟩ := x
    obtain ⟨_, nd, h1, _, h2⟩ := (chain_cons heap p a w rest).1 h
    cases rest with
    | nil =>
      simp only [List.map_cons, List.map_nil, List.getLast?_singleton,
        Option.some.injEq] at hl
      subst hl
      exact ⟨nd, h1, (chain_nil heap nd.next).1 h2⟩
    | cons y rest2 =>
      rw [List.map_cons, List.map_cons, List.getLast?_cons_cons, ← List.map_cons] at hl
      exact ih nd.next h2 hl

/-- Linking a fresh node behind the last node of the list. -/
theorem chain_snoc (heap : Nat → Option WorkNode) (x t : Nat) (new ndt : WorkNode)
    (hnew : new.next = none) (ht : heap t = some ndt) (hxt : x ≠ t)
    (l : List (Nat × WorkItem)) :
    ∀ p, chain heap p l = true → (l.map (fun y => y.1)).getLast? = some t →
      (l.map (fun y => y.1)).Nodup → x ∉ l.map (fun y => y.1) →
      chain (fun a => if a = t then some { ndt with next := some x }
                      else if a = x then some new else heap a) p
        (l ++ [(x, new.item)]) = true := by
  induction l with
  | nil => intro p _ h; simp at h
  | cons y rest ih =>
    intro p h hl hnd hx
    obtain ⟨a, w⟩ := y
    obtain ⟨h0, nd, h1, h3, h2⟩ := (chain_cons heap p a w rest).1 h
    simp only [List.map_cons, List.mem_cons, not_or] at hx
    obtain ⟨hxa, hxr⟩ := hx
    rw [List.map_cons, List.nodup_cons] at hnd
    obtain ⟨har, hnd2⟩ := hnd
    rw [List.cons_append, chain_cons]
    cases rest with
    | nil =>
      simp only [List.map_cons, List.map_nil, List.getLast?_singleton,
        Option.some.injEq] at hl
      subst hl
      rw [h1] at ht
      simp only [Option.some.injEq] at ht
      subst ht
      refine ⟨h0, { nd with next := some x }, by simp, h3, ?_⟩
      rw [List.nil_append, chain_cons]
      refine ⟨rfl, new, ?_, rfl, ?_⟩
      · simp [hxt]
      · rw [hnew]; rfl
    | cons z rest2 =>
      rw [List.map_cons, List.map_cons, List.getLast?_cons_cons, ← List.map_cons] at hl
      have hat : a ≠ t := by
        intro e
        apply har
        rw [e]
        exact List.mem_of_mem_getLast? hl
      have hax : a ≠ x := fun e => hxa e.symm
      refine ⟨h0, nd, by simp [hat, hax, h1], h3, ?_⟩
      exact ih nd.next h2 hl hnd2 hxr

/-- An enqueue with a fresh address keeps the list well formed and appends the node. -/
theorem add_work_holds (q : LinkedQueue) (l : List (Nat × WorkItem)) (addr f arg : Nat)
    (h : q.holds l) (hf : q.heap addr = none) :
    ∃ q2, q.add_work addr f arg = .ok q2 ∧
      q2.holds (l ++ [(addr, { function := f, arg := arg })]) ∧
      q2.heap addr ≠ none ∧
      ∀ a, a ≠ addr → (q.heap a ≠ none → q2.heap a ≠ none) := by
  obtain ⟨h1, h2, h3⟩ := h
  have hx : addr ∉ l.map (fun y => y.1) := fun hm => chain_alloc q.heap l _ h1 addr hm hf
  have hnd : (List.map (fun x => x.1) (l ++ [(addr, ({ function := f, arg := arg } : WorkItem))])).Nodup := by
    rw [List.map_append, List.nodup_append]
    refine ⟨h3, by simp, ?_⟩
    intro a ha hb
    simp only [List.map_cons, List.map_nil, List.mem_singleton] at hb
    exact hx (hb ▸ ha)
  have hlast : (List.map (fun x => x.1)
      (l ++ [(addr, ({ function := f, arg := arg } : WorkItem))])).getLast? = some addr := by
    simp
  cases hl : l with
  | nil =>
    subst hl
    have hh : q.work_queue_head = none := (chain_nil _ _).1 h1
    have ht : q.work_queue_tail = none := by simpa using h2
    refine ⟨{ heap := fun a => if a = addr then
                         some { function := f, arg := arg, next := none }
                       else q.heap a
              work_queue_head := some addr, work_queue_tail := some addr },
      by simp only [LinkedQueue.add_work, ht], ⟨?_, ?_, ?_⟩, by simp, ?_⟩
    · rw [List.nil_append, chain_cons]
      exact ⟨rfl, { function := f, arg := arg, next := none }, by simp, rfl, rfl⟩
    · simp
    · simp
    · intro a ha hq
      simp [ha, hq]
  | cons y rest =>
    rw [← hl]
    have hne : l.map (fun y => y.1) ≠ [] := by rw [hl]; simp
    obtain ⟨t, ht⟩ : ∃ t, (l.map (fun y => y.1)).getLast? = some t := by
      cases hg : (l.map (fun y => y.1)).getLast? with
      | none => exact absurd (List.getLast?_eq_none_iff.1 hg) hne
      | some t => exact ⟨t, rfl⟩
    obtain ⟨ndt, hnt, _⟩ := chain_last q.heap t l _ h1 ht
    have hat : addr ≠ t := by
      intro e
      rw [e, hnt] at hf
      exact Option.noConfusion hf
    have hta : t ≠ addr := fun e => hat e.symm
    have htl : q.work_queue_tail = some t := by rw [h2, ht]
    have hch := chain_snoc q.heap addr t { function := f, arg := arg, next := none } ndt rfl
      hnt hat l _ h1 ht h3 hx
    refine ⟨{ heap := fun a => if a = t then some { ndt with next := some addr }
                       else if a = addr then
                         some { function := f, arg := arg, next := none }
                       else q.heap a
              work_queue_head := q.work_queue_head
              work_queue_tail := some addr }, ?_, ⟨hch, ?_, hnd⟩, ?_, ?_⟩
    · simp only [LinkedQueue.add_work, htl, hta, if_false, hnt]
    · rw [hlast]
    · simp [hat]
    · intro a ha hq
      simp only [ha, if_false]
      split_ifs
      · exact fun h => Option.noConfusion h
      · exact hq

/-- A dequeue takes the first node of a well-formed list and leaves the rest well
formed; on an empty list it returns NULL and changes nothing. -/
theorem dequeue_holds (q : LinkedQueue) (l : List (Nat × WorkItem)) (h : q.holds l) :
    (l = [] → q.dequeue = .ok (none, q)) ∧
    (∀ a w rest, l = (a, w) :: rest →
      ∃ q2, q.dequeue = .ok (some a, q2) ∧ q2.holds rest ∧ q2.heap = q.heap ∧
        (q.heap a).map WorkNode.item = some w) := by
  obtain ⟨h1, h2, h3⟩ := h
  constructor
  · intro hl
    subst hl
    have hh : q.work_queue_head = none := (chain_nil _ _).1 h1
    simp only [LinkedQueue.dequeue, hh]
  · intro a w rest hl
    subst hl
    obtain ⟨h0, nd, e1, e2, e3⟩ := (chain_cons _ _ a w rest).1 h1
    rw [List.map_cons, List.nodup_cons] at h3
    refine ⟨{ q with work_queue_head := nd.next
                     work_queue_tail := if nd.next = none then none
                                        else q.work_queue_tail }, ?_, ⟨e3, ?_, h3.2⟩, rfl, ?_⟩
    · simp only [LinkedQueue.dequeue, h0, e1]
    · have hr := chain_head _ _ _ e3
      by_cases hn : nd.next = none
      · have : rest = [] := hr.1 hn
        subst this
        simp [hn]
      · have hne : rest ≠ [] := fun e => hn (hr.2 e)
        simp only [hn, if_false]
        rw [h2]
        cases rest with
        | nil => exact absurd rfl hne
        | cons z rest2 => simp [List.getLast?_cons_cons]
    · simp [e1, e2]

theorem free_holds (q : LinkedQueue) (l : List (Nat × WorkItem)) (addr : Nat)
    (h : q.holds l) (hx : addr ∉ l.map (fun y => y.1)) : (q.free addr).holds l := by
  obtain ⟨h1, h2, h3⟩ := h
  refine ⟨?_, h2, h3⟩
  have : chain (q.free addr).heap q.work_queue_head l = chain q.heap q.work_queue_head l := by
    apply chain_congr
    intro a ha
    have : a ≠ addr := fun e => hx (e ▸ ha)
    simp [LinkedQueue.free, this]
  simpa [LinkedQueue.free] using this.trans h1

/-- One enabled operation on a queue in memory that represents `f` does not fault and
gives a queue that represents `f` after the same operation. -/
theorem step_refines (s : QueueSys) (f : Fifo) (op : QueueOp) (h : Refines s f)
    (he : s.enabled op) : ∃ s2, s.step op = .ok s2 ∧ Refines s2 (f.step op) := by
  obtain ⟨l, h1, h2, h3, h4, h5⟩ := h
  cases op with
  | add addr fn arg =>
    have hf : s.q.heap addr = none := he
    obtain ⟨q2, a1, a2, a3, a4⟩ := add_work_holds s.q l addr fn arg h1 hf
    refine ⟨{ s with q := q2 }, by simp only [QueueSys.step, a1], _, a2, ?_, h3, h4, ?_⟩
    · simp [Fifo.step, h2]
    · intro a ha
      obtain ⟨b1, b2⟩ := h5 a ha
      have hne : a ≠ addr := fun e => b1 (e ▸ hf)
      refine ⟨a4 a hne b1, ?_⟩
      simp only [List.map_append, List.map_cons, List.map_nil, List.mem_append,
        List.mem_singleton, not_or]
      exact ⟨b2, hne⟩
  | take =>
    obtain ⟨d1, d2⟩ := dequeue_holds s.q l h1
    cases hl : l with
    | nil =>
      have hq : f.queue = [] := by rw [← h2, hl]; rfl
      refine ⟨s, by simp only [QueueSys.step, d1 hl], l, h1, ?_, ?_, h4, h5⟩
      · simp only [Fifo.step, hq]
        rw [← hq, h2]
      · simp only [Fifo.step, hq]
        exact h3
    | cons x rest =>
      obtain ⟨a, w⟩ := x
      obtain ⟨q2, e1, e2, e3, e4⟩ := d2 a w rest hl
      have hq : f.queue = w :: rest.map (fun x => x.2) := by rw [← h2, hl]; rfl
      have hnd := h1.2.2
      rw [hl, List.map_cons, List.nodup_cons] at hnd
      have hah : a ∉ s.held := by
        intro hm
        apply (h5 a hm).2
        rw [hl]
        simp
      refine ⟨{ q := q2, held := s.held ++ [a], taken := s.taken ++ [w] }, ?_, rest, e2, ?_,
        ?_, ?_, ?_⟩
      · simp only [QueueSys.step, e1, e4, Option.toList]
      · simp only [Fifo.step, hq]
      · simp only [Fifo.step, hq, h3]
      · rw [List.nodup_append]
        refine ⟨h4, by simp, ?_⟩
        intro b hb hb2
        simp only [List.mem_singleton] at hb2
        exact hah (hb2 ▸ hb)
      · intro b hb
        simp only [List.mem_append, List.mem_singleton] at hb
        rw [e3]
        rcases hb with hb | rfl
        · obtain ⟨b1, b2⟩ := h5 b hb
          refine ⟨b1, ?_⟩
          intro hm
          apply b2
          rw [hl, List.map_cons]
          exact List.mem_cons_of_mem _ hm
        · refine ⟨?_, hnd.1⟩
          intro hn
          rw [hn] at e4
          exact Option.noConfusion e4
  | free addr =>
    have hm : addr ∈ s.held := he
    obtain ⟨_, b2⟩ := h5 addr hm
    refine ⟨{ s with q := s.q.free addr, held := s.held.erase addr }, rfl, l,
      free_holds s.q l addr h1 b2, h2, h3, h4.erase addr, ?_⟩
    intro a ha
    obtain ⟨hne, hmem⟩ := (List.Nodup.mem_erase_iff h4).1 ha
    obtain ⟨c1, c2⟩ := h5 a hmem
    exact ⟨by simpa [LinkedQueue.free, hne] using c1, c2⟩

theorem run_refines (ops : List QueueOp) :
    ∀ (s : QueueSys) (f : Fifo), Refines s f → s.legal ops = true →
      ∃ s2, s.run ops = .ok s2 ∧ Refines s2 (f.run ops) := by
  induction ops with
  | nil => intro s f h _; exact ⟨s, rfl, h⟩
  | cons op ops ih =>
    intro s f h hl
    simp only [QueueSys.legal, Bool.and_eq_true, decide_eq_true_eq] at hl
    obtain ⟨he, hl2⟩ := hl
    obtain ⟨s1, e1, r1⟩ := step_refines s f op h he
    rw [e1] at hl2
    obtain ⟨s2, e2, r2⟩ := ih s1 (f.step op) r1 hl2
    exact ⟨s2, by simp only [QueueSys.run, e1, e2], by simpa [Fifo.run] using r2⟩

theorem empty_refines : Refines QueueSys.empty { queue := [], taken := [] } :=
  ⟨[], ⟨rfl, rfl, List.nodup_nil⟩, rfl, rfl, List.nodup_nil, by simp [QueueSys.empty]⟩

/-- What well-formedness says about the two pointers. -/
theorem holds_pointers (q : LinkedQueue) (l : List (Nat × WorkItem)) (h : q.holds l) :
    (q.work_queue_head = none ↔ q.work_queue_tail = none) ∧
    (∀ t, q.work_queue_tail = some t →
      (l.map (fun x => x.1)).getLast? = some t ∧ t ∈ l.map (fun x => x.1) ∧
      ∃ nd, q.heap t = some nd ∧ nd.next = none) := by
  obtain ⟨h1, h2, _⟩ := h
  constructor
  · rw [chain_head _ _ _ h1, h2, List.getLast?_eq_none_iff, List.map_eq_nil_iff]
  · intro t ht
    rw [h2] at ht
    exact ⟨ht, List.mem_of_mem_getLast? ht, chain_last q.heap t l _ h1 ht⟩

/-- C30: starting from the empty queue of a created pool, after every sequence of
enqueues (thread_pool_add_work, each with a freshly allocated node), dequeues
(worker_thread) and frees of dequeued nodes, no operation has touched freed memory and the
linked list is well formed: the nodes reachable from work_queue_head are a duplicate-free
list l ending in a NULL link, work_queue_head is NULL if and only if work_queue_tail is
NULL, and a non-NULL work_queue_tail is the last node of l and has next == NULL. The work
items of l, in order, are the queue of the abstract FIFO (enqueue appends at the back,
dequeue removes the front) after the same operations, and the work items dequeued so far
are the same; the abstract operations are those of the list field work_queue of the pool
model. -/
theorem linked_queue_refines_fifo :
    (∀ ops : List QueueOp, QueueSys.legal QueueSys.empty ops = true →
      ∃ (s : QueueSys) (l : List (Nat × WorkItem)),
        QueueSys.run QueueSys.empty ops = .ok s ∧ s.q.holds l ∧
        l.map (fun x => x.2) = (Fifo.run { queue := [], taken := [] } ops).queue ∧
        s.taken = (Fifo.run { queue := [], taken := [] } ops).taken ∧
        (s.q.work_queue_head = none ↔ s.q.work_queue_tail = none) ∧
        (∀ t, s.q.work_queue_tail = some t →
          (l.map (fun x => x.1)).getLast? = some t ∧ t ∈ l.map (fun x => x.1) ∧
          ∃ nd, s.q.heap t = some nd ∧ nd.next = none)) ∧
    (∀ (p : ThreadPool) (w : WorkItem) (addr : Nat) (taken : List WorkItem),
      (Fifo.step { queue := p.work_queue, taken := taken }
        (.add addr w.function w.arg)).queue = (enqueue p w).work_queue) ∧
    (∀ (i : Nat) (p : ThreadPool) (w : WorkItem) (rest taken : List WorkItem),
      p.work_queue = w :: rest →
      ∃ p2, worker_thread i p .dequeue = some (p2, .unlock (some w), .dequeued w) ∧
        Fifo.step { queue := p.work_queue, taken := taken } .take
          = { queue := p2.work_queue, taken := taken ++ [w] }) := by
  refine ⟨?_, ?_, ?_⟩
  · intro ops hl
    obtain ⟨s, e, l, h1, h2, h3, _, _⟩ := run_refines ops _ _ empty_refines hl
    obtain ⟨p1, p2⟩ := holds_pointers s.q l h1
    exact ⟨s, l, e, h1, h2, h3, p1, p2⟩
  · intro p w addr taken
    rfl
  · intro i p w rest taken hq
    simp [worker_thread, hq, Fifo.step]

/-- Witness of `linked_queue_refines_fifo`: three enqueues, two dequeues, a free and an
enqueue that reuses the freed address; the list then runs from node 300 to node 100. -/
theorem linked_queue_refines_fifo_witness :
    QueueSys.legal QueueSys.empty queueOps = true ∧
    (∃ (s : QueueSys) (l : List (Nat × WorkItem)),
      QueueSys.run QueueSys.empty queueOps = .ok s ∧ s.q.holds l ∧
      l.map (fun x => x.2) = (Fifo.run { queue := [], taken := [] } queueOps).queue ∧
      s.taken = (Fifo.run { queue := [], taken := [] } queueOps).taken ∧
      (s.q.work_queue_head = none ↔ s.q.work_queue_tail = none) ∧
      (∀ t, s.q.work_queue_tail = some t →
        (l.map (fun x => x.1)).getLast? = some t ∧ t ∈ l.map (fun x => x.1) ∧
        ∃ nd, s.q.heap t = some nd ∧ nd.next = none)) ∧
    Fifo.run { queue := [], taken := [] } queueOps =
      { queue := [{ function := 1, arg := 30 }, { function := 1, arg := 40 }]
        taken := [{ function := 1, arg := 10 }, { function := 1, arg := 20 }] } ∧
    (QueueSys.run QueueSys.empty queueOps).toOption.map
        (fun s => (s.q.work_queue_head, s.q.work_queue_tail, s.held))
      = some (some 300, some 100, [200]) :=
  ⟨by decide, linked_queue_refines_fifo.1 queueOps (by decide), by decide, by decide⟩

end Bdix
